import Mathlib

/-!
Verification of the declarative SQLite schema migrator of this repository
(`src/database/migrations.rs`, with the parallel copy in
`src/lib/migrations/main.rs`).

The development shallowly embeds:
* the pure SQL normalizer `normalize_sql` (four regex passes plus trim),
  modelled character-for-character on `List Char`;
* Rust's `str::replace` (leftmost, non-overlapping, replace-all), used by
  `migrate_table` to build the temporary-table DDL;
* the migrator itself (`analyze_changes`, `apply_changes`, `migrate_table`,
  `migrate_indices`, `migrate`) as a state machine over an abstract catalog
  `DB` (tables with their stored DDL text, column list and rows; indices with
  their owning table and DDL text; the `user_version` pragma), with an
  injectable executor failure so that rollback behaviour can be stated.

Engine-level behaviour that the Rust code relies on but does not implement is
modelled explicitly and conservatively:
* `CREATE TABLE` / `CREATE INDEX` fail when the name already exists;
* `DROP TABLE t` also drops the indices whose owning table is `t`
  (SQLite drops a table's indices with the table);
* `ALTER TABLE old RENAME TO new` rewrites the stored DDL, replacing the
  leading `CREATE TABLE old` by `CREATE TABLE "new"` with the new name
  double-quoted, as SQLite does when it rewrites the schema on a rename
  (this quoting is the reason `normalize_sql` strips double quotes).
-/

namespace SyllabusMig

/-! ## Character classes used by the normalizer's regexes -/

/-- `\s` of the Rust regex crate, restricted to the ASCII whitespace forms. -/
def isWsChar (c : Char) : Bool :=
  c = ' ' || c = '\t' || c = '\n' || c = '\r' || c = '\x0b' || c = '\x0c'

/-- `\w`: alphanumerics and underscore. -/
def isWordChar (c : Char) : Bool :=
  c.isAlphanum || c = '_'

/-- The punctuation class `[(),]` of the third regex pass. -/
def isPunctChar (c : Char) : Bool :=
  c = '(' || c = ')' || c = ','

/-! ## Pass 1: `--[^\n]*\n` → "" (strip newline-terminated line comments) -/

/-- Drop characters up to and including the first newline. -/
def dropLine : List Char → List Char
  | [] => []
  | c :: r => if c = '\n' then r else dropLine r

/-- Scanner for pass 1. In the `false` state we look for `--`; a `--` whose
suffix still holds a newline starts a comment, consumed by the `true` state
up to and including that newline. A `--` with no later newline cannot be
matched by the regex (which requires the terminating newline), and then no
later position can match either, so the remainder is kept verbatim. -/
def rcGo : Bool → List Char → List Char
  | true, [] => []
  | true, c :: r => if c = '\n' then rcGo false r else rcGo true r
  | false, [] => []
  | false, [c] => [c]
  | false, c :: d :: r2 =>
    if c = '-' then
      if d = '-' then
        if r2.contains '\n' then rcGo true r2 else c :: d :: r2
      else c :: rcGo false (d :: r2)
    else c :: rcGo false (d :: r2)

/-- Replace-all of the regex `--[^\n]*\n` by the empty string. -/
def removeComments (l : List Char) : List Char := rcGo false l

/-! ## Pass 2: `\s+` → " " (collapse whitespace runs) -/

/-- Scanner for pass 2: the flag records whether the previous character was
whitespace (i.e. the single replacement space was already emitted). -/
def cwGo : Bool → List Char → List Char
  | _, [] => []
  | inWs, c :: r =>
    if isWsChar c then
      if inWs then cwGo true r else ' ' :: cwGo true r
    else c :: cwGo false r

/-- Replace-all of `\s+` by a single space. -/
def collapseWs (l : List Char) : List Char := cwGo false l

/-! ## Pass 3: ` *([(),]) *` → `$1` (strip spaces around punctuation) -/

/-- Scanner for pass 3. `dm` means a punctuation character was just emitted
and its trailing spaces are being dropped; otherwise `pend` counts spaces
whose fate (kept, or absorbed by a following punctuation character) is not
yet decided. `dm = true` always comes with `pend = 0`. -/
def cpGo : Bool → Nat → List Char → List Char
  | _, pend, [] => List.replicate pend ' '
  | dm, pend, c :: r =>
    if c = ' ' then
      if dm then cpGo true 0 r else cpGo false (pend + 1) r
    else if isPunctChar c then c :: cpGo true 0 r
    else List.replicate pend ' ' ++ (c :: cpGo false 0 r)

/-- Replace-all of ` *([(),]) *` by the punctuation character alone. -/
def collapsePunct (l : List Char) : List Char := cpGo false 0 l

/-! ## Pass 4: `"(\w+)"` → `$1` (strip quotes around simple identifiers) -/

/-- Scanner for pass 4. `none` is the plain state; `some acc` means an
opening double quote was read and `acc` holds (reversed) the word characters
read since. A closing quote after a non-empty word completes a match; any
other terminator makes the regex fail at that opening quote, and scanning
resumes without consuming what follows it, which is sound because no match
can begin at a word character. -/
def sqGo : Option (List Char) → List Char → List Char
  | none, [] => []
  | none, c :: r => if c = '"' then sqGo (some []) r else c :: sqGo none r
  | some acc, [] => '"' :: acc.reverse
  | some acc, c :: r =>
    if isWordChar c then sqGo (some (c :: acc)) r
    else if c = '"' then
      if acc.isEmpty then '"' :: sqGo (some []) r
      else acc.reverse ++ sqGo none r
    else ('"' :: acc.reverse) ++ (c :: sqGo none r)

/-- Replace-all of `"(\w+)"` by the quoted word. -/
def stripQuotes (l : List Char) : List Char := sqGo none l

/-! ## Pass 5: trim -/

/-- Remove a trailing whitespace run. -/
def trimTrail : List Char → List Char
  | [] => []
  | c :: r =>
    let t := trimTrail r
    if t.isEmpty && isWsChar c then [] else c :: t

/-- Rust `str::trim`: drop whitespace at both ends. -/
def trimL (l : List Char) : List Char :=
  trimTrail (l.dropWhile isWsChar)

/-! ## The normalizer -/

/-- The four regex passes plus trim, in source order. -/
def normChars (l : List Char) : List Char :=
  trimL (stripQuotes (collapsePunct (collapseWs (removeComments l))))

/-- `normalize_sql` of `src/database/migrations.rs` (identical copy in
`src/lib/migrations/main.rs`): strip `--` comments, collapse whitespace,
strip spaces around `(`, `)` and `,`, strip double quotes around simple
identifiers, trim. -/
def normalize_sql (s : String) : String :=
  String.mk (normChars s.data)

/-! ## Rust `str::replace` and substring occurrence -/

/-- Does `pat` occur at the head of `l`? -/
def startsWithL : List Char → List Char → Bool
  | [], _ => true
  | _ :: _, [] => false
  | p :: ps, c :: cs => p = c && startsWithL ps cs

/-- Does `pat` occur anywhere in `l`? -/
def containsSubstrL (pat : List Char) : List Char → Bool
  | [] => startsWithL pat []
  | c :: r => startsWithL pat (c :: r) || containsSubstrL pat r

/-- Fuelled worker for `replaceAllL`; the fuel dominates the input length, so
the out-of-fuel branch is never taken at the wrapper's instantiation. -/
def replaceAllF (pat rep : List Char) : Nat → List Char → List Char
  | _, [] => []
  | 0, l => l
  | fuel + 1, c :: r =>
    if pat ≠ [] ∧ startsWithL pat (c :: r) = true then
      rep ++ replaceAllF pat rep fuel ((c :: r).drop pat.length)
    else c :: replaceAllF pat rep fuel r

/-- Rust `str::replace`: replace every leftmost non-overlapping occurrence of
`pat` by `rep` (the migrator only uses non-empty patterns). -/
def replaceAllL (pat rep l : List Char) : List Char :=
  replaceAllF pat rep l.length l

/-- Replace only the leftmost occurrence of `pat` by `rep` (used to model the
engine's DDL rewrite on `ALTER TABLE … RENAME TO …`). -/
def replaceFirstL (pat rep : List Char) : List Char → List Char
  | [] => []
  | c :: r =>
    if pat ≠ [] ∧ startsWithL pat (c :: r) = true then
      rep ++ (c :: r).drop pat.length
    else c :: replaceFirstL pat rep r

/-- String wrapper for `replaceAllL`. -/
def replaceAllS (s pat rep : String) : String :=
  String.mk (replaceAllL pat.data rep.data s.data)

/-- String wrapper for `replaceFirstL`. -/
def replaceFirstS (s pat rep : String) : String :=
  String.mk (replaceFirstL pat.data rep.data s.data)

/-- String wrapper for `containsSubstrL`. -/
def containsSubstrS (s pat : String) : Bool :=
  containsSubstrL pat.data s.data

/-- `Vec::join(", ")` as used for the column list of the copy statement. -/
def commaJoin : List String → String
  | [] => ""
  | [s] => s
  | s :: r => s ++ ", " ++ commaJoin r

/-! ## Association lists (the catalog maps) -/

/-- First-match lookup in an association list keyed by strings. -/
def alookup {α : Type} : List (String × α) → String → Option α
  | [], _ => none
  | (k, v) :: r, n => if k = n then some v else alookup r n

/-- Remove the first entry with the given key. -/
def aerase {α : Type} : List (String × α) → String → List (String × α)
  | [], _ => []
  | (k, v) :: r, n => if k = n then r else (k, v) :: aerase r n

/-- Replace the value of the first entry with the given key. -/
def aset {α : Type} : List (String × α) → String → α → List (String × α)
  | [], _, _ => []
  | (k, v) :: r, n, v2 => if k = n then (k, v2) :: r else (k, v) :: aset r n v2

/-! ## The catalog model -/

/-- One table of the catalog: its stored `CREATE TABLE` text (`sql` of
`sqlite_master`), its column names in `PRAGMA table_info` order, and its rows.
A row is a partial assignment of values to column names; an absent column
reads as SQL NULL. -/
structure TableInfo where
  sql : String
  cols : List String
  rows : List (List (String × String))
deriving Repr, DecidableEq

/-- One index of the catalog: the table it belongs to (`tbl_name` of
`sqlite_master`, used only by the engine model's drop-table cascade) and its
stored `CREATE INDEX` text. -/
structure IndexInfo where
  tbl : String
  sql : String
deriving Repr, DecidableEq

/-- A SQLite database at the abstraction level the migrator sees: the catalog
plus the `user_version` pragma. -/
structure DB where
  tables : List (String × TableInfo)
  indices : List (String × IndexInfo)
  userVersion : Int
deriving Repr, DecidableEq

def tableNames (db : DB) : List String := db.tables.map (fun e => e.1)

def indexNames (db : DB) : List String := db.indices.map (fun e => e.1)

/-! ## Engine statement semantics

Each function models the effect of one generated SQL statement on the live
database; `none` is an executor error (the statement is rejected). -/

/-- `CREATE TABLE` (executing stored DDL text): fails if the name exists,
otherwise records the DDL text verbatim with the given columns and no rows. -/
def createTableFn (n sql : String) (cols : List String) (db : DB) : Option DB :=
  if (alookup db.tables n).isSome then none
  else some { db with tables := db.tables ++ [(n, ⟨sql, cols, []⟩)] }

/-- `DROP TABLE n`: fails if absent; also drops the indices owned by `n`
(SQLite drops a table's indices together with the table). -/
def dropTableFn (n : String) (db : DB) : Option DB :=
  if (alookup db.tables n).isSome then
    some { db with tables := aerase db.tables n,
                   indices := db.indices.filter (fun e => e.2.tbl ≠ n) }
  else none

/-- Restrict a row to the named columns, in that column order. -/
def restrictRow (cols : List String) (row : List (String × String)) :
    List (String × String) :=
  cols.filterMap (fun c => (alookup row c).map (fun v => (c, v)))

/-- `INSERT INTO dst (cols) SELECT cols FROM src`: every row of `src` is
copied into `dst`, keeping exactly the listed columns. -/
def copyDataFn (dst src : String) (cols : List String) (db : DB) : Option DB :=
  match alookup db.tables src, alookup db.tables dst with
  | some s, some d =>
      some { db with tables := aset db.tables dst { d with rows := s.rows.map (restrictRow cols) } }
  | _, _ => none

/-- The stored-DDL rewrite SQLite performs on `ALTER TABLE old RENAME TO new`:
the leading `CREATE TABLE old` becomes `CREATE TABLE "new"` (double-quoted). -/
def renameSqlInDdl (sql old renamed : String) : String :=
  replaceFirstS sql ("CREATE TABLE " ++ old) ("CREATE TABLE \"" ++ renamed ++ "\"")

/-- `ALTER TABLE old RENAME TO renamed`: fails if `old` is absent or `renamed`
exists; rewrites the stored DDL and re-homes indices owned by `old`. -/
def renameTableFn (old renamed : String) (db : DB) : Option DB :=
  match alookup db.tables old with
  | none => none
  | some t =>
    if (alookup db.tables renamed).isSome then none
    else some { db with
      tables := aerase db.tables old ++ [(renamed, { t with sql := renameSqlInDdl t.sql old renamed })],
      indices := db.indices.map (fun e => if e.2.tbl = old then (e.1, { e.2 with tbl := renamed }) else e) }

/-- `DROP INDEX n`: fails if absent. -/
def dropIndexFn (n : String) (db : DB) : Option DB :=
  if (alookup db.indices n).isSome then some { db with indices := aerase db.indices n }
  else none

/-- `CREATE INDEX` (executing the target's stored DDL): fails if the name
exists; the owning table comes from the engine parsing the DDL, i.e. from the
pristine catalog entry being replayed. -/
def createIndexFn (n : String) (ii : IndexInfo) (db : DB) : Option DB :=
  if (alookup db.indices n).isSome then none
  else some { db with indices := db.indices ++ [(n, ii)] }

/-- `PRAGMA user_version = v`. -/
def setUserVersionFn (v : Int) (db : DB) : Option DB :=
  some { db with userVersion := v }

/-! ## The migrator -/

/-- The error classes of the migrator (all are `AppError::Internal` in the
source; they are distinguished here by which `format!` message produced them).
`execFail` stands for a database statement rejected by the engine or failing
at runtime, carrying the source's step description. -/
inductive MigErr
  | execFail (description : String)
  | refusedColumns (cols : List String) (table : String)
  | refusedTables (tables : List String)
  | refusedIndices (indices : List String)
deriving Repr, DecidableEq

/-- Observable events of one `migrate` call, in order: executed schema
statements (`execute_schema_change`), the transaction commit or rollback, and
the post-commit `VACUUM`. -/
inductive Ev
  | exec (description : String)
  | commit
  | rollback
  | vacuum
deriving Repr, DecidableEq

/-- Executor state threaded through `apply_changes`: the transaction's view
of the database, the migrator instance's `schema_changes_made` counter, the
number of statements executed in this attempt, and the event log. -/
structure St where
  tx : DB
  count : Nat
  attempt : Nat
  events : List Ev
deriving Repr, DecidableEq

/-- `execute_schema_change`: log and execute one statement, then increment
`schema_changes_made`. `failAt = some k` injects an executor failure at the
k-th statement of the attempt (0-based); the counter is only incremented
after a successful execution, as in the source. -/
def execStmt (failAt : Option Nat) (desc : String) (f : DB → Option DB) (st : St) :
    Except (MigErr × St) St :=
  if failAt = some st.attempt then .error (.execFail desc, st)
  else match f st.tx with
    | none => .error (.execFail desc, st)
    | some db2 =>
        .ok { tx := db2, count := st.count + 1, attempt := st.attempt + 1,
              events := st.events ++ [.exec desc] }

/-- `ChangesNeeded` of `src/database/migrations.rs` (modified tables are bare
names there; the per-table column detail is recomputed where needed). -/
structure ChangesNeeded where
  new_tables : List String
  removed_tables : List String
  modified_tables : List String
  new_indices : List String
  removed_indices : List String
  modified_indices : List String
  pragma_changes : Bool
deriving Repr, DecidableEq

/-- `ChangesNeeded::has_any_changes`. -/
def ChangesNeeded.hasAnyChanges (c : ChangesNeeded) : Bool :=
  !c.new_tables.isEmpty || !c.removed_tables.isEmpty || !c.modified_tables.isEmpty ||
  !c.new_indices.isEmpty || !c.removed_indices.isEmpty || !c.modified_indices.isEmpty ||
  c.pragma_changes

/-- Normalized inequality of two DDL fragments, as compared by the diff. -/
def normNe (a b : String) : Bool :=
  !(normalize_sql a == normalize_sql b)

/-- The pure diff underlying `analyze_changes`: partition names, compare
normalized DDL on the intersection, compare `user_version`. (The source
iterates `HashSet`s in arbitrary order; the model fixes catalog order, which
no claim depends on.) -/
def analyzeChangesRaw (cur target : DB) : ChangesNeeded :=
  { new_tables := (tableNames target).filter (fun n => (alookup cur.tables n).isNone)
  , removed_tables := (tableNames cur).filter (fun n => (alookup target.tables n).isNone)
  , modified_tables := (tableNames cur).filter (fun n =>
      match alookup cur.tables n, alookup target.tables n with
      | some a, some b => normNe a.sql b.sql
      | _, _ => false)
  , new_indices := (indexNames target).filter (fun n => (alookup cur.indices n).isNone)
  , removed_indices := (indexNames cur).filter (fun n => (alookup target.indices n).isNone)
  , modified_indices := (indexNames cur).filter (fun n =>
      match alookup cur.indices n, alookup target.indices n with
      | some a, some b => normNe a.sql b.sql
      | _, _ => false)
  , pragma_changes := !(cur.userVersion == target.userVersion) }

/-- Column names of table `n` (`PRAGMA table_info(n)`; an absent table yields
the empty list, as the pragma returns no rows). -/
def currentColsIn (db : DB) (n : String) : List String :=
  match alookup db.tables n with
  | some t => t.cols
  | none => []

/-- The columns of `n` present in `cur` but not in `target` (`current минус
target` by name). -/
def removedColumnsOf (cur target : DB) (n : String) : List String :=
  (currentColsIn cur n).filter (fun c => !((currentColsIn target n).contains c))

/-- `analyze_changes` of `src/database/migrations.rs`: the diff followed by
the forbidden-deletion check (first the removed columns of each modified
table in turn, then removed tables; removed indices are not checked here). -/
def analyzeChanges (allow : Bool) (cur target : DB) : Except MigErr ChangesNeeded :=
  let ch := analyzeChangesRaw cur target
  if (!ch.removed_tables.isEmpty || !ch.modified_tables.isEmpty) && !allow then
    match ch.modified_tables.find? (fun n => !(removedColumnsOf cur target n).isEmpty) with
    | some n => .error (.refusedColumns (removedColumnsOf cur target n) n)
    | none =>
      if !ch.removed_tables.isEmpty then .error (.refusedTables ch.removed_tables)
      else .ok ch
  else .ok ch

/-- The temporary name used by the rebuild of table `n`. -/
def tempNameOf (n : String) : String := n ++ "_migration_new"

/-- The temporary-table DDL of `migrate_table`: Rust `str::replace` of
`CREATE TABLE <n>` by `CREATE TABLE <n>_migration_new` over the target DDL
(a replace-all, not a leading-token substitution). -/
def tempSqlOf (n ddl : String) : String :=
  replaceAllS ddl ("CREATE TABLE " ++ n) ("CREATE TABLE " ++ tempNameOf n)

/-- The data-copy statement text of `migrate_table`: the same joined column
list appears in the INSERT list and the SELECT list. -/
def copySqlString (dst src : String) (cols : List String) : String :=
  "INSERT INTO " ++ dst ++ " (" ++ commaJoin cols ++ ") SELECT " ++ commaJoin cols ++ " FROM " ++ src

/-- `migrate_table`: create the temporary table from the rewritten target
DDL, re-check the column-deletion policy, copy the common columns, drop the
old table, rename the temporary table into place. -/
def migrateTable (allow : Bool) (failAt : Option Nat) (n : String) (targetT : TableInfo)
    (st : St) : Except (MigErr × St) St :=
  execStmt failAt ("Create temporary table for " ++ n)
      (createTableFn (tempNameOf n) (tempSqlOf n targetT.sql) targetT.cols) st >>= fun st1 =>
    if !((currentColsIn st1.tx n).filter (fun c => !(targetT.cols.contains c))).isEmpty && !allow then
      .error (.refusedColumns ((currentColsIn st1.tx n).filter (fun c => !(targetT.cols.contains c))) n, st1)
    else
      (if !((currentColsIn st1.tx n).filter (fun c => targetT.cols.contains c)).isEmpty then
          execStmt failAt ("Copy data to new " ++ n)
            (copyDataFn (tempNameOf n) n ((currentColsIn st1.tx n).filter (fun c => targetT.cols.contains c))) st1
        else .ok st1) >>= fun st2 =>
      execStmt failAt ("Drop old table " ++ n) (dropTableFn n) st2 >>= fun st3 =>
      execStmt failAt ("Rename new table to " ++ n) (renameTableFn (tempNameOf n) n) st3

/-- The new-tables phase of `apply_changes`: replay the pristine DDL of each
planned new table (names absent from the pristine catalog are skipped). -/
def createNewTables (failAt : Option Nat) (target : DB) (names : List String)
    (st : St) : Except (MigErr × St) St :=
  names.foldlM (fun st n =>
    match alookup target.tables n with
    | some ti => execStmt failAt ("Create new table " ++ n) (createTableFn n ti.sql ti.cols) st
    | none => .ok st) st

/-- The modified-tables phase of `apply_changes`: per table, re-check the
column-deletion policy when deletions are disallowed, then rebuild. -/
def rebuildModified (allow : Bool) (failAt : Option Nat) (target : DB)
    (names : List String) (st : St) : Except (MigErr × St) St :=
  names.foldlM (fun st n =>
    (if !allow then
        if !((currentColsIn st.tx n).filter (fun c => !((currentColsIn target n).contains c))).isEmpty then
          Except.error (MigErr.refusedColumns
            ((currentColsIn st.tx n).filter (fun c => !((currentColsIn target n).contains c))) n, st)
        else .ok st
      else .ok st) >>= fun st0 =>
    match alookup target.tables n with
    | some ti => migrateTable allow failAt n ti st0
    | none => .ok st0) st

/-- The removed-tables phase of `apply_changes`: refuse when deletions are
disallowed, otherwise drop each removed table. -/
def dropRemovedTables (allow : Bool) (failAt : Option Nat) (names : List String)
    (st : St) : Except (MigErr × St) St :=
  if names.isEmpty then .ok st
  else if !allow then .error (.refusedTables names, st)
  else names.foldlM (fun st n => execStmt failAt ("Drop table " ++ n) (dropTableFn n) st) st

/-- `migrate_indices`: drop the current indices absent from the target, then
walk the target indices, recreating those whose normalized DDL changed and
creating the new ones. Lookups branch on the in-memory snapshot
`currentIndices` while statements run against the transaction, as in the
source. -/
def migrateIndicesM (failAt : Option Nat) (currentIndices targetIndices : List (String × IndexInfo))
    (st : St) : Except (MigErr × St) St :=
  currentIndices.foldlM (fun st e =>
      if (alookup targetIndices e.1).isNone then
        execStmt failAt ("Drop obsolete index " ++ e.1) (dropIndexFn e.1) st
      else .ok st) st >>= fun st4 =>
  targetIndices.foldlM (fun st e =>
      match alookup currentIndices e.1 with
      | some ci =>
        if normNe ci.sql e.2.sql then
          execStmt failAt ("Drop changed index " ++ e.1) (dropIndexFn e.1) st >>= fun st5 =>
          execStmt failAt ("Recreate index " ++ e.1) (createIndexFn e.1 e.2) st5
        else .ok st
      | none => execStmt failAt ("Create new index " ++ e.1) (createIndexFn e.1 e.2) st) st4

/-- `apply_changes`: new tables, then modified-table rebuilds, then removed
tables, then the index refusal check against the indices re-read from the
transaction, then index reconciliation, then the `user_version` pragma (a
zero target version is never written). -/
def applyChanges (allow : Bool) (failAt : Option Nat) (target : DB) (ch : ChangesNeeded)
    (st : St) : Except (MigErr × St) St :=
  createNewTables failAt target ch.new_tables st >>= fun stA =>
  rebuildModified allow failAt target ch.modified_tables stA >>= fun stB =>
  dropRemovedTables allow failAt ch.removed_tables stB >>= fun stC =>
  if !(((stC.tx.indices.map (fun e => e.1)).filter (fun n => (alookup target.indices n).isNone)).isEmpty) && !allow then
    .error (.refusedIndices ((stC.tx.indices.map (fun e => e.1)).filter (fun n => (alookup target.indices n).isNone)), stC)
  else
    migrateIndicesM failAt stC.tx.indices target.indices stC >>= fun stE =>
    if ch.pragma_changes then
      if !(target.userVersion == 0) then
        execStmt failAt ("Set user_version to " ++ toString target.userVersion)
          (setUserVersionFn target.userVersion) stE
      else .ok stE
    else .ok stE

deriving instance DecidableEq for Except

/-- What one `migrate` call returns and leaves behind: the database after the
call, the `Result<bool, _>`, the instance's `schema_changes_made` counter,
and the event log. -/
structure MigResult where
  db : DB
  res : Except MigErr Bool
  counter : Nat
  events : List Ev
deriving Repr, DecidableEq

/-- `DeclarativeMigrator::migrate` on an instance whose `schema_changes_made`
counter currently holds `c0` (`c0 = 0` for a freshly constructed migrator):
analyze inside the transaction, commit the empty transaction when nothing is
to change, otherwise apply and commit (running `VACUUM` after commit when the
instance counter is positive) or roll back on error. The pristine database
`target` stands for the in-memory database built from the target DDL. -/
def migrateWith (allow : Bool) (c0 : Nat) (failAt : Option Nat) (cur target : DB) : MigResult :=
  match analyzeChanges allow cur target with
  | .error e => { db := cur, res := .error e, counter := c0, events := [.rollback] }
  | .ok ch =>
    if !ch.hasAnyChanges then
      { db := cur, res := .ok false, counter := c0, events := [.commit] }
    else
      match applyChanges allow failAt target ch { tx := cur, count := c0, attempt := 0, events := [] } with
      | .ok st =>
        { db := st.tx, res := .ok (decide (0 < st.count)), counter := st.count,
          events := st.events ++ [.commit] ++ (if 0 < st.count then [.vacuum] else []) }
      | .error (e, st) =>
        { db := cur, res := .error e, counter := st.count, events := st.events ++ [.rollback] }

/-- The public entry point `migrate_database_declaratively`: a fresh
`DeclarativeMigrator` (counter `0`) running `migrate` once. -/
def migrate (allow : Bool) (failAt : Option Nat) (cur target : DB) : MigResult :=
  migrateWith allow 0 failAt cur target

/-- `get_schema_changes` (the read-only plan operation): the raw diff. -/
def planChanges (cur target : DB) : ChangesNeeded :=
  analyzeChangesRaw cur target

/-- The spec's `hasDestructiveChanges` predicate over a plan: a removed
table, removed index, or removed column of a modified table. -/
def hasDestructiveChanges (cur target : DB) : Bool :=
  let ch := analyzeChangesRaw cur target
  !ch.removed_tables.isEmpty || !ch.removed_indices.isEmpty ||
    ch.modified_tables.any (fun n => !(removedColumnsOf cur target n).isEmpty)

/-- The intersection of current and target columns, in current order, as
computed by `migrate_table`. -/
def commonColsOf (curCols tgtCols : List String) : List String :=
  curCols.filter (fun c => tgtCols.contains c)

/-! ## Properties used by the verification -/

/-- Every event in the list is a statement execution. -/
def ExecOnly (es : List Ev) : Prop :=
  ∀ e ∈ es, ∃ d, e = Ev.exec d

/-- `st2` is reachable from `st` by executing statements only: the event log
grows by executions and the instance counter grows by their number. -/
def Evolves (st st2 : St) : Prop :=
  ∃ es, st2.events = st.events ++ es ∧ ExecOnly es ∧
    st2.count = st.count + es.length ∧ st2.attempt = st.attempt + es.length

/-- `Evolves` lifted to an executor result (the state reached on either
success or failure was produced by statement executions only). -/
def EvolvesE (st : St) : Except (MigErr × St) St → Prop
  | .ok st2 => Evolves st st2
  | .error (_, st2) => Evolves st st2

/-- Every `--` occurrence is followed by a later newline (so every comment is
newline-terminated, the case the first regex pass can remove). -/
def okDashes : List Char → Bool
  | [] => true
  | [_] => true
  | c :: d :: r => (!(c = '-' && d = '-') || r.contains '\n') && okDashes (d :: r)

/-- No two adjacent dashes (no `--` substring). -/
def noDD : List Char → Bool
  | [] => true
  | [_] => true
  | c :: d :: r => !(c = '-' && d = '-') && noDD (d :: r)

/-- A non-empty identifier made of word characters. -/
def wordStr (n : String) : Prop :=
  n.data ≠ [] ∧ n.data.all isWordChar = true

/-- The stored target DDL of table `n` has the shape the rebuild relies on:
it starts with `CREATE TABLE n (` and that phrase does not recur afterwards,
so that the temporary-name substitution only rewrites the leading phrase. -/
def WfTableDdl (n : String) (t : TableInfo) : Prop :=
  ∃ body : String, t.sql = "CREATE TABLE " ++ n ++ " (" ++ body ∧
    containsSubstrL ("CREATE TABLE " ++ n).data (" (" ++ body).data = false

/-- Well-formed pristine catalog: unique names, and every table's DDL is in
the shape of `WfTableDdl` with a word-character name. -/
def WfTarget (target : DB) : Prop :=
  (tableNames target).Nodup ∧ (indexNames target).Nodup ∧
  ∀ p ∈ target.tables, wordStr p.1 ∧ WfTableDdl p.1 p.2

/-- Well-formed live catalog: unique table and index names. -/
def WfCur (cur : DB) : Prop :=
  (tableNames cur).Nodup ∧ (indexNames cur).Nodup

/-- Catalog coherence: two tables with the same name whose DDL normalizes
equal have the same columns (both column lists come from the engine parsing
equivalent DDL). -/
def colsCoherent (cur target : DB) : Prop :=
  ∀ n a b, alookup cur.tables n = some a → alookup target.tables n = some b →
    normalize_sql a.sql = normalize_sql b.sql → a.cols = b.cols

/-- The tables of `db` structurally match the target: same names, and per
name the stored DDL normalizes equal with equal column lists. -/
def tablesConverged (db target : DB) : Prop :=
  (∀ n, (alookup db.tables n).isSome = (alookup target.tables n).isSome) ∧
  ∀ n a b, alookup db.tables n = some a → alookup target.tables n = some b →
    normalize_sql a.sql = normalize_sql b.sql ∧ a.cols = b.cols

/-- The indices of `db` structurally match the target. -/
def indicesConverged (db target : DB) : Prop :=
  (∀ n, (alookup db.indices n).isSome = (alookup target.indices n).isSome) ∧
  ∀ n a b, alookup db.indices n = some a → alookup target.indices n = some b →
    normalize_sql a.sql = normalize_sql b.sql

/-- Full schema match, with the one exception the code has: a zero target
`user_version` is never written, so the version only matches when the target
version is non-zero (or already agreed). -/
def schemaConverged (db target : DB) : Prop :=
  tablesConverged db target ∧ indicesConverged db target ∧
  (target.userVersion ≠ 0 → db.userVersion = target.userVersion)

/-! ## Concrete databases used by counterexamples and witnesses -/

/-- A database whose only content is `user_version = 1`. -/
def dbVersionOne : DB := ⟨[], [], 1⟩

/-- The empty database (also the pristine build of the empty target DDL,
whose `user_version` is zero). -/
def dbEmpty : DB := ⟨[], [], 0⟩

/-- Live database for the destructive-slip scenario: one table `users(a)`
and one index `idx` on it. -/
def dbUsersWithIdx : DB :=
  ⟨[("users", ⟨"CREATE TABLE users (a)", ["a"], []⟩)],
   [("idx", ⟨"users", "CREATE INDEX idx ON users (a)"⟩)], 0⟩

/-- Target for the destructive-slip scenario: `users(a, b)` (so `users` is
modified, only adding a column) and no index (so `idx` is a removed index). -/
def dbUsersWider : DB :=
  ⟨[("users", ⟨"CREATE TABLE users (a, b)", ["a", "b"], []⟩)], [], 0⟩

/-- Live database with a kept table, a removed table and a removed index. -/
def dbKeepGone : DB :=
  ⟨[("keep", ⟨"CREATE TABLE keep (a)", ["a"], []⟩),
    ("gone", ⟨"CREATE TABLE gone (a)", ["a"], []⟩)],
   [("oldidx", ⟨"keep", "CREATE INDEX oldidx ON keep (a)"⟩)], 0⟩

/-- Target keeping only `keep`, with no index. -/
def dbKeepOnly : DB :=
  ⟨[("keep", ⟨"CREATE TABLE keep (a)", ["a"], []⟩)], [], 0⟩

/-- Live `users(id, username)` with one row, for the data-preservation
scenario. -/
def dbUsersAlice : DB :=
  ⟨[("users", ⟨"CREATE TABLE users (id, username)", ["id", "username"],
     [[("id", "1"), ("username", "alice")]]⟩)], [], 0⟩

/-- Target `users(id, username, email)`. -/
def dbUsersEmail : DB :=
  ⟨[("users", ⟨"CREATE TABLE users (id, username, email)",
     ["id", "username", "email"], []⟩)], [], 0⟩

/-- Target with a single fresh table, for witnesses. -/
def dbOneTable : DB :=
  ⟨[("users", ⟨"CREATE TABLE users (a)", ["a"], []⟩)], [], 0⟩

/-- Live table `t` with a plain one-column DDL, for the corrupt-literal
scenario. -/
def dbTLit : DB :=
  ⟨[("t", ⟨"CREATE TABLE t (a)", ["a"], []⟩)], [], 0⟩

/-- Target for `t` whose default-value string literal contains the phrase
`CREATE TABLE t` again: the global replace of `migrate_table` rewrites the
literal too, the rename keeps the corruption in the stored DDL, and the
normalized DDL never converges to the target. -/
def dbTLitTarget : DB :=
  ⟨[("t", ⟨"CREATE TABLE t (a DEFAULT 'CREATE TABLE t')", ["a"], []⟩)], [], 0⟩

/-! # Helper lemmas -/

theorem exceptBind_ok {ε α β : Type} {x : Except ε α} {f : α → Except ε β} {b : β} :
    x >>= f = .ok b ↔ ∃ a, x = .ok a ∧ f a = .ok b := by
  cases x <;> simp [Bind.bind, Except.bind]

theorem exceptBind_err {ε α β : Type} {x : Except ε α} {f : α → Except ε β} {e : ε} :
    x >>= f = .error e ↔ x = .error e ∨ ∃ a, x = .ok a ∧ f a = .error e := by
  cases x <;> simp [Bind.bind, Except.bind]

theorem alookup_append {α : Type} (l1 l2 : List (String × α)) (n : String) :
    alookup (l1 ++ l2) n = (alookup l1 n).or (alookup l2 n) := by
  induction l1 with
  | nil => simp [alookup]
  | cons e r ih =>
    by_cases h : e.1 = n <;> simp [alookup, h, ih]

theorem alookup_isSome_iff_mem {α : Type} (l : List (String × α)) (n : String) :
    (alookup l n).isSome = true ↔ n ∈ l.map Prod.fst := by
  induction l with
  | nil => simp [alookup]
  | cons e r ih =>
    obtain ⟨k, v⟩ := e
    by_cases h : k = n
    · simp [alookup, h]
    · rw [List.map_cons, List.mem_cons]
      simp only [alookup, h, if_false, ih]
      constructor
      · exact fun hm => Or.inr hm
      · rintro (hm | hm)
        · exact absurd hm.symm h
        · exact hm

theorem alookup_eq_none_iff {α : Type} (l : List (String × α)) (n : String) :
    alookup l n = none ↔ n ∉ l.map Prod.fst := by
  rw [← alookup_isSome_iff_mem]
  cases alookup l n <;> simp

theorem alookup_aerase_ne {α : Type} (l : List (String × α)) {m n : String} (h : m ≠ n) :
    alookup (aerase l n) m = alookup l m := by
  induction l with
  | nil => simp [aerase]
  | cons e r ih =>
    obtain ⟨k, v⟩ := e
    by_cases he : k = n
    · have hkm : k ≠ m := by rw [he]; exact fun hh => h hh.symm
      simp [aerase, he, alookup, hkm, Ne.symm h]
    · by_cases hm : k = m <;> simp [aerase, he, alookup, hm, ih, h]

theorem aerase_map_fst_sublist {α : Type} (l : List (String × α)) (n : String) :
    ((aerase l n).map Prod.fst).Sublist (l.map Prod.fst) := by
  induction l with
  | nil => simp [aerase]
  | cons e r ih =>
    obtain ⟨k, v⟩ := e
    by_cases he : k = n
    · simp only [aerase, he, if_true, List.map_cons]
      exact List.sublist_cons_self _ _
    · simp only [aerase, he, if_false, List.map_cons]
      exact ih.cons₂ _

theorem alookup_aerase_self {α : Type} (l : List (String × α)) (n : String)
    (hnd : (l.map Prod.fst).Nodup) : alookup (aerase l n) n = none := by
  induction l with
  | nil => simp [aerase, alookup]
  | cons e r ih =>
    obtain ⟨k, v⟩ := e
    simp only [List.map_cons, List.nodup_cons] at hnd
    by_cases he : k = n
    · simp only [aerase, he, if_true]
      rw [alookup_eq_none_iff]
      rw [he] at hnd
      exact hnd.1
    · simp [aerase, he, alookup, ih hnd.2]

theorem alookup_aset_self {α : Type} (l : List (String × α)) (n : String) (v : α)
    (h : (alookup l n).isSome = true) : alookup (aset l n v) n = some v := by
  induction l with
  | nil => simp [alookup] at h
  | cons e r ih =>
    obtain ⟨k, v2⟩ := e
    by_cases he : k = n
    · simp [aset, he, alookup]
    · simp only [alookup, he, if_false] at h
      simp [aset, he, alookup, ih h]

theorem alookup_aset_ne {α : Type} (l : List (String × α)) {m n : String} (v : α)
    (h : m ≠ n) : alookup (aset l n v) m = alookup l m := by
  induction l with
  | nil => simp [aset]
  | cons e r ih =>
    obtain ⟨k, v2⟩ := e
    by_cases he : k = n
    · have hkm : k ≠ m := by rw [he]; exact fun hh => h hh.symm
      simp [aset, he, alookup, hkm, Ne.symm h]
    · by_cases hm : k = m <;> simp [aset, he, alookup, hm, ih, h]

theorem aset_map_fst {α : Type} (l : List (String × α)) (n : String) (v : α) :
    (aset l n v).map Prod.fst = l.map Prod.fst := by
  induction l with
  | nil => simp [aset]
  | cons e r ih =>
    obtain ⟨k, v2⟩ := e
    by_cases he : k = n <;> simp [aset, he, ih]

theorem alookup_of_mem_nodup {α : Type} {l : List (String × α)} {n : String} {v : α}
    (hmem : (n, v) ∈ l) (hnd : (l.map Prod.fst).Nodup) : alookup l n = some v := by
  induction l with
  | nil => simp at hmem
  | cons e r ih =>
    obtain ⟨k, v2⟩ := e
    simp only [List.map_cons, List.nodup_cons] at hnd
    rcases List.mem_cons.mp hmem with h | h
    · obtain ⟨h1, h2⟩ := Prod.mk.injEq .. ▸ h
      rw [← h1, ← h2]
      simp [alookup]
    · have hne : k ≠ n := by
        intro hh
        exact hnd.1 (hh ▸ List.mem_map.mpr ⟨(n, v), h, rfl⟩)
      simp [alookup, hne, ih h hnd.2]

/-! ## The statement-only evolution framework -/

theorem evolves_refl (st : St) : Evolves st st :=
  ⟨[], by simp, fun e he => absurd he (List.not_mem_nil e), by simp, by simp⟩

theorem evolves_trans {st1 st2 st3 : St} (h1 : Evolves st1 st2) (h2 : Evolves st2 st3) :
    Evolves st1 st3 := by
  obtain ⟨es1, he1, hx1, hc1, ha1⟩ := h1
  obtain ⟨es2, he2, hx2, hc2, ha2⟩ := h2
  refine ⟨es1 ++ es2, ?_, ?_, ?_, ?_⟩
  · rw [he2, he1, List.append_assoc]
  · intro e he
    rcases List.mem_append.mp he with h | h
    · exact hx1 e h
    · exact hx2 e h
  · simp [hc2, hc1]; omega
  · simp [ha2, ha1]; omega

theorem execStmt_evolves (failAt : Option Nat) (desc : String) (f : DB → Option DB)
    (st : St) : EvolvesE st (execStmt failAt desc f st) := by
  unfold execStmt
  by_cases h : failAt = some st.attempt
  · simp only [h, if_true]
    exact evolves_refl st
  · simp only [h, if_false]
    cases hf : f st.tx with
    | none => exact evolves_refl st
    | some db2 =>
      exact ⟨[.exec desc], by simp, fun e he => ⟨desc, by simpa using he⟩, by simp, by simp⟩

theorem evolvesE_bind {st : St} {x : Except (MigErr × St) St} {g : St → Except (MigErr × St) St}
    (hx : EvolvesE st x) (hg : ∀ s, EvolvesE s (g s)) : EvolvesE st (x >>= g) := by
  cases x with
  | error p =>
    simp only [Bind.bind, Except.bind]
    exact hx
  | ok s =>
    simp only [Bind.bind, Except.bind]
    have h1 : Evolves st s := hx
    have h2 := hg s
    cases hgs : g s with
    | error p =>
      rw [hgs] at h2
      exact evolves_trans h1 h2
    | ok s2 =>
      rw [hgs] at h2
      exact evolves_trans h1 h2

theorem evolvesE_of_ok {st s : St} {x : Except (MigErr × St) St}
    (hx : EvolvesE st x) (h : x = .ok s) : Evolves st s := by
  rw [h] at hx; exact hx

theorem evolvesE_of_err {st s : St} {e : MigErr} {x : Except (MigErr × St) St}
    (hx : EvolvesE st x) (h : x = .error (e, s)) : Evolves st s := by
  rw [h] at hx; exact hx

theorem foldlM_evolves {α : Type} (f : St → α → Except (MigErr × St) St)
    (hf : ∀ s a, EvolvesE s (f s a)) :
    ∀ (l : List α) (st : St), EvolvesE st (l.foldlM f st) := by
  intro l
  induction l with
  | nil => intro st; exact evolves_refl st
  | cons a r ih =>
    intro st
    rw [List.foldlM_cons]
    exact evolvesE_bind (hf st a) (fun s => ih s)

theorem evolvesE_pure (s : St) : EvolvesE s (pure s) :=
  evolves_refl s

theorem evolvesE_ok (s : St) : EvolvesE s (.ok s) :=
  evolves_refl s

theorem evolvesE_err (s : St) (e : MigErr) : EvolvesE s (.error (e, s)) :=
  evolves_refl s

theorem migrateTable_evolves (allow : Bool) (failAt : Option Nat) (n : String)
    (ti : TableInfo) (st : St) : EvolvesE st (migrateTable allow failAt n ti st) := by
  unfold migrateTable
  apply evolvesE_bind (execStmt_evolves _ _ _ _)
  intro s1
  split
  · exact evolvesE_err _ _
  · apply evolvesE_bind
    · split
      · exact execStmt_evolves _ _ _ _
      · exact evolvesE_pure _
    · intro s2
      apply evolvesE_bind (execStmt_evolves _ _ _ _)
      intro s3
      exact execStmt_evolves _ _ _ _

theorem createNewTables_evolves (failAt : Option Nat) (target : DB)
    (names : List String) (st : St) : EvolvesE st (createNewTables failAt target names st) := by
  unfold createNewTables
  apply foldlM_evolves
  intro s a
  rcases h : alookup target.tables a with _ | ti
  · simp only [h]
    exact evolvesE_ok s
  · simp only [h]
    exact execStmt_evolves _ _ _ _

theorem rebuildModified_evolves (allow : Bool) (failAt : Option Nat) (target : DB)
    (names : List String) (st : St) :
    EvolvesE st (rebuildModified allow failAt target names st) := by
  unfold rebuildModified
  apply foldlM_evolves
  intro s a
  apply evolvesE_bind
  · split
    · split
      · exact evolvesE_err _ _
      · exact evolvesE_ok s
    · exact evolvesE_ok s
  · intro s2
    rcases h : alookup target.tables a with _ | ti
    · simp only [h]
      exact evolvesE_ok s2
    · simp only [h]
      exact migrateTable_evolves _ _ _ _ _

theorem dropRemovedTables_evolves (allow : Bool) (failAt : Option Nat)
    (names : List String) (st : St) :
    EvolvesE st (dropRemovedTables allow failAt names st) := by
  unfold dropRemovedTables
  split
  · exact evolvesE_ok st
  · split
    · exact evolvesE_err _ _
    · apply foldlM_evolves
      intro s a
      exact execStmt_evolves _ _ _ _

theorem migrateIndicesM_evolves (failAt : Option Nat)
    (currentIndices targetIndices : List (String × IndexInfo)) (st : St) :
    EvolvesE st (migrateIndicesM failAt currentIndices targetIndices st) := by
  unfold migrateIndicesM
  apply evolvesE_bind
  · apply foldlM_evolves
    intro s e
    split
    · exact execStmt_evolves _ _ _ _
    · exact evolvesE_ok s
  · intro s
    apply foldlM_evolves
    intro s2 e
    rcases h : alookup currentIndices e.1 with _ | ci
    · simp only [h]
      exact execStmt_evolves _ _ _ _
    · simp only [h]
      split
      · apply evolvesE_bind (execStmt_evolves _ _ _ _)
        intro s3
        exact execStmt_evolves _ _ _ _
      · exact evolvesE_ok s2

theorem applyChanges_evolves (allow : Bool) (failAt : Option Nat) (target : DB)
    (ch : ChangesNeeded) (st : St) :
    EvolvesE st (applyChanges allow failAt target ch st) := by
  unfold applyChanges
  apply evolvesE_bind (createNewTables_evolves _ _ _ _)
  intro sA
  apply evolvesE_bind (rebuildModified_evolves _ _ _ _ _)
  intro sB
  apply evolvesE_bind (dropRemovedTables_evolves _ _ _ _)
  intro sC
  split
  · exact evolvesE_err _ _
  · apply evolvesE_bind (migrateIndicesM_evolves _ _ _ _)
    intro sE
    split
    · split
      · exact execStmt_evolves _ _ _ _
      · exact evolvesE_ok sE
    · exact evolvesE_ok sE


theorem migrateWith_eq_analyzeErr {allow : Bool} {c0 : Nat} {failAt : Option Nat}
    {cur target : DB} {e : MigErr} (hA : analyzeChanges allow cur target = .error e) :
    migrateWith allow c0 failAt cur target
      = { db := cur, res := .error e, counter := c0, events := [Ev.rollback] } := by
  unfold migrateWith
  rw [hA]

theorem migrateWith_eq_noChanges {allow : Bool} {c0 : Nat} {failAt : Option Nat}
    {cur target : DB} {ch : ChangesNeeded} (hA : analyzeChanges allow cur target = .ok ch)
    (hc : ch.hasAnyChanges = false) :
    migrateWith allow c0 failAt cur target
      = { db := cur, res := .ok false, counter := c0, events := [Ev.commit] } := by
  unfold migrateWith
  rw [hA]
  simp [hc]

theorem migrateWith_eq_applyOk {allow : Bool} {c0 : Nat} {failAt : Option Nat}
    {cur target : DB} {ch : ChangesNeeded} {st : St}
    (hA : analyzeChanges allow cur target = .ok ch) (hc : ch.hasAnyChanges = true)
    (hap : applyChanges allow failAt target ch { tx := cur, count := c0, attempt := 0, events := [] } = .ok st) :
    migrateWith allow c0 failAt cur target
      = { db := st.tx, res := .ok (decide (0 < st.count)), counter := st.count,
          events := st.events ++ [Ev.commit] ++ (if 0 < st.count then [Ev.vacuum] else []) } := by
  unfold migrateWith
  rw [hA]
  simp only [hc, Bool.not_true, Bool.false_eq_true, if_false]
  rw [hap]

theorem migrateWith_eq_applyErr {allow : Bool} {c0 : Nat} {failAt : Option Nat}
    {cur target : DB} {ch : ChangesNeeded} {e : MigErr} {st : St}
    (hA : analyzeChanges allow cur target = .ok ch) (hc : ch.hasAnyChanges = true)
    (hap : applyChanges allow failAt target ch { tx := cur, count := c0, attempt := 0, events := [] } = .error (e, st)) :
    migrateWith allow c0 failAt cur target
      = { db := cur, res := .error e, counter := st.count, events := st.events ++ [Ev.rollback] } := by
  unfold migrateWith
  rw [hA]
  simp only [hc, Bool.not_true, Bool.false_eq_true, if_false]
  rw [hap]

/-! # Claim C6 -/

/-- C6: on a successful `migrate` (fresh migrator instance, as the public
entry point constructs), the returned `changed` is true exactly when the
per-attempt statement counter is positive; the event log is the executed
statements (one per counted statement), then the commit, then `VACUUM`
exactly once and only when the counter is positive. -/
theorem c6_changed_iff_statements (allow : Bool) (failAt : Option Nat) (cur target : DB)
    (b : Bool) (h : (migrate allow failAt cur target).res = .ok b) :
    b = decide (0 < (migrate allow failAt cur target).counter) ∧
    ∃ pre, (migrate allow failAt cur target).events
        = pre ++ [Ev.commit] ++ (if 0 < (migrate allow failAt cur target).counter then [Ev.vacuum] else []) ∧
      ExecOnly pre ∧ pre.length = (migrate allow failAt cur target).counter := by
  unfold migrate at h ⊢
  rcases hA : analyzeChanges allow cur target with e | ch
  · rw [migrateWith_eq_analyzeErr hA] at h
    exact absurd h (by simp)
  · by_cases hc : ch.hasAnyChanges
    · rcases hap : applyChanges allow failAt target ch { tx := cur, count := 0, attempt := 0, events := [] } with p | st
      · obtain ⟨e2, st2⟩ := p
        rw [migrateWith_eq_applyErr hA hc hap] at h
        exact absurd h (by simp)
      · rw [migrateWith_eq_applyOk hA hc hap] at h ⊢
        have hev := evolvesE_of_ok (applyChanges_evolves allow failAt target ch _) hap
        obtain ⟨es, he, hx, hcnt, _⟩ := hev
        simp only [List.nil_append] at he
        simp only [Nat.zero_add] at hcnt
        constructor
        · simpa using h.symm
        · refine ⟨st.events, by simp, ?_, ?_⟩
          · rw [he]; exact hx
          · rw [he, hcnt]
    · simp only [Bool.not_eq_true] at hc
      rw [migrateWith_eq_noChanges hA hc] at h ⊢
      have hb : b = false := by simpa using h.symm
      subst hb
      exact ⟨by rfl, [], by rfl, fun e he => absurd he (List.not_mem_nil e), by rfl⟩

/-- C6 witness: a fresh migration creating one table returns `changed = true`
with a positive counter, one statement before the commit, and a `VACUUM`. -/
theorem c6_changed_iff_statements_witness :
    (migrate true none dbEmpty dbOneTable).res = .ok true ∧
    (true = decide (0 < (migrate true none dbEmpty dbOneTable).counter) ∧
     ∃ pre, (migrate true none dbEmpty dbOneTable).events
        = pre ++ [Ev.commit] ++ (if 0 < (migrate true none dbEmpty dbOneTable).counter then [Ev.vacuum] else []) ∧
      ExecOnly pre ∧ pre.length = (migrate true none dbEmpty dbOneTable).counter) :=
  ⟨by decide, c6_changed_iff_statements true none dbEmpty dbOneTable true (by decide)⟩

/-! # Claim C10 -/

/-- C10: `schema_changes_made` lives on the migrator instance and `migrate`
never resets it: the counter after any call is at least its value before,
and a call that reaches the apply phase and succeeds returns
`changed = (counter > 0)` for the accumulated instance counter and runs
`VACUUM` after the commit exactly when that accumulated counter is positive
— in particular, whenever any earlier call on the same instance executed a
statement, the later call reports `changed = true` and runs `VACUUM`,
regardless of what this attempt executed. -/
theorem c10_counter_never_reset (allow : Bool) (c0 : Nat) (failAt : Option Nat)
    (cur target : DB) :
    c0 ≤ (migrateWith allow c0 failAt cur target).counter ∧
    (∀ ch, analyzeChanges allow cur target = .ok ch → ch.hasAnyChanges = true →
      ∀ b, (migrateWith allow c0 failAt cur target).res = .ok b →
        b = decide (0 < (migrateWith allow c0 failAt cur target).counter) ∧
        (0 < c0 → b = true) ∧
        (∃ pre, ExecOnly pre ∧
          (migrateWith allow c0 failAt cur target).events
            = pre ++ [Ev.commit]
              ++ (if 0 < (migrateWith allow c0 failAt cur target).counter
                  then [Ev.vacuum] else [])) ∧
        (0 < c0 → Ev.vacuum ∈ (migrateWith allow c0 failAt cur target).events)) := by
  rcases hA : analyzeChanges allow cur target with e | ch
  · rw [migrateWith_eq_analyzeErr hA]
    exact ⟨Nat.le_refl c0, fun ch2 hc2 => absurd hc2 (by simp)⟩
  · by_cases hc : ch.hasAnyChanges
    · rcases hap : applyChanges allow failAt target ch { tx := cur, count := c0, attempt := 0, events := [] } with p | st
      · obtain ⟨e2, st2⟩ := p
        rw [migrateWith_eq_applyErr hA hc hap]
        have hev := evolvesE_of_err (applyChanges_evolves allow failAt target ch _) hap
        obtain ⟨es, _, _, hcnt, _⟩ := hev
        refine ⟨by simp only [hcnt]; omega, ?_⟩
        intro ch2 hc2 hany b hb
        exact absurd hb (by simp)
      · rw [migrateWith_eq_applyOk hA hc hap]
        have hev := evolvesE_of_ok (applyChanges_evolves allow failAt target ch _) hap
        obtain ⟨es, hevents, hexec, hcnt, _⟩ := hev
        have hpos : 0 < c0 → 0 < st.count := by
          simp only [hcnt]
          omega
        refine ⟨by simp only [hcnt]; omega, ?_⟩
        intro ch2 hc2 hany b hb
        simp only [Except.ok.injEq] at hb
        refine ⟨hb.symm, ?_, ?_, ?_⟩
        · intro hc0
          rw [← hb]
          simp only [decide_eq_true_eq]
          exact hpos hc0
        · refine ⟨st.events, ?_, rfl⟩
          intro e he
          rw [hevents] at he
          exact hexec e (by simpa using he)
        · intro hc0
          show Ev.vacuum ∈ st.events ++ [Ev.commit]
              ++ (if 0 < st.count then [Ev.vacuum] else [])
          rw [if_pos (hpos hc0)]
          exact List.mem_append.mpr (Or.inr (List.mem_singleton.mpr rfl))
    · simp only [Bool.not_eq_true] at hc
      rw [migrateWith_eq_noChanges hA hc]
      refine ⟨Nat.le_refl c0, ?_⟩
      intro ch2 hc2 hany b hb
      simp only [Except.ok.injEq] at hc2
      rw [← hc2] at hany
      rw [hany] at hc
      exact absurd hc (by simp)

/-- C10 witness: a second `migrate` on an instance whose counter already
holds 1 reports `changed = true` when it applies changes, and its event log
ends with the commit followed by `VACUUM`. -/
theorem c10_counter_never_reset_witness :
    (1 ≤ (migrateWith true 1 none dbEmpty dbOneTable).counter) ∧
    (true = decide (0 < (migrateWith true 1 none dbEmpty dbOneTable).counter) ∧
     (0 < 1 → true = true) ∧
     (∃ pre, ExecOnly pre ∧
       (migrateWith true 1 none dbEmpty dbOneTable).events
         = pre ++ [Ev.commit]
           ++ (if 0 < (migrateWith true 1 none dbEmpty dbOneTable).counter
               then [Ev.vacuum] else [])) ∧
     (0 < 1 → Ev.vacuum ∈ (migrateWith true 1 none dbEmpty dbOneTable).events)) :=
  ⟨(c10_counter_never_reset true 1 none dbEmpty dbOneTable).1,
   (c10_counter_never_reset true 1 none dbEmpty dbOneTable).2
     ⟨["users"], [], [], [], [], [], false⟩ (by decide) (by decide) true (by decide)⟩

/-! # Claim C8: counterexample -/

/-- C8 counterexample: the first pass only strips comments terminated by a
newline, so the comment text of `"a --b"` survives normalization, refuting
"for every input string no `--` comment text survives"; and whitespace is
removed on both sides of a parenthesis, not only inside, so `"a (b)"`
normalizes to `"a(b)"`. -/
theorem c8_cex : normalize_sql "a --b" = "a --b" ∧ normalize_sql "a (b)" = "a(b)" := by
  decide

/-! # Claim C9: counterexample -/

/-- C9 counterexample: the temporary-table rewrite is Rust `str::replace`,
a global replace of the phrase `CREATE TABLE t`; a second occurrence of the
phrase inside a default-value literal is rewritten too, refuting "the leading
token only". -/
theorem c9_cex :
    tempSqlOf "t" "CREATE TABLE t (x TEXT DEFAULT 'CREATE TABLE t')" =
      "CREATE TABLE t_migration_new (x TEXT DEFAULT 'CREATE TABLE t_migration_new')" := by
  decide

/-! # Claim C2: the code lets a destructive change through -/

/-- C2 failing input: the plan for `dbUsersWithIdx → dbUsersWider` is
destructive (index `idx` is removed), yet `migrate` with
`allowDeletions = false` succeeds: rebuilding `users` drops `idx` with the
old table (SQLite drops a table's indices on `DROP TABLE`), and the index
check inside `apply_changes` re-reads the indices after the rebuild, so it no
longer sees `idx` and refuses nothing. The destructive change is committed. -/
theorem c2_destructive_slip :
    hasDestructiveChanges dbUsersWithIdx dbUsersWider = true ∧
    (migrate false none dbUsersWithIdx dbUsersWider).res = .ok true ∧
    (migrate false none dbUsersWithIdx dbUsersWider).db.indices = [] ∧
    dbUsersWithIdx.indices ≠ [] := by
  decide

/-! # Claim C7: counterexample -/

/-- C7 counterexample: with both a removed table and a removed index in the
plan, the refusal message carries only the removed table names; the removed
index is not mentioned, refuting "all reasons at once in one message". -/
theorem c7_cex :
    (analyzeChangesRaw dbKeepGone dbKeepOnly).removed_tables = ["gone"] ∧
    (analyzeChangesRaw dbKeepGone dbKeepOnly).removed_indices = ["oldidx"] ∧
    (migrate false none dbKeepGone dbKeepOnly).res = .error (.refusedTables ["gone"]) := by
  decide

/-! # Claims C1 and C5: the zero-target-version counterexample -/

/-- C1 counterexample: migrating a database whose `user_version` is 1 to an
empty target (version 0) returns `Ok`, but the version stays 1, so the schema
does not fully match the target (`apply_changes` skips
`PRAGMA user_version = 0`). -/
theorem c1_cex :
    (migrate true none dbVersionOne dbEmpty).res = .ok false ∧
    (migrate true none dbVersionOne dbEmpty).db.userVersion = 1 ∧
    dbEmpty.userVersion = 0 := by
  decide

/-- C5 counterexample: after that same successful `migrate`, the read-only
plan still reports a pending change (`pragma_changes`), refuting
"`plan(D, targetDDL).hasChanges` is false after a successful migrate". -/
theorem c5_cex :
    (migrate true none dbVersionOne dbEmpty).res = .ok false ∧
    (planChanges (migrate true none dbVersionOne dbEmpty).db dbEmpty).hasAnyChanges = true := by
  decide

/-! ## Statement-function characterizations -/

theorem execStmt_ok {failAt : Option Nat} {desc : String} {f : DB → Option DB} {st st1 : St}
    (h : execStmt failAt desc f st = .ok st1) :
    f st.tx = some st1.tx ∧ st1.count = st.count + 1 ∧ st1.attempt = st.attempt + 1 ∧
      st1.events = st.events ++ [Ev.exec desc] := by
  unfold execStmt at h
  split at h
  · exact absurd h (by simp)
  · rcases hf : f st.tx with _ | db2
    · rw [hf] at h
      exact absurd h (by simp)
    · rw [hf] at h
      simp only [Except.ok.injEq] at h
      rw [← h]
      exact ⟨rfl, rfl, rfl, rfl⟩

theorem createTableFn_ok {n sql : String} {cols : List String} {db db2 : DB}
    (h : createTableFn n sql cols db = some db2) :
    alookup db.tables n = none ∧
      db2 = { db with tables := db.tables ++ [(n, ⟨sql, cols, []⟩)] } := by
  unfold createTableFn at h
  split at h
  · exact absurd h (by simp)
  · rename_i hs
    refine ⟨?_, by simpa using h.symm⟩
    rcases hl : alookup db.tables n with _ | v
    · rfl
    · rw [hl] at hs
      simp at hs

theorem dropTableFn_ok {n : String} {db db2 : DB} (h : dropTableFn n db = some db2) :
    (alookup db.tables n).isSome = true ∧
      db2 = { db with tables := aerase db.tables n,
                      indices := db.indices.filter (fun e => e.2.tbl ≠ n) } := by
  unfold dropTableFn at h
  split at h
  · rename_i hs
    exact ⟨hs, by simpa using h.symm⟩
  · exact absurd h (by simp)

theorem copyDataFn_ok {dst src : String} {cols : List String} {db db2 : DB}
    (h : copyDataFn dst src cols db = some db2) :
    ∃ s d, alookup db.tables src = some s ∧ alookup db.tables dst = some d ∧
      db2 = { db with tables := aset db.tables dst { d with rows := s.rows.map (restrictRow cols) } } := by
  unfold copyDataFn at h
  rcases hs : alookup db.tables src with _ | s <;> rw [hs] at h
  · exact absurd h (by simp)
  · rcases hd : alookup db.tables dst with _ | d <;> rw [hd] at h
    · exact absurd h (by simp)
    · exact ⟨s, d, rfl, rfl, by simpa using h.symm⟩

theorem renameTableFn_ok {old renamed : String} {db db2 : DB}
    (h : renameTableFn old renamed db = some db2) :
    ∃ t, alookup db.tables old = some t ∧ alookup db.tables renamed = none ∧
      db2 = { db with
        tables := aerase db.tables old ++ [(renamed, { t with sql := renameSqlInDdl t.sql old renamed })],
        indices := db.indices.map (fun e => if e.2.tbl = old then (e.1, { e.2 with tbl := renamed }) else e) } := by
  unfold renameTableFn at h
  rcases ho : alookup db.tables old with _ | t
  · rw [ho] at h
    exact absurd h (by simp)
  · rw [ho] at h
    rcases hr : alookup db.tables renamed with _ | v
    · rw [hr] at h
      simp only [Option.isSome_none, Bool.false_eq_true, if_false, Option.some.injEq] at h
      exact ⟨t, rfl, rfl, h.symm⟩
    · rw [hr] at h
      simp at h

theorem dropIndexFn_ok {n : String} {db db2 : DB} (h : dropIndexFn n db = some db2) :
    (alookup db.indices n).isSome = true ∧
      db2 = { db with indices := aerase db.indices n } := by
  unfold dropIndexFn at h
  split at h
  · rename_i hs
    exact ⟨hs, by simpa using h.symm⟩
  · exact absurd h (by simp)

theorem createIndexFn_ok {n : String} {ii : IndexInfo} {db db2 : DB}
    (h : createIndexFn n ii db = some db2) :
    alookup db.indices n = none ∧
      db2 = { db with indices := db.indices ++ [(n, ii)] } := by
  unfold createIndexFn at h
  split at h
  · exact absurd h (by simp)
  · rename_i hs
    refine ⟨?_, by simpa using h.symm⟩
    rcases hl : alookup db.indices n with _ | v
    · rfl
    · rw [hl] at hs
      simp at hs

theorem setUserVersionFn_eq (v : Int) (db : DB) :
    setUserVersionFn v db = some { db with userVersion := v } := rfl

theorem tempNameOf_ne (n : String) : tempNameOf n ≠ n := by
  intro h
  have h2 := congrArg (fun s => s.data.length) h
  simp only [tempNameOf] at h2
  rw [String.data_append] at h2
  simp at h2

theorem tableNames_eq (db : DB) : tableNames db = db.tables.map Prod.fst := rfl

theorem indexNames_eq (db : DB) : indexNames db = db.indices.map Prod.fst := rfl

theorem alookup_singleton {α : Type} (k m : String) (v : α) :
    alookup [(k, v)] m = if k = m then some v else none := by
  simp [alookup]

/-- Full effect of a successful `migrate_table` on the transaction state. -/
theorem migrateTable_ok_char {allow : Bool} {failAt : Option Nat} {n : String} {ti : TableInfo}
    {st st2 : St} (hnd : (tableNames st.tx).Nodup)
    (h : migrateTable allow failAt n ti st = .ok st2) :
    ∃ curT, alookup st.tx.tables n = some curT ∧
      alookup st.tx.tables (tempNameOf n) = none ∧
      alookup st2.tx.tables n = some
        ⟨renameSqlInDdl (tempSqlOf n ti.sql) (tempNameOf n) n, ti.cols,
          if (commonColsOf curT.cols ti.cols).isEmpty then []
          else curT.rows.map (restrictRow (commonColsOf curT.cols ti.cols))⟩ ∧
      (∀ m, m ≠ n → m ≠ tempNameOf n → alookup st2.tx.tables m = alookup st.tx.tables m) ∧
      alookup st2.tx.tables (tempNameOf n) = none ∧
      (tableNames st2.tx).Nodup ∧
      st2.tx.indices = (st.tx.indices.filter (fun e => e.2.tbl ≠ n)).map
        (fun e => if e.2.tbl = tempNameOf n then (e.1, { e.2 with tbl := n }) else e) ∧
      st2.tx.userVersion = st.tx.userVersion := by
  have hntemp : n ≠ tempNameOf n := fun hh => tempNameOf_ne n hh.symm
  unfold migrateTable at h
  rw [exceptBind_ok] at h
  obtain ⟨st1, h1, h⟩ := h
  obtain ⟨hf1, _, _, _⟩ := execStmt_ok h1
  obtain ⟨hnone, hdb1⟩ := createTableFn_ok hf1
  have hlook1 : ∀ m, alookup st1.tx.tables m
      = (alookup st.tx.tables m).or
          (alookup [(tempNameOf n, ⟨tempSqlOf n ti.sql, ti.cols, []⟩)] m) := by
    intro m
    rw [hdb1]
    exact alookup_append _ _ m
  have hlookTemp : alookup st1.tx.tables (tempNameOf n)
      = some ⟨tempSqlOf n ti.sql, ti.cols, []⟩ := by
    rw [hlook1, hnone, alookup_singleton]
    simp
  rcases hcur : alookup st.tx.tables n with _ | curT
  · -- the current table is absent: the drop statement must fail, contradiction
    exfalso
    have hlookn : alookup st1.tx.tables n = none := by
      rw [hlook1, hcur, alookup_singleton, if_neg (fun hh => hntemp hh.symm)]
      rfl
    have hcc : currentColsIn st1.tx n = [] := by
      unfold currentColsIn
      rw [hlookn]
    rw [hcc] at h
    simp only [List.filter_nil, List.isEmpty_nil, Bool.not_true, Bool.false_and,
      Bool.false_eq_true, if_false] at h
    rw [exceptBind_ok] at h
    obtain ⟨st2a, hcopy, h⟩ := h
    have hst2a : st2a = st1 := by simpa using hcopy.symm
    rw [exceptBind_ok] at h
    obtain ⟨st3a, hdrop, _⟩ := h
    obtain ⟨hdf, _, _, _⟩ := execStmt_ok hdrop
    obtain ⟨hsome, _⟩ := dropTableFn_ok hdf
    rw [hst2a, hlookn] at hsome
    simp at hsome
  · have hcc : currentColsIn st1.tx n = curT.cols := by
      unfold currentColsIn
      rw [hlook1, hcur]
      rfl
    rw [hcc] at h
    split at h
    · exact absurd h (by simp)
    · rw [exceptBind_ok] at h
      obtain ⟨st2a, hcopy, h⟩ := h
      rw [exceptBind_ok] at h
      obtain ⟨st3a, hdrop, hren⟩ := h
      have hndKeys1 : (st1.tx.tables.map Prod.fst).Nodup := by
        rw [hdb1]
        simp only [List.map_append, List.map_cons, List.map_nil]
        rw [List.nodup_append]
        refine ⟨hnd, by simp, ?_⟩
        intro a ha
        simp only [List.mem_singleton]
        intro hb
        rw [hb] at ha
        exact (alookup_eq_none_iff _ _ |>.mp hnone) ha
      -- characterize the state after the (possible) copy
      have hcopyChar : (st2a.tx.tables.map Prod.fst).Nodup ∧
          alookup st2a.tx.tables n = some curT ∧
          alookup st2a.tx.tables (tempNameOf n)
            = some ⟨tempSqlOf n ti.sql, ti.cols,
                if (commonColsOf curT.cols ti.cols).isEmpty then []
                else curT.rows.map (restrictRow (commonColsOf curT.cols ti.cols))⟩ ∧
          (∀ m, m ≠ tempNameOf n → alookup st2a.tx.tables m = alookup st1.tx.tables m) ∧
          st2a.tx.indices = st1.tx.indices ∧ st2a.tx.userVersion = st1.tx.userVersion := by
        split at hcopy
        · rename_i hcom
          obtain ⟨hcf, _, _, _⟩ := execStmt_ok hcopy
          obtain ⟨srcT, dstT, hsrc, hdst, hdb2⟩ := copyDataFn_ok hcf
          have hsrcEq : srcT = curT := by
            rw [hlook1, hcur] at hsrc
            simpa using hsrc.symm
          have hdstEq : dstT = ⟨tempSqlOf n ti.sql, ti.cols, []⟩ := by
            rw [hlookTemp] at hdst
            simpa using hdst.symm
          rw [hsrcEq, hdstEq] at hdb2
          have hcomNe : (commonColsOf curT.cols ti.cols).isEmpty = false := by
            simp only [Bool.not_eq_true'] at hcom
            simpa [commonColsOf] using hcom
          refine ⟨?_, ?_, ?_, ?_, ?_, ?_⟩
          · rw [hdb2]
            simpa [aset_map_fst] using hndKeys1
          · rw [hdb2]
            dsimp only
            rw [alookup_aset_ne _ _ hntemp, hlook1, hcur]
            rfl
          · rw [hdb2]
            dsimp only
            rw [alookup_aset_self _ _ _ (by rw [hlookTemp]; rfl)]
            rw [hcomNe]
            simp [commonColsOf]
          · intro m hm
            rw [hdb2]
            exact alookup_aset_ne _ _ hm
          · rw [hdb2]
          · rw [hdb2]
        · rename_i hcom
          have hst2a : st2a = st1 := by simpa using hcopy.symm
          subst hst2a
          have hcomE : (commonColsOf curT.cols ti.cols).isEmpty = true := by
            simp only [Bool.not_eq_true, Bool.not_eq_false] at hcom
            simpa [commonColsOf] using hcom
          refine ⟨hndKeys1, ?_, ?_, fun m hm => rfl, rfl, rfl⟩
          · rw [hlook1, hcur]
            rfl
          · rw [hlookTemp, hcomE]
            simp
      obtain ⟨hnd2a, hn2a, htemp2a, hpres2a, hidx2a, hv2a⟩ := hcopyChar
      -- the drop
      obtain ⟨hdf, _, _, _⟩ := execStmt_ok hdrop
      obtain ⟨_, hdb3⟩ := dropTableFn_ok hdf
      have hnd3a : (st3a.tx.tables.map Prod.fst).Nodup := by
        rw [hdb3]
        exact (aerase_map_fst_sublist _ _).nodup hnd2a
      have hn3a : alookup st3a.tx.tables n = none := by
        rw [hdb3]
        exact alookup_aerase_self _ _ hnd2a
      have htemp3a : alookup st3a.tx.tables (tempNameOf n)
          = some ⟨tempSqlOf n ti.sql, ti.cols,
              if (commonColsOf curT.cols ti.cols).isEmpty then []
              else curT.rows.map (restrictRow (commonColsOf curT.cols ti.cols))⟩ := by
        rw [hdb3]
        dsimp only
        rw [alookup_aerase_ne _ (fun hh => hntemp hh.symm)]
        exact htemp2a
      have hpres3a : ∀ m, m ≠ n → m ≠ tempNameOf n →
          alookup st3a.tx.tables m = alookup st2a.tx.tables m := by
        intro m hmn hmt
        rw [hdb3]
        exact alookup_aerase_ne _ hmn
      -- the rename
      obtain ⟨hrf, _, _, _⟩ := execStmt_ok hren
      obtain ⟨t, hlt, hlr, hdb4⟩ := renameTableFn_ok hrf
      have htEq : t = ⟨tempSqlOf n ti.sql, ti.cols,
          if (commonColsOf curT.cols ti.cols).isEmpty then []
          else curT.rows.map (restrictRow (commonColsOf curT.cols ti.cols))⟩ := by
        rw [htemp3a] at hlt
        simpa using hlt.symm
      subst htEq
      refine ⟨curT, rfl, hnone, ?_, ?_, ?_, ?_, ?_, ?_⟩
      · rw [hdb4]
        dsimp only
        rw [alookup_append]
        have : alookup (aerase st3a.tx.tables (tempNameOf n)) n = none := by
          rw [alookup_aerase_ne _ hntemp]
          exact hn3a
        rw [this, alookup_singleton, if_pos rfl]
        rfl
      · intro m hmn hmt
        rw [hdb4]
        dsimp only
        rw [alookup_append, alookup_aerase_ne _ hmt, alookup_singleton,
          if_neg (fun hh => hmn hh.symm)]
        rw [hpres3a m hmn hmt, hpres2a m hmt, hlook1 m, alookup_singleton,
          if_neg (fun hh => hmt hh.symm)]
        cases alookup st.tx.tables m <;> rfl
      · rw [hdb4]
        dsimp only
        rw [alookup_append, alookup_aerase_self _ _ hnd3a, alookup_singleton,
          if_neg hntemp]
        rfl
      · rw [hdb4, tableNames_eq]
        dsimp only
        rw [List.map_append, List.nodup_append]
        refine ⟨(aerase_map_fst_sublist _ _).nodup hnd3a, by simp, ?_⟩
        intro a ha
        simp only [List.map_cons, List.map_nil, List.mem_singleton]
        intro hb
        rw [hb] at ha
        have : alookup (aerase st3a.tx.tables (tempNameOf n)) n = none := by
          rw [alookup_aerase_ne _ hntemp]
          exact hn3a
        exact (alookup_eq_none_iff _ _ |>.mp this) ha
      · rw [hdb4]
        dsimp only
        rw [hdb3]
        dsimp only
        rw [hidx2a, hdb1]
      · rw [hdb4]
        dsimp only
        rw [hdb3]
        dsimp only
        rw [hv2a, hdb1]

theorem alookup_restrictRow (cols : List String) (row : List (String × String)) (c : String) :
    alookup (restrictRow cols row) c = if c ∈ cols then alookup row c else none := by
  induction cols with
  | nil => simp [restrictRow, alookup]
  | cons c2 r ih =>
    unfold restrictRow at ih ⊢
    rcases hl : alookup row c2 with _ | v
    · rw [List.filterMap_cons_none (by simp [hl])]
      rw [ih]
      by_cases hc : c = c2
      · subst hc
        by_cases hm : c ∈ r
        · rw [if_pos hm, if_pos (List.mem_cons_self c r), hl]
        · rw [if_neg hm, if_pos (List.mem_cons_self c r), hl]
      · have hmem : (c ∈ c2 :: r) ↔ (c ∈ r) := by simp [List.mem_cons, hc]
        by_cases hm : c ∈ r
        · rw [if_pos hm, if_pos (hmem.mpr hm)]
        · rw [if_neg hm, if_neg (fun hh => hm (hmem.mp hh))]
    · have hfc : ((fun c => (alookup row c).map (fun v => (c, v))) c2) = some (c2, v) := by
        simp [hl]
      rw [@List.filterMap_cons_some String (String × String)
        (fun c => (alookup row c).map (fun v => (c, v))) c2 r (c2, v) hfc]
      by_cases hc : c = c2
      · subst hc
        rw [if_pos (List.mem_cons_self c r), hl]
        simp [alookup]
      · have hmem : (c ∈ c2 :: r) ↔ (c ∈ r) := by simp [List.mem_cons, hc]
        have hskip : alookup ((c2, v) :: List.filterMap (fun c => (alookup row c).map (fun v => (c, v))) r) c
            = alookup (List.filterMap (fun c => (alookup row c).map (fun v => (c, v))) r) c := by
          simp only [alookup, if_neg (fun hh : c2 = c => hc hh.symm)]
        rw [hskip, ih]
        by_cases hm : c ∈ r
        · rw [if_pos hm, if_pos (hmem.mpr hm)]
        · rw [if_neg hm, if_neg (fun hh => hm (hmem.mp hh))]

/-! # Claim C3 -/

/-- C3: for a modified table the rebuild preserves data on the common
columns: after a successful `migrate_table`, the table's rows are exactly the
old rows restricted to `commonColumns = currentColumns ∩ targetColumns` (none
survive when no column is shared, since the copy is skipped), restriction
changes no surviving value, and the copy statement is a single
`INSERT INTO … (cols) SELECT cols FROM …` with the identical joined column
list on both sides. -/
theorem c3_rebuild_preserves_common_columns {allow : Bool} {failAt : Option Nat}
    {n : String} {ti curT : TableInfo} {st st2 : St}
    (hnd : (tableNames st.tx).Nodup)
    (hcur : alookup st.tx.tables n = some curT)
    (h : migrateTable allow failAt n ti st = .ok st2) :
    ∃ resT, alookup st2.tx.tables n = some resT ∧
      resT.cols = ti.cols ∧
      resT.rows = (if (commonColsOf curT.cols ti.cols).isEmpty then []
        else curT.rows.map (restrictRow (commonColsOf curT.cols ti.cols))) ∧
      (∀ row, ∀ c ∈ commonColsOf curT.cols ti.cols,
        alookup (restrictRow (commonColsOf curT.cols ti.cols) row) c = alookup row c) ∧
      (∃ scols, copySqlString (tempNameOf n) n (commonColsOf curT.cols ti.cols)
        = "INSERT INTO " ++ tempNameOf n ++ " (" ++ scols ++ ") SELECT " ++ scols
            ++ " FROM " ++ n) := by
  obtain ⟨curT2, hcur2, _, hres, _, _, _, _, _⟩ := migrateTable_ok_char hnd h
  have hEq : curT2 = curT := by
    rw [hcur] at hcur2
    exact (show curT = curT2 by simpa using hcur2).symm
  rw [hEq] at hres
  refine ⟨_, hres, rfl, rfl, ?_, ⟨commaJoin (commonColsOf curT.cols ti.cols), rfl⟩⟩
  intro row c hc
  rw [alookup_restrictRow, if_pos hc]

/-- C3 witness: rebuilding `users(id, username)` into
`users(id, username, email)` keeps the row `(1, alice)` on the common
columns. -/
theorem c3_rebuild_preserves_common_columns_witness :
    (tableNames (St.mk dbUsersAlice 0 0 []).tx).Nodup ∧
    alookup (St.mk dbUsersAlice 0 0 []).tx.tables "users"
      = some ⟨"CREATE TABLE users (id, username)", ["id", "username"],
          [[("id", "1"), ("username", "alice")]]⟩ ∧
    migrateTable true none "users"
        ⟨"CREATE TABLE users (id, username, email)", ["id", "username", "email"], []⟩
        (St.mk dbUsersAlice 0 0 [])
      = .ok (St.mk
        ⟨[("users", ⟨"CREATE TABLE \"users\" (id, username, email)",
            ["id", "username", "email"], [[("id", "1"), ("username", "alice")]]⟩)], [], 0⟩
        4 4
        [Ev.exec "Create temporary table for users", Ev.exec "Copy data to new users",
         Ev.exec "Drop old table users", Ev.exec "Rename new table to users"]) ∧
    (∃ resT, alookup (St.mk
        (DB.mk [("users", ⟨"CREATE TABLE \"users\" (id, username, email)",
            ["id", "username", "email"], [[("id", "1"), ("username", "alice")]]⟩)] [] 0)
        4 4
        [Ev.exec "Create temporary table for users", Ev.exec "Copy data to new users",
         Ev.exec "Drop old table users", Ev.exec "Rename new table to users"]).tx.tables "users"
        = some resT ∧
      resT.cols = ["id", "username", "email"] ∧
      resT.rows = (if (commonColsOf ["id", "username"] ["id", "username", "email"]).isEmpty then []
        else [[("id", "1"), ("username", "alice")]].map
          (restrictRow (commonColsOf ["id", "username"] ["id", "username", "email"]))) ∧
      (∀ row, ∀ c ∈ commonColsOf ["id", "username"] ["id", "username", "email"],
        alookup (restrictRow (commonColsOf ["id", "username"] ["id", "username", "email"]) row) c
          = alookup row c) ∧
      (∃ scols, copySqlString (tempNameOf "users") "users"
          (commonColsOf ["id", "username"] ["id", "username", "email"])
        = "INSERT INTO " ++ tempNameOf "users" ++ " (" ++ scols ++ ") SELECT " ++ scols
            ++ " FROM " ++ "users")) := by
  refine ⟨by decide, by decide, by decide, ?_⟩
  exact @c3_rebuild_preserves_common_columns true none "users"
    ⟨"CREATE TABLE users (id, username, email)", ["id", "username", "email"], []⟩
    ⟨"CREATE TABLE users (id, username)", ["id", "username"],
      [[("id", "1"), ("username", "alice")]]⟩
    (St.mk dbUsersAlice 0 0 [])
    (St.mk
      (DB.mk [("users", ⟨"CREATE TABLE \"users\" (id, username, email)",
          ["id", "username", "email"], [[("id", "1"), ("username", "alice")]]⟩)] [] 0)
      4 4
      [Ev.exec "Create temporary table for users", Ev.exec "Copy data to new users",
       Ev.exec "Drop old table users", Ev.exec "Rename new table to users"])
    (by decide) (by decide) (by decide)

/-! # Claim C7 -/

theorem createNewTables_none_ok {failAt : Option Nat} (target : DB) :
    ∀ (names : List String) (st : St),
      failAt = none →
      (∀ n ∈ names, alookup st.tx.tables n = none) →
      names.Nodup →
      ∃ st2, createNewTables failAt target names st = .ok st2 ∧
        st2.tx.indices = st.tx.indices ∧ st2.tx.userVersion = st.tx.userVersion := by
  intro names
  induction names with
  | nil =>
    intro st _ _ _
    exact ⟨st, rfl, rfl, rfl⟩
  | cons n r ih =>
    intro st hfa hfresh hnodup
    subst hfa
    unfold createNewTables at ih ⊢
    rw [List.foldlM_cons]
    rcases ht : alookup target.tables n with _ | ti
    · have hfresh2 : ∀ m ∈ r, alookup st.tx.tables m = none :=
        fun m hm => hfresh m (List.mem_cons_of_mem n hm)
      obtain ⟨st2, hok, hidx, hv⟩ := ih st rfl hfresh2 (List.nodup_cons.mp hnodup).2
      refine ⟨st2, ?_, hidx, hv⟩
      simp only [ht, Bind.bind, Except.bind]
      exact hok
    · have hcreate : createTableFn n ti.sql ti.cols st.tx
          = some { tables := st.tx.tables ++ [(n, ⟨ti.sql, ti.cols, []⟩)],
                   indices := st.tx.indices, userVersion := st.tx.userVersion } := by
        unfold createTableFn
        rw [hfresh n (List.mem_cons_self n r)]
        rfl
      have hstep : execStmt none ("Create new table " ++ n) (createTableFn n ti.sql ti.cols) st
          = .ok { tx := { tables := st.tx.tables ++ [(n, ⟨ti.sql, ti.cols, []⟩)],
                          indices := st.tx.indices, userVersion := st.tx.userVersion },
                  count := st.count + 1, attempt := st.attempt + 1,
                  events := st.events ++ [Ev.exec ("Create new table " ++ n)] } := by
        unfold execStmt
        rw [if_neg (by simp), hcreate]
      have hfresh2 : ∀ m ∈ r,
          alookup (st.tx.tables ++ [(n, ⟨ti.sql, ti.cols, []⟩)]) m = none := by
        intro m hm
        have h1 : alookup st.tx.tables m = none := hfresh m (List.mem_cons_of_mem n hm)
        have h2 : n ≠ m := by
          intro hh
          exact (List.nodup_cons.mp hnodup).1 (hh ▸ hm)
        rw [alookup_append, h1, alookup_singleton, if_neg h2]
        rfl
      obtain ⟨st2, hok, hidx, hv⟩ := ih
        { tx := { tables := st.tx.tables ++ [(n, ⟨ti.sql, ti.cols, []⟩)],
                  indices := st.tx.indices, userVersion := st.tx.userVersion },
          count := st.count + 1, attempt := st.attempt + 1,
          events := st.events ++ [Ev.exec ("Create new table " ++ n)] }
        rfl hfresh2 (List.nodup_cons.mp hnodup).2
      refine ⟨st2, ?_, hidx, hv⟩
      simp only [ht]
      rw [hstep]
      simp only [Bind.bind, Except.bind]
      exact hok

/-- C7 (amended): the refusal reports a single category only, in a fixed
priority order. With `allowDeletions = false`: if some modified table loses
columns, the error is `refusedColumns` for the first such table only;
otherwise if tables are removed, the error is `refusedTables` with all
removed table names; otherwise (no modified tables at all and nothing else
failing first) a non-empty removed-index set produces `refusedIndices` with
all removed index names, raised only during the apply phase. No error ever
combines two categories. -/
theorem c7_refusal_single_category (failAt : Option Nat) (cur target : DB) :
    (∀ n, (analyzeChangesRaw cur target).modified_tables.find?
        (fun n => !(removedColumnsOf cur target n).isEmpty) = some n →
      (migrate false failAt cur target).res
        = .error (.refusedColumns (removedColumnsOf cur target n) n)) ∧
    ((analyzeChangesRaw cur target).modified_tables.find?
        (fun n => !(removedColumnsOf cur target n).isEmpty) = none →
      (analyzeChangesRaw cur target).removed_tables ≠ [] →
      (migrate false failAt cur target).res
        = .error (.refusedTables (analyzeChangesRaw cur target).removed_tables)) ∧
    ((tableNames target).Nodup →
      (analyzeChangesRaw cur target).modified_tables = [] →
      (analyzeChangesRaw cur target).removed_tables = [] →
      (analyzeChangesRaw cur target).removed_indices ≠ [] →
      (migrate false none cur target).res
        = .error (.refusedIndices (analyzeChangesRaw cur target).removed_indices)) := by
  refine ⟨?_, ?_, ?_⟩
  · intro n hfind
    have hmem := List.mem_of_find?_eq_some hfind
    have hA : analyzeChanges false cur target
        = .error (.refusedColumns (removedColumnsOf cur target n) n) := by
      unfold analyzeChanges
      rw [if_pos ?side, hfind]
      case side =>
        have : (analyzeChangesRaw cur target).modified_tables.isEmpty = false := by
          rcases hmt : (analyzeChangesRaw cur target).modified_tables with _ | ⟨a, b⟩
          · rw [hmt] at hmem
            exact absurd hmem (List.not_mem_nil n)
          · rfl
        simp [this]
    rw [migrate, migrateWith_eq_analyzeErr hA]
  · intro hfind hrt
    have hA : analyzeChanges false cur target
        = .error (.refusedTables (analyzeChangesRaw cur target).removed_tables) := by
      unfold analyzeChanges
      have hrtE : (analyzeChangesRaw cur target).removed_tables.isEmpty = false := by
        rcases hmt : (analyzeChangesRaw cur target).removed_tables with _ | ⟨a, b⟩
        · exact absurd hmt hrt
        · rfl
      rw [if_pos (by simp [hrtE]), hfind, if_pos (by simp [hrtE])]
    rw [migrate, migrateWith_eq_analyzeErr hA]
  · intro hndT hmt hrt hri
    have hA : analyzeChanges false cur target = .ok (analyzeChangesRaw cur target) := by
      unfold analyzeChanges
      rw [if_neg]
      simp [hmt, hrt]
    have hriE : (analyzeChangesRaw cur target).removed_indices.isEmpty = false := by
      rcases hmt2 : (analyzeChangesRaw cur target).removed_indices with _ | ⟨a, b⟩
      · exact absurd hmt2 hri
      · rfl
    have hany : (analyzeChangesRaw cur target).hasAnyChanges = true := by
      unfold ChangesNeeded.hasAnyChanges
      simp [hriE]
    -- the apply phase reaches the removed-index check with the indices intact
    have hfresh : ∀ n ∈ (analyzeChangesRaw cur target).new_tables,
        alookup cur.tables n = none := by
      intro n hn
      unfold analyzeChangesRaw at hn
      simp only [List.mem_filter] at hn
      exact Option.isNone_iff_eq_none.mp (by simpa using hn.2)
    have hnodupNew : (analyzeChangesRaw cur target).new_tables.Nodup := by
      unfold analyzeChangesRaw
      exact (hndT.filter _)
    obtain ⟨stA, hokA, hidxA, _⟩ := createNewTables_none_ok target
      (analyzeChangesRaw cur target).new_tables
      { tx := cur, count := 0, attempt := 0, events := [] } rfl hfresh hnodupNew
    have hap : applyChanges false none target (analyzeChangesRaw cur target)
        { tx := cur, count := 0, attempt := 0, events := [] }
        = .error (.refusedIndices (analyzeChangesRaw cur target).removed_indices, stA) := by
      unfold applyChanges
      rw [hokA]
      simp only [Bind.bind, Except.bind]
      rw [hmt]
      have hB : rebuildModified false none target [] stA = .ok stA := rfl
      rw [hB]
      dsimp only
      rw [hrt]
      have hC : dropRemovedTables false none [] stA = .ok stA := rfl
      rw [hC]
      dsimp only
      have hIdx : ((stA.tx.indices.map (fun e => e.1)).filter
          (fun n => (alookup target.indices n).isNone))
          = (analyzeChangesRaw cur target).removed_indices := by
        rw [hidxA]
        rfl
      rw [if_pos (by rw [hIdx]; simp [hriE])]
      rw [hIdx]
    rw [migrate, migrateWith_eq_applyErr hA hany hap]

/-- C7 witness: a plan whose only destructive change is a removed index is
refused with `refusedIndices` carrying exactly the removed index names. -/
theorem c7_refusal_single_category_witness :
    (tableNames dbOneTable).Nodup ∧
    (analyzeChangesRaw dbUsersWithIdx dbOneTable).modified_tables = [] ∧
    (analyzeChangesRaw dbUsersWithIdx dbOneTable).removed_tables = [] ∧
    (analyzeChangesRaw dbUsersWithIdx dbOneTable).removed_indices ≠ [] ∧
    (migrate false none dbUsersWithIdx dbOneTable).res
      = .error (.refusedIndices (analyzeChangesRaw dbUsersWithIdx dbOneTable).removed_indices) :=
  ⟨by decide, by decide, by decide, by decide,
   (c7_refusal_single_category none dbUsersWithIdx dbOneTable).2.2
     (by decide) (by decide) (by decide) (by decide)⟩

/-! # Claim C9 -/

theorem startsWithL_append_self (pat rest : List Char) :
    startsWithL pat (pat ++ rest) = true := by
  induction pat with
  | nil => rfl
  | cons p ps ih => simp [startsWithL, ih]

theorem replaceAllF_no_occurrence (pat rep : List Char) :
    ∀ (fuel : Nat) (l : List Char), containsSubstrL pat l = false →
      replaceAllF pat rep fuel l = l := by
  intro fuel
  induction fuel with
  | zero =>
    intro l hl
    cases l <;> rfl
  | succ f ih =>
    intro l hl
    cases l with
    | nil => rfl
    | cons c r =>
      unfold containsSubstrL at hl
      rw [Bool.or_eq_false_iff] at hl
      unfold replaceAllF
      rw [if_neg (by simp [hl.1])]
      rw [ih r hl.2]

theorem replaceAllL_leading (pat rep rest : List Char) (hp : pat ≠ [])
    (hno : containsSubstrL pat rest = false) :
    replaceAllL pat rep (pat ++ rest) = rep ++ rest := by
  unfold replaceAllL
  rcases hl : (pat ++ rest).length with _ | f
  · rcases pat with _ | ⟨p, ps⟩
    · exact absurd rfl hp
    · simp at hl
  · rcases hpat : pat with _ | ⟨p, ps⟩
    · exact absurd hpat hp
    · have hshape : pat ++ rest = p :: (ps ++ rest) := by rw [hpat]; rfl
      rw [← hpat]
      rw [hshape]
      unfold replaceAllF
      rw [if_pos ⟨by rw [hpat]; simp, by rw [← hshape]; exact startsWithL_append_self pat rest⟩]
      have hdrop : (p :: (ps ++ rest)).drop pat.length = rest := by
        rw [← hshape]
        exact List.drop_left pat rest
      rw [hdrop, replaceAllF_no_occurrence pat rep f rest hno]

/-- C9 (amended): the temporary-name substitution is Rust `str::replace` of
the full phrase `CREATE TABLE <name>`: when the phrase occurs nowhere after
the leading position, exactly the leading phrase is rewritten and the rest of
the DDL — including later occurrences of the bare table name, e.g. in
self-referencing foreign keys — is left unchanged; a later occurrence of the
full phrase, however, would also be rewritten. -/
theorem c9_leading_replacement (n rest : String)
    (hno : containsSubstrL ("CREATE TABLE " ++ n).data rest.data = false) :
    tempSqlOf n ("CREATE TABLE " ++ n ++ rest)
      = "CREATE TABLE " ++ tempNameOf n ++ rest := by
  unfold tempSqlOf replaceAllS
  have hdata : ("CREATE TABLE " ++ n ++ rest).data
      = ("CREATE TABLE " ++ n).data ++ rest.data := String.data_append _ _
  rw [hdata]
  have hp : ("CREATE TABLE " ++ n).data ≠ [] := by
    rw [String.data_append]
    simp [show "CREATE TABLE ".data = ['C', 'R', 'E', 'A', 'T', 'E', ' ', 'T', 'A', 'B', 'L', 'E', ' '] from rfl]
  rw [replaceAllL_leading _ _ _ hp hno]
  apply String.ext
  simp [String.data_append]

/-- C9 witness: a self-referencing foreign key mentioning the bare name
`users` later in the DDL is untouched by the substitution. -/
theorem c9_leading_replacement_witness :
    containsSubstrL ("CREATE TABLE " ++ "users").data " (id INTEGER REFERENCES users(id))".data
      = false ∧
    tempSqlOf "users" ("CREATE TABLE " ++ "users" ++ " (id INTEGER REFERENCES users(id))")
      = "CREATE TABLE " ++ tempNameOf "users" ++ " (id INTEGER REFERENCES users(id))" :=
  ⟨by decide, c9_leading_replacement "users" " (id INTEGER REFERENCES users(id))" (by decide)⟩

/-! # Claim C8: amended comment-stripping soundness -/

theorem noDD_cons (a : Char) (l : List Char)
    (hhead : a = '-' → l.head? ≠ some '-') (hl : noDD l = true) :
    noDD (a :: l) = true := by
  cases l with
  | nil => rfl
  | cons d r =>
    unfold noDD
    rw [Bool.and_eq_true]
    refine ⟨?_, hl⟩
    by_cases ha : a = '-'
    · have hd : d ≠ '-' := by
        intro hh
        exact (hhead ha) (by rw [hh]; rfl)
      simp [hd]
    · simp [ha]

theorem noDD_tail {a : Char} {l : List Char} (h : noDD (a :: l) = true) : noDD l = true := by
  cases l with
  | nil => rfl
  | cons d r =>
    unfold noDD at h
    rw [Bool.and_eq_true] at h
    exact h.2

theorem noDD_head {a d : Char} {l : List Char} (h : noDD (a :: d :: l) = true)
    (ha : a = '-') : d ≠ '-' := by
  unfold noDD at h
  rw [Bool.and_eq_true] at h
  intro hd
  rw [ha, hd] at h
  simpa using h.1

theorem noDD_of_no_dash {l : List Char} (h : ∀ c ∈ l, c ≠ '-') : noDD l = true := by
  induction l with
  | nil => rfl
  | cons c r ih =>
    refine noDD_cons c r ?_ (ih (fun x hx => h x (List.mem_cons_of_mem c hx)))
    intro hc
    exact absurd hc (h c (List.mem_cons_self c r))

theorem noDD_nodash_append {xs ys : List Char} (hxs : ∀ c ∈ xs, c ≠ '-')
    (hys : noDD ys = true) : noDD (xs ++ ys) = true := by
  induction xs with
  | nil => simpa using hys
  | cons x r ih =>
    rw [List.cons_append]
    refine noDD_cons x (r ++ ys) ?_ (ih (fun c hc => hxs c (List.mem_cons_of_mem x hc)))
    intro hx
    exact absurd hx (hxs x (List.mem_cons_self x r))

theorem okDashes_tail {c : Char} {l : List Char} (h : okDashes (c :: l) = true) :
    okDashes l = true := by
  cases l with
  | nil => rfl
  | cons d r =>
    unfold okDashes at h
    rw [Bool.and_eq_true] at h
    exact h.2

theorem okDashes_dropLine {l : List Char} (h : okDashes l = true) :
    okDashes (dropLine l) = true := by
  induction l with
  | nil => exact h
  | cons c r ih =>
    unfold dropLine
    by_cases hc : c = '\n'
    · rw [if_pos hc]
      exact okDashes_tail h
    · rw [if_neg hc]
      exact ih (okDashes_tail h)

theorem dropLine_length_le (l : List Char) : (dropLine l).length ≤ l.length := by
  induction l with
  | nil => simp [dropLine]
  | cons c r ih =>
    by_cases h : c = '\n' <;> simp [dropLine, h] <;> try omega

theorem rcGo_true_step (c : Char) (r : List Char) :
    rcGo true (c :: r) = if c = '\n' then rcGo false r else rcGo true r := rfl

theorem rcGo_false_step (c d : Char) (r2 : List Char) :
    rcGo false (c :: d :: r2) =
      if c = '-' then
        if d = '-' then
          if r2.contains '\n' then rcGo true r2 else c :: d :: r2
        else c :: rcGo false (d :: r2)
      else c :: rcGo false (d :: r2) := rfl

theorem cwGo_step (b : Bool) (c : Char) (r : List Char) :
    cwGo b (c :: r) =
      if isWsChar c then (if b then cwGo true r else ' ' :: cwGo true r)
      else c :: cwGo false r := rfl

theorem cpGo_step (dm : Bool) (pend : Nat) (c : Char) (r : List Char) :
    cpGo dm pend (c :: r) =
      if c = ' ' then
        if dm then cpGo true 0 r else cpGo false (pend + 1) r
      else if isPunctChar c then c :: cpGo true 0 r
      else List.replicate pend ' ' ++ (c :: cpGo false 0 r) := rfl

theorem rcGo_true_eq (l : List Char) : rcGo true l = rcGo false (dropLine l) := by
  induction l with
  | nil => rfl
  | cons c r ih =>
    rw [rcGo_true_step]
    unfold dropLine
    by_cases hc : c = '\n'
    · rw [if_pos hc, if_pos hc]
    · rw [if_neg hc, if_neg hc]
      exact ih

theorem rcGo_cons_ne (c : Char) (r : List Char) (hc : c ≠ '-') :
    rcGo false (c :: r) = c :: rcGo false r := by
  cases r with
  | nil => rfl
  | cons d r2 =>
    rw [rcGo_false_step, if_neg hc]

theorem rcGo_noDD_aux : ∀ (k : Nat) (l : List Char), l.length ≤ k →
    okDashes l = true → noDD (rcGo false l) = true := by
  intro k
  induction k with
  | zero =>
    intro l hl _
    have : l = [] := List.eq_nil_of_length_eq_zero (Nat.le_zero.mp hl)
    rw [this]
    rfl
  | succ k ih =>
    intro l hl hok
    cases l with
    | nil => rfl
    | cons c r =>
      cases r with
      | nil =>
        show noDD [c] = true
        rfl
      | cons d r2 =>
        by_cases hc : c = '-'
        · by_cases hd : d = '-'
          · have hcont : r2.contains '\n' = true := by
              unfold okDashes at hok
              rw [Bool.and_eq_true] at hok
              have h1 := hok.1
              rw [hc, hd] at h1
              simpa using h1
            have heq : rcGo false (c :: d :: r2) = rcGo true r2 := by
              rw [rcGo_false_step, if_pos hc, if_pos hd, if_pos hcont]
            rw [heq, rcGo_true_eq]
            refine ih (dropLine r2) ?_ ?_
            · have := dropLine_length_le r2
              simp only [List.length_cons] at hl
              omega
            · exact okDashes_dropLine (okDashes_tail (okDashes_tail hok))
          · have heq : rcGo false (c :: d :: r2) = c :: rcGo false (d :: r2) := by
              rw [rcGo_false_step, if_pos hc, if_neg hd]
            rw [heq]
            refine noDD_cons c _ ?_ ?_
            · intro _
              rw [rcGo_cons_ne d r2 hd]
              simp [hd]
            · refine ih (d :: r2) ?_ (okDashes_tail hok)
              simp only [List.length_cons] at hl ⊢
              omega
        · rw [rcGo_cons_ne c (d :: r2) hc]
          refine noDD_cons c _ (fun hcc => absurd hcc hc) ?_
          refine ih (d :: r2) ?_ (okDashes_tail hok)
          simp only [List.length_cons] at hl ⊢
          omega

theorem rcGo_noDD {l : List Char} (hok : okDashes l = true) :
    noDD (rcGo false l) = true :=
  rcGo_noDD_aux l.length l (Nat.le_refl _) hok

theorem cwGo_head (d : Char) (r2 : List Char) :
    (cwGo false (d :: r2)).head? = some (if isWsChar d then ' ' else d) := by
  rw [cwGo_step]
  by_cases hw : isWsChar d
  · rw [if_pos hw, if_neg (by simp), if_pos hw]
    rfl
  · rw [if_neg hw, if_neg hw]
    rfl

theorem cwGo_noDD : ∀ (l : List Char), noDD l = true →
    ∀ b, noDD (cwGo b l) = true := by
  intro l
  induction l with
  | nil =>
    intro _ b
    cases b <;> rfl
  | cons c r ih =>
    intro hl b
    by_cases hw : isWsChar c
    · cases b
      · show noDD (cwGo false (c :: r)) = true
        rw [cwGo_step, if_pos hw, if_neg (by simp)]
        refine noDD_cons ' ' _ (by simp) (ih (noDD_tail hl) true)
      · show noDD (cwGo true (c :: r)) = true
        rw [cwGo_step, if_pos hw, if_pos rfl]
        exact ih (noDD_tail hl) true
    · have heq : cwGo b (c :: r) = c :: cwGo false r := by
        rw [cwGo_step, if_neg hw]
      rw [heq]
      refine noDD_cons c _ ?_ (ih (noDD_tail hl) false)
      intro hc
      cases r with
      | nil => simp [cwGo]
      | cons d r2 =>
        rw [cwGo_head d r2]
        by_cases hwd : isWsChar d
        · simp [hwd]
        · have hd := noDD_head hl hc
          simp [hwd, hd]

theorem punct_ne_dash {c : Char} (h : isPunctChar c = true) : c ≠ '-' := by
  intro hc
  rw [hc] at h
  exact absurd h (by decide)

theorem word_ne_dash {c : Char} (h : isWordChar c = true) : c ≠ '-' := by
  intro hc
  rw [hc] at h
  exact absurd h (by decide)

theorem replicate_space_head (k : Nat) (l : List Char) (hk : 0 < k) :
    (List.replicate k ' ' ++ l).head? = some ' ' := by
  cases k with
  | zero => omega
  | succ k2 => rfl

theorem cpGo_head_pos : ∀ (r : List Char) (pend : Nat), 0 < pend →
    (cpGo false pend r).head? ≠ some '-' := by
  intro r
  induction r with
  | nil =>
    intro pend hp
    show (List.replicate pend ' ').head? ≠ some '-'
    cases pend with
    | zero => omega
    | succ k =>
      rw [List.replicate_succ]
      simp
  | cons c r2 ih =>
    intro pend hp
    rw [cpGo_step]
    by_cases hs : c = ' '
    · rw [if_pos hs, if_neg (by simp)]
      exact ih (pend + 1) (by omega)
    · rw [if_neg hs]
      by_cases hpu : isPunctChar c
      · rw [if_pos hpu]
        intro hh
        rw [List.head?_cons] at hh
        exact punct_ne_dash hpu (Option.some.inj hh)
      · rw [if_neg hpu]
        rw [replicate_space_head pend _ hp]
        simp

theorem cpGo_head_zero : ∀ (r : List Char),
    (cpGo false 0 r).head? = some '-' → r.head? = some '-' := by
  intro r
  cases r with
  | nil => simp [cpGo]
  | cons c r2 =>
    rw [cpGo_step]
    by_cases hs : c = ' '
    · rw [if_pos hs, if_neg (by simp)]
      intro h
      exact absurd h (cpGo_head_pos r2 1 (by omega))
    · rw [if_neg hs]
      by_cases hpu : isPunctChar c
      · rw [if_pos hpu]
        simp only [List.head?_cons, Option.some.injEq]
        intro hh
        exact absurd hh (punct_ne_dash hpu)
      · rw [if_neg hpu]
        simp only [List.replicate_zero, List.nil_append, List.head?_cons, Option.some.injEq]
        intro hh
        rw [hh]

theorem noDD_replicate_space_append (k : Nat) {l : List Char} (hl : noDD l = true) :
    noDD (List.replicate k ' ' ++ l) = true := by
  induction k with
  | zero => simpa using hl
  | succ k2 ih =>
    rw [List.replicate_succ, List.cons_append]
    exact noDD_cons ' ' _ (by simp) ih

theorem cpGo_noDD : ∀ (l : List Char), noDD l = true →
    ∀ (dm : Bool) (pend : Nat), noDD (cpGo dm pend l) = true := by
  intro l
  induction l with
  | nil =>
    intro _ dm pend
    show noDD (List.replicate pend ' ') = true
    refine noDD_of_no_dash ?_
    intro c hc
    rw [List.eq_of_mem_replicate hc]
    decide
  | cons c r ih =>
    intro hl dm pend
    rw [cpGo_step]
    by_cases hs : c = ' '
    · rw [if_pos hs]
      by_cases hdm : dm = true
      · rw [if_pos hdm]
        exact ih (noDD_tail hl) true 0
      · rw [if_neg hdm]
        exact ih (noDD_tail hl) false (pend + 1)
    · rw [if_neg hs]
      by_cases hpu : isPunctChar c
      · rw [if_pos hpu]
        refine noDD_cons c _ (fun hc => absurd hc (punct_ne_dash hpu)) ?_
        exact ih (noDD_tail hl) true 0
      · rw [if_neg hpu]
        refine noDD_replicate_space_append pend ?_
        refine noDD_cons c _ ?_ (ih (noDD_tail hl) false 0)
        intro hc hhead
        have hr : r.head? = some '-' := cpGo_head_zero r hhead
        cases r with
        | nil => simp at hr
        | cons d r2 =>
          simp only [List.head?_cons, Option.some.injEq] at hr
          exact (noDD_head hl hc) hr

theorem sqGo_none_step (c : Char) (r : List Char) :
    sqGo none (c :: r) = if c = '"' then sqGo (some []) r else c :: sqGo none r := rfl

theorem sqGo_some_step (acc : List Char) (c : Char) (r : List Char) :
    sqGo (some acc) (c :: r) =
      if isWordChar c then sqGo (some (c :: acc)) r
      else if c = '"' then
        if acc.isEmpty then '"' :: sqGo (some []) r
        else acc.reverse ++ sqGo none r
      else ('"' :: acc.reverse) ++ (c :: sqGo none r) := rfl

theorem sq_head_some : ∀ (r acc : List Char), (∀ a ∈ acc, isWordChar a = true) →
    (sqGo (some acc) r).head? ≠ some '-' := by
  intro r
  induction r with
  | nil =>
    intro acc _
    show ('"' :: acc.reverse).head? ≠ some '-'
    simp
  | cons c r2 ih =>
    intro acc hacc
    rw [sqGo_some_step]
    by_cases hw : isWordChar c
    · rw [if_pos hw]
      refine ih (c :: acc) ?_
      intro a ha
      rcases List.mem_cons.mp ha with h1 | h2
      · rw [h1]; exact hw
      · exact hacc a h2
    · rw [if_neg hw]
      by_cases hq : c = '"'
      · rw [if_pos hq]
        by_cases he : acc.isEmpty
        · rw [if_pos he]
          simp
        · rw [if_neg he]
          have hne : acc ≠ [] := by
            intro h0
            rw [h0] at he
            exact he rfl
          cases hrev : acc.reverse with
          | nil => exact absurd (by simpa using hrev) hne
          | cons b t =>
            rw [List.cons_append, List.head?_cons]
            have hb : b ∈ acc := by
              have : b ∈ acc.reverse := by rw [hrev]; exact List.mem_cons_self b t
              simpa using this
            have := hacc b hb
            intro hh
            rw [Option.some.injEq] at hh
            exact (word_ne_dash this) hh
      · rw [if_neg hq, List.cons_append, List.head?_cons]
        simp

theorem sq_head_none : ∀ (r : List Char), (sqGo none r).head? = some '-' →
    r.head? = some '-' := by
  intro r
  cases r with
  | nil => simp [sqGo]
  | cons c r2 =>
    rw [sqGo_none_step]
    by_cases hq : c = '"'
    · rw [if_pos hq]
      intro h
      exact absurd h (sq_head_some r2 [] (by simp))
    · rw [if_neg hq, List.head?_cons, List.head?_cons]
      exact id

theorem sq_noDD_both : ∀ (l : List Char), noDD l = true →
    noDD (sqGo none l) = true ∧
    (∀ acc : List Char, (∀ a ∈ acc, isWordChar a = true) →
      noDD (sqGo (some acc) l) = true) := by
  intro l
  induction l with
  | nil =>
    intro _
    refine ⟨rfl, ?_⟩
    intro acc hacc
    show noDD ('"' :: acc.reverse) = true
    refine noDD_of_no_dash ?_
    intro a ha
    rcases List.mem_cons.mp ha with h1 | h2
    · rw [h1]; decide
    · exact word_ne_dash (hacc a (by simpa using h2))
  | cons c r ih =>
    intro hl
    have hr := noDD_tail hl
    have hhead : c = '-' → (sqGo none r).head? ≠ some '-' := by
      intro hc hsh
      have hrh := sq_head_none r hsh
      cases r with
      | nil => simp at hrh
      | cons d r2 =>
        rw [List.head?_cons, Option.some.injEq] at hrh
        exact (noDD_head hl hc) hrh
    constructor
    · rw [sqGo_none_step]
      by_cases hq : c = '"'
      · rw [if_pos hq]
        exact (ih hr).2 [] (by simp)
      · rw [if_neg hq]
        exact noDD_cons c _ hhead (ih hr).1
    · intro acc hacc
      rw [sqGo_some_step]
      by_cases hw : isWordChar c
      · rw [if_pos hw]
        refine (ih hr).2 (c :: acc) ?_
        intro a ha
        rcases List.mem_cons.mp ha with h1 | h2
        · rw [h1]; exact hw
        · exact hacc a h2
      · rw [if_neg hw]
        by_cases hq : c = '"'
        · rw [if_pos hq]
          by_cases he : acc.isEmpty
          · rw [if_pos he]
            refine noDD_cons '"' _ (by intro h; exact absurd h (by decide)) ?_
            exact (ih hr).2 [] (by simp)
          · rw [if_neg he]
            refine noDD_nodash_append ?_ (ih hr).1
            intro a ha
            exact word_ne_dash (hacc a (by simpa using ha))
        · rw [if_neg hq]
          refine noDD_nodash_append ?_ ?_
          · intro a ha
            rcases List.mem_cons.mp ha with h1 | h2
            · rw [h1]; decide
            · exact word_ne_dash (hacc a (by simpa using h2))
          · exact noDD_cons c _ hhead (ih hr).1

theorem noDD_dropWhile (p : Char → Bool) : ∀ {l : List Char}, noDD l = true →
    noDD (l.dropWhile p) = true := by
  intro l
  induction l with
  | nil => intro h; exact h
  | cons c r ih =>
    intro hl
    rw [List.dropWhile_cons]
    by_cases hp : p c
    · rw [if_pos hp]
      exact ih (noDD_tail hl)
    · rw [if_neg hp]
      exact hl

theorem trimTrail_step (c : Char) (r : List Char) :
    trimTrail (c :: r) =
      if (trimTrail r).isEmpty && isWsChar c then [] else c :: trimTrail r := rfl

theorem trimTrail_head : ∀ {l : List Char} {a : Char},
    (trimTrail l).head? = some a → l.head? = some a := by
  intro l a
  cases l with
  | nil => simp [trimTrail]
  | cons c r =>
    rw [trimTrail_step]
    by_cases hc : ((trimTrail r).isEmpty && isWsChar c) = true
    · rw [if_pos hc]
      simp
    · rw [if_neg hc, List.head?_cons, List.head?_cons]
      exact id

theorem noDD_trimTrail : ∀ {l : List Char}, noDD l = true →
    noDD (trimTrail l) = true := by
  intro l
  induction l with
  | nil => intro h; exact h
  | cons c r ih =>
    intro hl
    rw [trimTrail_step]
    by_cases hc : ((trimTrail r).isEmpty && isWsChar c) = true
    · rw [if_pos hc]
      rfl
    · rw [if_neg hc]
      refine noDD_cons c _ ?_ (ih (noDD_tail hl))
      intro hcd hth
      have hrh := trimTrail_head hth
      cases r with
      | nil => simp at hrh
      | cons d r2 =>
        rw [List.head?_cons, Option.some.injEq] at hrh
        exact (noDD_head hl hcd) hrh

/-- C8 (amended): `normalize_sql` performs the five passes in source order —
strip `--` comments, collapse whitespace runs to one space, delete the spaces
adjacent to `(`, `)` and `,` on both sides, strip double quotes around
word-character identifiers, and trim — with the caveats recorded in the
counterexample (pass 1 removes only newline-terminated comments, and pass 3
deletes spaces on both sides of the punctuation, not only inside parentheses).
Soundness of the comment stripping: whenever every `--` in the input is
eventually followed by a newline (so every comment is terminated), the
normalized output contains no `--` at all. -/
theorem c8_comment_stripping (s : String) (h : okDashes s.data = true) :
    noDD (normalize_sql s).data = true := by
  show noDD (normChars s.data) = true
  unfold normChars trimL stripQuotes collapsePunct collapseWs removeComments
  refine noDD_trimTrail (noDD_dropWhile isWsChar ?_)
  refine (sq_noDD_both _ ?_).1
  refine cpGo_noDD _ ?_ false 0
  refine cwGo_noDD _ ?_ false
  exact rcGo_noDD h

theorem c8_comment_stripping_witness :
    okDashes ("SELECT a, -- trailing comment
  b FROM t").data = true ∧
    noDD (normalize_sql "SELECT a, -- trailing comment
  b FROM t").data = true :=
  ⟨by decide, c8_comment_stripping "SELECT a, -- trailing comment
  b FROM t" (by decide)⟩

/-! # Convergence of a successful apply: shared infrastructure -/

theorem alookup_some_mem {α : Type} : ∀ {l : List (String × α)} {n : String} {v : α},
    alookup l n = some v → (n, v) ∈ l := by
  intro l
  induction l with
  | nil =>
    intro n v h
    simp [alookup] at h
  | cons e r ih =>
    intro n v h
    obtain ⟨k, w⟩ := e
    by_cases hk : k = n
    · subst hk
      have h2 : w = v := by simpa [alookup] using h
      rw [← h2]
      exact List.mem_cons_self _ _
    · simp only [alookup, hk, if_false] at h
      exact List.mem_cons_of_mem _ (ih h)

theorem containsSubstrL_append_self (p : List Char) : ∀ (x : List Char),
    containsSubstrL p (x ++ p) = true := by
  intro x
  induction x with
  | nil =>
    rw [List.nil_append]
    cases p with
    | nil => rfl
    | cons c r =>
      unfold containsSubstrL
      have hsw : startsWithL (c :: r) (c :: r) = true := by
        have h0 := startsWithL_append_self (c :: r) ([] : List Char)
        rwa [List.append_nil] at h0
      rw [hsw]
      rfl
  | cons c r ih =>
    show containsSubstrL p (c :: (r ++ p)) = true
    unfold containsSubstrL
    rw [ih]
    simp

theorem not_temp_of_no_marker {m : String}
    (h : containsSubstrS m "_migration_new" = false) : ∀ k, m ≠ tempNameOf k := by
  intro k hk
  unfold containsSubstrS at h
  rw [hk] at h
  unfold tempNameOf at h
  rw [String.data_append, containsSubstrL_append_self] at h
  exact absurd h (by simp)

theorem replaceFirstL_leading (pat rep rest : List Char) (hp : pat ≠ []) :
    replaceFirstL pat rep (pat ++ rest) = rep ++ rest := by
  rcases hpat : pat with _ | ⟨p, ps⟩
  · exact absurd hpat hp
  · have hshape : pat ++ rest = p :: (ps ++ rest) := by rw [hpat]; rfl
    rw [← hpat, hshape]
    unfold replaceFirstL
    rw [if_pos ⟨by rw [hpat]; simp, by rw [← hshape]; exact startsWithL_append_self pat rest⟩]
    rw [← hshape, List.drop_left pat rest]

theorem tempSqlOf_eq (n rest : String)
    (hno : containsSubstrL ("CREATE TABLE " ++ n).data rest.data = false) :
    tempSqlOf n ("CREATE TABLE " ++ n ++ rest)
      = "CREATE TABLE " ++ tempNameOf n ++ rest := by
  unfold tempSqlOf replaceAllS
  have hdata : ("CREATE TABLE " ++ n ++ rest).data
      = ("CREATE TABLE " ++ n).data ++ rest.data := String.data_append _ _
  rw [hdata]
  have hp : ("CREATE TABLE " ++ n).data ≠ [] := by
    rw [String.data_append]
    simp [show "CREATE TABLE ".data = ['C', 'R', 'E', 'A', 'T', 'E', ' ', 'T', 'A', 'B', 'L', 'E', ' '] from rfl]
  rw [replaceAllL_leading _ _ _ hp hno]
  apply String.ext
  simp [String.data_append]

theorem renameSqlInDdl_leading (old renamed rest : String) :
    renameSqlInDdl ("CREATE TABLE " ++ old ++ rest) old renamed
      = "CREATE TABLE \"" ++ renamed ++ "\"" ++ rest := by
  unfold renameSqlInDdl replaceFirstS
  have hdata : ("CREATE TABLE " ++ old ++ rest).data
      = ("CREATE TABLE " ++ old).data ++ rest.data := String.data_append _ _
  rw [hdata]
  have hp : ("CREATE TABLE " ++ old).data ≠ [] := by
    rw [String.data_append]
    simp [show "CREATE TABLE ".data = ['C', 'R', 'E', 'A', 'T', 'E', ' ', 'T', 'A', 'B', 'L', 'E', ' '] from rfl]
  rw [replaceFirstL_leading _ _ _ hp]
  apply String.ext
  simp [String.data_append]

theorem normNe_false_iff (a b : String) :
    normNe a b = false ↔ normalize_sql a = normalize_sql b := by
  unfold normNe
  rw [Bool.not_eq_false']
  exact beq_iff_eq

theorem foldlM_ok_id {α : Type} (f : St → α → Except (MigErr × St) St) :
    ∀ (l : List α) (st : St), (∀ a ∈ l, ∀ s, f s a = .ok s) →
      l.foldlM f st = .ok st := by
  intro l
  induction l with
  | nil => intro st _; rfl
  | cons a r ih =>
    intro st h
    rw [List.foldlM_cons, h a (List.mem_cons_self a r) st]
    show Except.ok st >>= _ = _
    rw [exceptBind_ok]
    exact ⟨st, rfl, ih st (fun x hx s => h x (List.mem_cons_of_mem a hx) s)⟩

/-! ## The quoted rename normalizes like the original DDL -/

theorem word_not_ws {c : Char} (h : isWordChar c = true) : isWsChar c = false := by
  by_contra hc
  rw [Bool.not_eq_false] at hc
  simp only [isWsChar, Bool.or_eq_true, decide_eq_true_eq] at hc
  rcases hc with ((((h1 | h1) | h1) | h1) | h1) | h1 <;> rw [h1] at h <;>
    exact absurd h (by decide)

theorem word_ne_space {c : Char} (h : isWordChar c = true) : c ≠ ' ' := by
  intro hc
  rw [hc] at h
  exact absurd h (by decide)

theorem word_not_punct {c : Char} (h : isWordChar c = true) : isPunctChar c = false := by
  by_contra hc
  rw [Bool.not_eq_false] at hc
  simp only [isPunctChar, Bool.or_eq_true, decide_eq_true_eq] at hc
  rcases hc with (h1 | h1) | h1 <;> rw [h1] at h <;> exact absurd h (by decide)

theorem word_ne_quote {c : Char} (h : isWordChar c = true) : c ≠ '"' := by
  intro hc
  rw [hc] at h
  exact absurd h (by decide)

theorem rc_nodash_append (xs : List Char) (h : ∀ c ∈ xs, c ≠ '-') :
    ∀ ys, rcGo false (xs ++ ys) = xs ++ rcGo false ys := by
  induction xs with
  | nil => intro ys; simp
  | cons c r ih =>
    intro ys
    rw [List.cons_append, rcGo_cons_ne c _ (h c (List.mem_cons_self c r)),
        ih (fun x hx => h x (List.mem_cons_of_mem c hx)) ys, List.cons_append]

theorem cw_nonws_append (xs : List Char) (hne : xs ≠ [])
    (h : ∀ c ∈ xs, isWsChar c = false) :
    ∀ (b : Bool) (ys : List Char), cwGo b (xs ++ ys) = xs ++ cwGo false ys := by
  induction xs with
  | nil => intro b ys; exact absurd rfl hne
  | cons c r ih =>
    intro b ys
    rw [List.cons_append, cwGo_step,
        if_neg (by rw [h c (List.mem_cons_self c r)]; simp)]
    cases r with
    | nil => simp
    | cons d r2 =>
      rw [ih (by simp) (fun x hx => h x (List.mem_cons_of_mem c hx)) false ys]
      rfl

theorem cp_word_append (xs : List Char) (hne : xs ≠ [])
    (h : ∀ c ∈ xs, isWordChar c = true) :
    ∀ (pend : Nat) (ys : List Char),
      cpGo false pend (xs ++ ys) = List.replicate pend ' ' ++ (xs ++ cpGo false 0 ys) := by
  induction xs with
  | nil => intro pend ys; exact absurd rfl hne
  | cons c r ih =>
    intro pend ys
    rw [List.cons_append, cpGo_step,
        if_neg (fun hc => (word_ne_space (h c (List.mem_cons_self c r))) hc),
        if_neg (by rw [word_not_punct (h c (List.mem_cons_self c r))]; simp)]
    cases r with
    | nil => simp
    | cons d r2 =>
      rw [ih (by simp) (fun x hx => h x (List.mem_cons_of_mem c hx)) 0 ys]
      simp

theorem sq_noquote_append (xs : List Char) (h : ∀ c ∈ xs, c ≠ '"') :
    ∀ ys, sqGo none (xs ++ ys) = xs ++ sqGo none ys := by
  induction xs with
  | nil => intro ys; simp
  | cons c r ih =>
    intro ys
    rw [List.cons_append, sqGo_none_step, if_neg (h c (List.mem_cons_self c r)),
        ih (fun x hx => h x (List.mem_cons_of_mem c hx)) ys, List.cons_append]

theorem sq_word_scan (xs : List Char) (h : ∀ c ∈ xs, isWordChar c = true) :
    ∀ (acc ys : List Char),
      sqGo (some acc) (xs ++ ys) = sqGo (some (xs.reverse ++ acc)) ys := by
  induction xs with
  | nil => intro acc ys; simp
  | cons c r ih =>
    intro acc ys
    rw [List.cons_append, sqGo_some_step, if_pos (h c (List.mem_cons_self c r)),
        ih (fun x hx => h x (List.mem_cons_of_mem c hx)) (c :: acc) ys,
        List.reverse_cons, List.append_assoc, List.singleton_append]

theorem sq_close (acc : List Char) (hne : acc ≠ []) (ys : List Char) :
    sqGo (some acc) ('"' :: ys) = acc.reverse ++ sqGo none ys := by
  rw [sqGo_some_step, if_neg (by decide), if_pos rfl,
      if_neg (by cases acc with | nil => exact absurd rfl hne | cons d t => simp)]

theorem rc_tail_a (rest : List Char) :
    rcGo false ('"' :: ' ' :: '(' :: rest) = '"' :: ' ' :: '(' :: rcGo false rest := by
  rw [rcGo_cons_ne _ _ (by decide), rcGo_cons_ne _ _ (by decide),
      rcGo_cons_ne _ _ (by decide)]

theorem rc_tail_b (rest : List Char) :
    rcGo false (' ' :: '(' :: rest) = ' ' :: '(' :: rcGo false rest := by
  rw [rcGo_cons_ne _ _ (by decide), rcGo_cons_ne _ _ (by decide)]

theorem cw_prefix_a (ys : List Char) :
    cwGo false ("CREATE TABLE \"".data ++ ys) = "CREATE TABLE \"".data ++ cwGo false ys := rfl

theorem cw_prefix_b (ys : List Char) :
    cwGo false ("CREATE TABLE ".data ++ ys) = "CREATE TABLE ".data ++ cwGo true ys := rfl

theorem cw_tail_a (ys : List Char) :
    cwGo false ('"' :: ' ' :: '(' :: ys) = '"' :: ' ' :: '(' :: cwGo false ys := rfl

theorem cw_tail_b (ys : List Char) :
    cwGo false (' ' :: '(' :: ys) = ' ' :: '(' :: cwGo false ys := rfl

theorem cp_prefix_a (ys : List Char) :
    cpGo false 0 ("CREATE TABLE \"".data ++ ys) = "CREATE TABLE \"".data ++ cpGo false 0 ys := rfl

theorem cp_prefix_b (ys : List Char) :
    cpGo false 0 ("CREATE TABLE ".data ++ ys) = "CREATE TABLE".data ++ cpGo false 1 ys := rfl

theorem cp_tail_a (ys : List Char) :
    cpGo false 0 ('"' :: ' ' :: '(' :: ys) = '"' :: '(' :: cpGo true 0 ys := rfl

theorem cp_tail_b (ys : List Char) :
    cpGo false 0 (' ' :: '(' :: ys) = '(' :: cpGo true 0 ys := rfl

theorem sq_prefix (ys : List Char) :
    sqGo none ("CREATE TABLE ".data ++ ys) = "CREATE TABLE ".data ++ sqGo none ys := rfl

theorem sq_open (ys : List Char) : sqGo none ('"' :: ys) = sqGo (some []) ys := rfl

theorem sq_par (ys : List Char) : sqGo none ('(' :: ys) = '(' :: sqGo none ys := rfl

theorem ctblq_split (x : List Char) :
    "CREATE TABLE \"".data ++ x = "CREATE TABLE ".data ++ ('"' :: x) := rfl

theorem ctbl_space (x : List Char) :
    "CREATE TABLE".data ++ (' ' :: x) = "CREATE TABLE ".data ++ x := rfl

theorem normChars_quoted (nd rest : List Char) (hne : nd ≠ [])
    (hword : ∀ c ∈ nd, isWordChar c = true) :
    normChars ("CREATE TABLE \"".data ++ (nd ++ ('"' :: ' ' :: '(' :: rest)))
      = trimL ("CREATE TABLE ".data
          ++ (nd ++ ('(' :: sqGo none (cpGo true 0 (cwGo false (rcGo false rest)))))) := by
  have hnodash : ∀ c ∈ nd, c ≠ '-' := fun c hc => word_ne_dash (hword c hc)
  have hnonws : ∀ c ∈ nd, isWsChar c = false := fun c hc => word_not_ws (hword c hc)
  have hnoq : ∀ c ∈ nd, c ≠ '"' := fun c hc => word_ne_quote (hword c hc)
  unfold normChars stripQuotes collapsePunct collapseWs removeComments
  rw [rc_nodash_append "CREATE TABLE \"".data (by decide),
      rc_nodash_append nd hnodash, rc_tail_a,
      cw_prefix_a, cw_nonws_append nd hne hnonws, cw_tail_a,
      cp_prefix_a, cp_word_append nd hne hword, cp_tail_a]
  simp only [List.replicate_zero, List.nil_append]
  rw [ctblq_split, sq_prefix, sq_open, sq_word_scan nd hword, List.append_nil,
      sq_close nd.reverse (by simpa using hne), List.reverse_reverse, sq_par]

theorem normChars_unquoted (nd rest : List Char) (hne : nd ≠ [])
    (hword : ∀ c ∈ nd, isWordChar c = true) :
    normChars ("CREATE TABLE ".data ++ (nd ++ (' ' :: '(' :: rest)))
      = trimL ("CREATE TABLE ".data
          ++ (nd ++ ('(' :: sqGo none (cpGo true 0 (cwGo false (rcGo false rest)))))) := by
  have hnodash : ∀ c ∈ nd, c ≠ '-' := fun c hc => word_ne_dash (hword c hc)
  have hnonws : ∀ c ∈ nd, isWsChar c = false := fun c hc => word_not_ws (hword c hc)
  have hnoq : ∀ c ∈ nd, c ≠ '"' := fun c hc => word_ne_quote (hword c hc)
  unfold normChars stripQuotes collapsePunct collapseWs removeComments
  rw [rc_nodash_append "CREATE TABLE ".data (by decide),
      rc_nodash_append nd hnodash, rc_tail_b,
      cw_prefix_b, cw_nonws_append nd hne hnonws true, cw_tail_b,
      cp_prefix_b, cp_word_append nd hne hword, cp_tail_b]
  simp only [List.replicate_one, List.singleton_append]
  rw [ctbl_space, sq_prefix, sq_noquote_append nd hnoq, sq_par]

theorem rename_normalize_eq (n body : String) (hw : wordStr n) :
    normalize_sql ("CREATE TABLE \"" ++ n ++ "\"" ++ (" (" ++ body))
      = normalize_sql ("CREATE TABLE " ++ n ++ (" (" ++ body)) := by
  obtain ⟨hne, hword⟩ := hw
  have hword2 : ∀ c ∈ n.data, isWordChar c = true := List.all_eq_true.mp hword
  have hne2 : n.data ≠ [] := hne
  unfold normalize_sql
  apply congrArg
  have hA : ("CREATE TABLE \"" ++ n ++ "\"" ++ (" (" ++ body)).data
      = "CREATE TABLE \"".data ++ (n.data ++ ('"' :: ' ' :: '(' :: body.data)) := by
    simp only [String.data_append, List.append_assoc]
    rfl
  have hB : ("CREATE TABLE " ++ n ++ (" (" ++ body)).data
      = "CREATE TABLE ".data ++ (n.data ++ (' ' :: '(' :: body.data)) := by
    simp only [String.data_append, List.append_assoc]
    rfl
  rw [hA, hB, normChars_quoted n.data body.data hne2 hword2,
      normChars_unquoted n.data body.data hne2 hword2]

theorem rebuilt_sql_normalizes {n : String} {ti : TableInfo}
    (hword : wordStr n) (hddl : WfTableDdl n ti) :
    normalize_sql (renameSqlInDdl (tempSqlOf n ti.sql) (tempNameOf n) n)
      = normalize_sql ti.sql := by
  obtain ⟨body, hsql, hno⟩ := hddl
  rw [hsql, String.append_assoc]
  rw [tempSqlOf_eq n (" (" ++ body) hno, renameSqlInDdl_leading,
      rename_normalize_eq n body hword]

/-! ## Per-phase characterization of a successful apply -/

theorem createNewTables_ok_char (failAt : Option Nat) (target : DB) :
    ∀ (names : List String) (st stA : St),
      createNewTables failAt target names st = .ok stA →
      stA.tx.indices = st.tx.indices ∧
      stA.tx.userVersion = st.tx.userVersion ∧
      (∀ m, m ∉ names → alookup stA.tx.tables m = alookup st.tx.tables m) ∧
      (∀ m, m ∈ names → ∀ ti, alookup target.tables m = some ti →
          alookup stA.tx.tables m = some ⟨ti.sql, ti.cols, []⟩) ∧
      (∀ m, m ∈ names → alookup target.tables m = none →
          alookup stA.tx.tables m = alookup st.tx.tables m) ∧
      ((tableNames st.tx).Nodup → (tableNames stA.tx).Nodup) ∧
      (∀ m, (alookup stA.tx.tables m).isSome = true →
          (alookup st.tx.tables m).isSome = true ∨ m ∈ names) := by
  intro names
  induction names with
  | nil =>
    intro st stA h
    have hs : stA = st := by
      unfold createNewTables at h
      rw [List.foldlM_nil] at h
      exact (Except.ok.inj h).symm
    subst hs
    exact ⟨rfl, rfl, fun m _ => rfl, fun m hm => absurd hm (List.not_mem_nil m),
           fun m hm => absurd hm (List.not_mem_nil m), id, fun m hs2 => Or.inl hs2⟩
  | cons n r ih =>
    intro st stA h
    unfold createNewTables at h
    rw [List.foldlM_cons, exceptBind_ok] at h
    obtain ⟨st1, hstep, hrest⟩ := h
    have hrest2 : createNewTables failAt target r st1 = .ok stA := by
      unfold createNewTables
      exact hrest
    obtain ⟨iA, vA, pA, cA, nA, ndA, sA⟩ := ih st1 stA hrest2
    rcases htn : alookup target.tables n with _ | ti
    · rw [htn] at hstep
      have hst1 : st1 = st := (Except.ok.inj hstep).symm
      subst hst1
      refine ⟨iA, vA, ?_, ?_, ?_, ndA, ?_⟩
      · intro m hm
        exact pA m (fun hr => hm (List.mem_cons_of_mem n hr))
      · intro m hm ti2 ht2
        by_cases hmr : m ∈ r
        · exact cA m hmr ti2 ht2
        · have hmn : m = n := by
            rcases List.mem_cons.mp hm with h1 | h1
            · exact h1
            · exact absurd h1 hmr
          rw [hmn] at ht2
          rw [htn] at ht2
          exact absurd ht2 (by simp)
      · intro m hm ht2
        by_cases hmr : m ∈ r
        · exact nA m hmr ht2
        · have hmn : m = n := by
            rcases List.mem_cons.mp hm with h1 | h1
            · exact h1
            · exact absurd h1 hmr
          rw [hmn]
          exact pA n (fun hr => absurd (hmn ▸ hr) hmr)
      · intro m hs2
        rcases sA m hs2 with h1 | h1
        · exact Or.inl h1
        · exact Or.inr (List.mem_cons_of_mem n h1)
    · rw [htn] at hstep
      obtain ⟨hf1, _, _, _⟩ := execStmt_ok hstep
      obtain ⟨hnone, hdb1⟩ := createTableFn_ok hf1
      have hl1 : ∀ m, alookup st1.tx.tables m
          = (alookup st.tx.tables m).or (alookup [(n, ⟨ti.sql, ti.cols, []⟩)] m) := by
        intro m
        rw [hdb1]
        exact alookup_append _ _ m
      have hidx1 : st1.tx.indices = st.tx.indices := by rw [hdb1]
      have hv1 : st1.tx.userVersion = st.tx.userVersion := by rw [hdb1]
      have hpres1 : ∀ m, m ≠ n → alookup st1.tx.tables m = alookup st.tx.tables m := by
        intro m hm
        rw [hl1 m, alookup_singleton, if_neg (fun hh => hm hh.symm)]
        exact Option.or_none
      refine ⟨iA.trans hidx1, vA.trans hv1, ?_, ?_, ?_, ?_, ?_⟩
      · intro m hm
        have hmn : m ≠ n := fun hh => hm (hh ▸ List.mem_cons_self n r)
        rw [pA m (fun hr => hm (List.mem_cons_of_mem n hr))]
        exact hpres1 m hmn
      · intro m hm ti2 ht2
        by_cases hmr : m ∈ r
        · exact cA m hmr ti2 ht2
        · have hmn : m = n := by
            rcases List.mem_cons.mp hm with h1 | h1
            · exact h1
            · exact absurd h1 hmr
          subst hmn
          rw [htn] at ht2
          have hti : ti2 = ti := (Option.some.inj ht2).symm
          subst hti
          rw [pA m hmr, hl1 m, hnone, alookup_singleton, if_pos rfl]
          rfl
      · intro m hm ht2
        by_cases hmr : m ∈ r
        · have hmn : m ≠ n := by
            intro hh
            rw [hh, htn] at ht2
            exact absurd ht2 (by simp)
          rw [nA m hmr ht2]
          exact hpres1 m hmn
        · have hmn : m = n := by
            rcases List.mem_cons.mp hm with h1 | h1
            · exact h1
            · exact absurd h1 hmr
          rw [hmn, htn] at ht2
          exact absurd ht2 (by simp)
      · intro hnd
        refine ndA ?_
        rw [tableNames_eq, hdb1]
        show ((st.tx.tables ++ [(n, TableInfo.mk ti.sql ti.cols [])]).map Prod.fst).Nodup
        rw [List.map_append, List.nodup_append]
        refine ⟨by rw [← tableNames_eq]; exact hnd, List.nodup_singleton n, ?_⟩
        intro a ha hb
        have hab : a = n := by simpa using hb
        rw [hab] at ha
        exact (alookup_eq_none_iff st.tx.tables n).mp hnone ha
      · intro m hs2
        rcases sA m hs2 with h1 | h1
        · by_cases hmn : m = n
          · exact Or.inr (hmn ▸ List.mem_cons_self n r)
          · rw [hpres1 m hmn] at h1
            exact Or.inl h1
        · exact Or.inr (List.mem_cons_of_mem n h1)

theorem dropTablesFold_ok_char (failAt : Option Nat) :
    ∀ (names : List String) (st stC : St),
      names.foldlM (fun st n => execStmt failAt ("Drop table " ++ n) (dropTableFn n) st) st
        = .ok stC →
      (tableNames st.tx).Nodup →
      stC.tx.userVersion = st.tx.userVersion ∧
      ((tableNames stC.tx).Sublist (tableNames st.tx)) ∧
      ((stC.tx.indices.map Prod.fst).Sublist (st.tx.indices.map Prod.fst)) ∧
      (∀ m, m ∈ names → alookup stC.tx.tables m = none) ∧
      (∀ m, m ∉ names → alookup stC.tx.tables m = alookup st.tx.tables m) := by
  intro names
  induction names with
  | nil =>
    intro st stC h hnd
    have hs : stC = st := by
      rw [List.foldlM_nil] at h
      exact (Except.ok.inj h).symm
    subst hs
    exact ⟨rfl, List.Sublist.refl _, List.Sublist.refl _,
           fun m hm => absurd hm (List.not_mem_nil m), fun m _ => rfl⟩
  | cons n r ih =>
    intro st stC h hnd
    rw [List.foldlM_cons, exceptBind_ok] at h
    obtain ⟨st1, hstep, hrest⟩ := h
    obtain ⟨hf1, _, _, _⟩ := execStmt_ok hstep
    obtain ⟨hpre, hdb1⟩ := dropTableFn_ok hf1
    have hnames1 : tableNames st1.tx = (aerase st.tx.tables n).map Prod.fst := by
      rw [tableNames_eq, hdb1]
    have hsub1 : (tableNames st1.tx).Sublist (tableNames st.tx) := by
      rw [hnames1, tableNames_eq]
      exact aerase_map_fst_sublist _ _
    have hnd1 : (tableNames st1.tx).Nodup := hsub1.nodup hnd
    obtain ⟨vC, tC, iC, dC, pC⟩ := ih st1 stC hrest hnd1
    have hv1 : st1.tx.userVersion = st.tx.userVersion := by rw [hdb1]
    have hidx1 : (st1.tx.indices.map Prod.fst).Sublist (st.tx.indices.map Prod.fst) := by
      rw [hdb1]
      show ((st.tx.indices.filter (fun e => e.2.tbl ≠ n)).map Prod.fst).Sublist _
      exact List.Sublist.map Prod.fst (List.filter_sublist st.tx.indices)
    have hself : alookup st1.tx.tables n = none := by
      rw [hdb1]
      show alookup (aerase st.tx.tables n) n = none
      exact alookup_aerase_self _ _ (by rw [← tableNames_eq]; exact hnd)
    have hne1 : ∀ m, m ≠ n → alookup st1.tx.tables m = alookup st.tx.tables m := by
      intro m hm
      rw [hdb1]
      exact alookup_aerase_ne _ hm
    refine ⟨vC.trans hv1, tC.trans hsub1, iC.trans hidx1, ?_, ?_⟩
    · intro m hm
      by_cases hmr : m ∈ r
      · exact dC m hmr
      · have hmn : m = n := by
          rcases List.mem_cons.mp hm with h1 | h1
          · exact h1
          · exact absurd h1 hmr
        rw [hmn] at hmr ⊢
        rw [pC n hmr]
        exact hself
    · intro m hm
      have hmn : m ≠ n := fun hh => hm (hh ▸ List.mem_cons_self n r)
      rw [pC m (fun hr => hm (List.mem_cons_of_mem n hr))]
      exact hne1 m hmn

theorem dropRemovedTables_ok_char {allow : Bool} {failAt : Option Nat}
    {names : List String} {st stC : St}
    (h : dropRemovedTables allow failAt names st = .ok stC)
    (hnd : (tableNames st.tx).Nodup) :
    stC.tx.userVersion = st.tx.userVersion ∧
    ((tableNames stC.tx).Sublist (tableNames st.tx)) ∧
    ((stC.tx.indices.map Prod.fst).Sublist (st.tx.indices.map Prod.fst)) ∧
    (∀ m, m ∈ names → alookup stC.tx.tables m = none) ∧
    (∀ m, m ∉ names → alookup stC.tx.tables m = alookup st.tx.tables m) := by
  unfold dropRemovedTables at h
  by_cases hne : names.isEmpty
  · rw [if_pos hne] at h
    have hs : stC = st := (Except.ok.inj h).symm
    subst hs
    have hnil : names = [] := by
      cases names with
      | nil => rfl
      | cons a b => exact absurd hne (by simp)
    refine ⟨rfl, List.Sublist.refl _, List.Sublist.refl _, ?_, fun m _ => rfl⟩
    intro m hm
    rw [hnil] at hm
    exact absurd hm (List.not_mem_nil m)
  · rw [if_neg hne] at h
    by_cases hal : (!allow) = true
    · rw [if_pos hal] at h
      exact absurd h (by simp)
    · rw [if_neg hal] at h
      exact dropTablesFold_ok_char failAt names st stC h hnd

theorem idxDropFold_ok_char (failAt : Option Nat) (targetIndices : List (String × IndexInfo)) :
    ∀ (cs : List (String × IndexInfo)) (st st4 : St),
      cs.foldlM (fun st e =>
          if (alookup targetIndices e.1).isNone then
            execStmt failAt ("Drop obsolete index " ++ e.1) (dropIndexFn e.1) st
          else .ok st) st = .ok st4 →
      (st.tx.indices.map Prod.fst).Nodup →
      st4.tx.tables = st.tx.tables ∧ st4.tx.userVersion = st.tx.userVersion ∧
      ((st4.tx.indices.map Prod.fst).Sublist (st.tx.indices.map Prod.fst)) ∧
      (∀ m, alookup targetIndices m = none → m ∈ cs.map Prod.fst →
          alookup st4.tx.indices m = none) ∧
      (∀ m, (alookup targetIndices m).isSome = true ∨ m ∉ cs.map Prod.fst →
          alookup st4.tx.indices m = alookup st.tx.indices m) := by
  intro cs
  induction cs with
  | nil =>
    intro st st4 h hnd
    have hs : st4 = st := by
      rw [List.foldlM_nil] at h
      exact (Except.ok.inj h).symm
    subst hs
    exact ⟨rfl, rfl, List.Sublist.refl _,
           fun m _ hm => absurd hm (List.not_mem_nil m), fun m _ => rfl⟩
  | cons e r ih =>
    intro st st4 h hnd
    rw [List.foldlM_cons, exceptBind_ok] at h
    obtain ⟨st1, hstep, hrest⟩ := h
    by_cases hti : (alookup targetIndices e.1).isNone = true
    · rw [if_pos hti] at hstep
      obtain ⟨hf1, _, _, _⟩ := execStmt_ok hstep
      obtain ⟨hpre, hdb1⟩ := dropIndexFn_ok hf1
      have htab1 : st1.tx.tables = st.tx.tables := by rw [hdb1]
      have hv1 : st1.tx.userVersion = st.tx.userVersion := by rw [hdb1]
      have hsub1 : (st1.tx.indices.map Prod.fst).Sublist (st.tx.indices.map Prod.fst) := by
        rw [hdb1]
        exact aerase_map_fst_sublist _ _
      have hnd1 : (st1.tx.indices.map Prod.fst).Nodup := hsub1.nodup hnd
      have hself : alookup st1.tx.indices e.1 = none := by
        rw [hdb1]
        exact alookup_aerase_self _ _ hnd
      have hne1 : ∀ m, m ≠ e.1 → alookup st1.tx.indices m = alookup st.tx.indices m := by
        intro m hm
        rw [hdb1]
        exact alookup_aerase_ne _ hm
      obtain ⟨tC, vC, sC, dC, pC⟩ := ih st1 st4 hrest hnd1
      refine ⟨tC.trans htab1, vC.trans hv1, sC.trans hsub1, ?_, ?_⟩
      · intro m hmn hm
        by_cases hmr : m ∈ r.map Prod.fst
        · exact dC m hmn hmr
        · have hme : m = e.1 := by
            rw [List.map_cons] at hm
            rcases List.mem_cons.mp hm with h1 | h1
            · exact h1
            · exact absurd h1 hmr
          rw [pC m (Or.inr hmr), hme]
          exact hself
      · intro m hm
        have hmne : m ≠ e.1 := by
          intro hh
          rcases hm with h1 | h1
          · rw [hh, Option.isNone_iff_eq_none.mp hti] at h1
            exact absurd h1 (by simp)
          · refine h1 ?_
            rw [List.map_cons, hh]
            exact List.mem_cons_self _ _
        rcases hm with h1 | h1
        · rw [pC m (Or.inl h1)]
          exact hne1 m hmne
        · have hmr : m ∉ r.map Prod.fst := fun hr =>
            h1 (by rw [List.map_cons]; exact List.mem_cons_of_mem _ hr)
          rw [pC m (Or.inr hmr)]
          exact hne1 m hmne
    · rw [if_neg hti] at hstep
      have hs1 : st1 = st := (Except.ok.inj hstep).symm
      subst hs1
      obtain ⟨tC, vC, sC, dC, pC⟩ := ih st1 st4 hrest hnd
      refine ⟨tC, vC, sC, ?_, ?_⟩
      · intro m hmn hm
        by_cases hmr : m ∈ r.map Prod.fst
        · exact dC m hmn hmr
        · have hme : m = e.1 := by
            rw [List.map_cons] at hm
            rcases List.mem_cons.mp hm with h1 | h1
            · exact h1
            · exact absurd h1 hmr
          rw [hme] at hmn
          exact absurd (by rw [hmn]; rfl) hti
      · intro m hm
        rcases hm with h1 | h1
        · exact pC m (Or.inl h1)
        · refine pC m (Or.inr ?_)
          intro hr
          exact h1 (by rw [List.map_cons]; exact List.mem_cons_of_mem _ hr)

theorem idxReconcileFold_ok_char (failAt : Option Nat)
    (currentIndices : List (String × IndexInfo)) :
    ∀ (ts : List (String × IndexInfo)) (st stE : St),
      ts.foldlM (fun st e =>
          match alookup currentIndices e.1 with
          | some ci =>
            if normNe ci.sql e.2.sql then
              execStmt failAt ("Drop changed index " ++ e.1) (dropIndexFn e.1) st >>= fun st5 =>
              execStmt failAt ("Recreate index " ++ e.1) (createIndexFn e.1 e.2) st5
            else .ok st
          | none => execStmt failAt ("Create new index " ++ e.1) (createIndexFn e.1 e.2) st) st
        = .ok stE →
      (ts.map Prod.fst).Nodup →
      (st.tx.indices.map Prod.fst).Nodup →
      stE.tx.tables = st.tx.tables ∧ stE.tx.userVersion = st.tx.userVersion ∧
      (∀ m, m ∉ ts.map Prod.fst → alookup stE.tx.indices m = alookup st.tx.indices m) ∧
      (∀ m ii, alookup ts m = some ii →
        ((∀ ci, alookup currentIndices m = some ci → normNe ci.sql ii.sql = true →
            alookup stE.tx.indices m = some ii) ∧
         (∀ ci, alookup currentIndices m = some ci → normNe ci.sql ii.sql = false →
            alookup stE.tx.indices m = alookup st.tx.indices m) ∧
         (alookup currentIndices m = none → alookup stE.tx.indices m = some ii))) := by
  intro ts
  induction ts with
  | nil =>
    intro st stE h _ _
    have hs : stE = st := by
      rw [List.foldlM_nil] at h
      exact (Except.ok.inj h).symm
    subst hs
    refine ⟨rfl, rfl, fun m _ => rfl, ?_⟩
    intro m ii hm
    exact absurd hm (by simp [alookup])
  | cons e r ih =>
    intro st stE h hndt hnd
    rw [List.foldlM_cons, exceptBind_ok] at h
    obtain ⟨st1, hstep, hrest⟩ := h
    rw [List.map_cons, List.nodup_cons] at hndt
    have hlooke : ∀ m ii, alookup ((e :: r) : List (String × IndexInfo)) m = some ii →
        (e.1 = m ∧ e.2 = ii) ∨ (e.1 ≠ m ∧ alookup r m = some ii) := by
      intro m ii hm
      obtain ⟨k, v⟩ := e
      by_cases hk : k = m
      · subst hk
        left
        have h2 : v = ii := by simpa [alookup] using hm
        exact ⟨rfl, h2⟩
      · right
        simp only [alookup, hk, if_false] at hm
        exact ⟨hk, hm⟩
    rcases hsnap : alookup currentIndices e.1 with _ | ci
    · -- create-only step
      rw [hsnap] at hstep
      obtain ⟨hf1, _, _, _⟩ := execStmt_ok hstep
      obtain ⟨hnone1, hdb1⟩ := createIndexFn_ok hf1
      have htab1 : st1.tx.tables = st.tx.tables := by rw [hdb1]
      have hv1 : st1.tx.userVersion = st.tx.userVersion := by rw [hdb1]
      have hl1 : ∀ m, alookup st1.tx.indices m
          = (alookup st.tx.indices m).or (alookup [(e.1, e.2)] m) := by
        intro m
        rw [hdb1]
        exact alookup_append _ _ m
      have hself1 : alookup st1.tx.indices e.1 = some e.2 := by
        rw [hl1, hnone1, alookup_singleton, if_pos rfl]
        rfl
      have hne1 : ∀ m, m ≠ e.1 → alookup st1.tx.indices m = alookup st.tx.indices m := by
        intro m hm
        rw [hl1, alookup_singleton, if_neg (fun hh => hm hh.symm)]
        exact Option.or_none
      have hnd1 : (st1.tx.indices.map Prod.fst).Nodup := by
        rw [hdb1]
        show ((st.tx.indices ++ [(e.1, e.2)]).map Prod.fst).Nodup
        rw [List.map_append, List.nodup_append]
        refine ⟨hnd, List.nodup_singleton _, ?_⟩
        intro a ha hb
        have hab : a = e.1 := by simpa using hb
        rw [hab] at ha
        exact (alookup_eq_none_iff _ _).mp hnone1 ha
      obtain ⟨tC, vC, pC, mC⟩ := ih st1 stE hrest hndt.2 hnd1
      have hkeepe : alookup stE.tx.indices e.1 = some e.2 := by
        rw [pC e.1 (by simpa using hndt.1)]
        exact hself1
      refine ⟨tC.trans htab1, vC.trans hv1, ?_, ?_⟩
      · intro m hm
        rw [List.map_cons] at hm
        have hmne : m ≠ e.1 := fun hh => hm (hh ▸ List.mem_cons_self _ _)
        rw [pC m (fun hr => hm (List.mem_cons_of_mem _ hr))]
        exact hne1 m hmne
      · intro m ii hm
        rcases hlooke m ii hm with ⟨h1, h2⟩ | ⟨h1, h2⟩
        · subst h1
          refine ⟨?_, ?_, ?_⟩
          · intro ci hci
            rw [hsnap] at hci
            exact absurd hci (by simp)
          · intro ci hci
            rw [hsnap] at hci
            exact absurd hci (by simp)
          · intro _
            rw [← h2]
            exact hkeepe
        · have hmr := mC m ii h2
          refine ⟨?_, ?_, ?_⟩
          · intro ci hci hnn
            exact hmr.1 ci hci hnn
          · intro ci hci hnn
            rw [hmr.2.1 ci hci hnn]
            exact hne1 m (fun hh => h1 hh.symm)
          · intro hci
            exact hmr.2.2 hci
    · rw [hsnap] at hstep
      have hstep2 : (if normNe ci.sql e.2.sql then
            execStmt failAt ("Drop changed index " ++ e.1) (dropIndexFn e.1) st >>= fun st5 =>
            execStmt failAt ("Recreate index " ++ e.1) (createIndexFn e.1 e.2) st5
          else .ok st) = .ok st1 := hstep
      by_cases hnn : normNe ci.sql e.2.sql = true
      · rw [if_pos hnn] at hstep2
        rw [exceptBind_ok] at hstep2
        obtain ⟨sta, hd, hc⟩ := hstep2
        obtain ⟨hfd, _, _, _⟩ := execStmt_ok hd
        obtain ⟨hprea, hdba⟩ := dropIndexFn_ok hfd
        obtain ⟨hfc, _, _, _⟩ := execStmt_ok hc
        obtain ⟨hnonea, hdb1⟩ := createIndexFn_ok hfc
        have htaba : sta.tx.tables = st.tx.tables := by rw [hdba]
        have hva : sta.tx.userVersion = st.tx.userVersion := by rw [hdba]
        have hsuba : (sta.tx.indices.map Prod.fst).Sublist (st.tx.indices.map Prod.fst) := by
          rw [hdba]
          exact aerase_map_fst_sublist _ _
        have hnda : (sta.tx.indices.map Prod.fst).Nodup := hsuba.nodup hnd
        have htab1 : st1.tx.tables = st.tx.tables := by rw [hdb1]; exact htaba
        have hv1 : st1.tx.userVersion = st.tx.userVersion := by rw [hdb1]; exact hva
        have hl1 : ∀ m, alookup st1.tx.indices m
            = (alookup sta.tx.indices m).or (alookup [(e.1, e.2)] m) := by
          intro m
          rw [hdb1]
          exact alookup_append _ _ m
        have hself1 : alookup st1.tx.indices e.1 = some e.2 := by
          rw [hl1, hnonea, alookup_singleton, if_pos rfl]
          rfl
        have hne1 : ∀ m, m ≠ e.1 → alookup st1.tx.indices m = alookup st.tx.indices m := by
          intro m hm
          rw [hl1, alookup_singleton, if_neg (fun hh => hm hh.symm)]
          rw [Option.or_none, hdba]
          exact alookup_aerase_ne _ hm
        have hnd1 : (st1.tx.indices.map Prod.fst).Nodup := by
          rw [hdb1]
          show ((sta.tx.indices ++ [(e.1, e.2)]).map Prod.fst).Nodup
          rw [List.map_append, List.nodup_append]
          refine ⟨hnda, List.nodup_singleton _, ?_⟩
          intro a ha hb
          have hab : a = e.1 := by simpa using hb
          rw [hab] at ha
          exact (alookup_eq_none_iff _ _).mp hnonea ha
        obtain ⟨tC, vC, pC, mC⟩ := ih st1 stE hrest hndt.2 hnd1
        have hkeepe : alookup stE.tx.indices e.1 = some e.2 := by
          rw [pC e.1 (by simpa using hndt.1)]
          exact hself1
        refine ⟨tC.trans htab1, vC.trans hv1, ?_, ?_⟩
        · intro m hm
          rw [List.map_cons] at hm
          have hmne : m ≠ e.1 := fun hh => hm (hh ▸ List.mem_cons_self _ _)
          rw [pC m (fun hr => hm (List.mem_cons_of_mem _ hr))]
          exact hne1 m hmne
        · intro m ii hm
          rcases hlooke m ii hm with ⟨h1, h2⟩ | ⟨h1, h2⟩
          · subst h1
            refine ⟨?_, ?_, ?_⟩
            · intro ci2 hci hnn2
              rw [← h2]
              exact hkeepe
            · intro ci2 hci hnn2
              rw [hsnap] at hci
              have hcic : ci2 = ci := (Option.some.inj hci).symm
              rw [hcic, ← h2] at hnn2
              rw [hnn2] at hnn
              exact absurd hnn (by simp)
            · intro hci
              rw [hsnap] at hci
              exact absurd hci (by simp)
          · have hmr := mC m ii h2
            refine ⟨?_, ?_, ?_⟩
            · intro ci2 hci hnn2
              exact hmr.1 ci2 hci hnn2
            · intro ci2 hci hnn2
              rw [hmr.2.1 ci2 hci hnn2]
              exact hne1 m (fun hh => h1 hh.symm)
            · intro hci
              exact hmr.2.2 hci
      · rw [if_neg hnn] at hstep2
        have hs1 : st1 = st := (Except.ok.inj hstep2).symm
        subst hs1
        obtain ⟨tC, vC, pC, mC⟩ := ih st1 stE hrest hndt.2 hnd
        have hkeepe : alookup stE.tx.indices e.1 = alookup st1.tx.indices e.1 :=
          pC e.1 (by simpa using hndt.1)
        refine ⟨tC, vC, ?_, ?_⟩
        · intro m hm
          rw [List.map_cons] at hm
          exact pC m (fun hr => hm (List.mem_cons_of_mem _ hr))
        · intro m ii hm
          rcases hlooke m ii hm with ⟨h1, h2⟩ | ⟨h1, h2⟩
          · subst h1
            refine ⟨?_, ?_, ?_⟩
            · intro ci2 hci hnn2
              rw [hsnap] at hci
              have hcic : ci2 = ci := (Option.some.inj hci).symm
              rw [hcic, ← h2] at hnn2
              exact absurd hnn2 hnn
            · intro ci2 hci hnn2
              exact hkeepe
            · intro hci
              rw [hsnap] at hci
              exact absurd hci (by simp)
          · have hmr := mC m ii h2
            exact ⟨fun ci2 hci hnn2 => hmr.1 ci2 hci hnn2,
                   fun ci2 hci hnn2 => hmr.2.1 ci2 hci hnn2,
                   fun hci => hmr.2.2 hci⟩

theorem migrateIndicesM_ok_char {failAt : Option Nat}
    {targetIndices : List (String × IndexInfo)} {st stE : St}
    (h : migrateIndicesM failAt st.tx.indices targetIndices st = .ok stE)
    (hndc : (st.tx.indices.map Prod.fst).Nodup)
    (hndt : (targetIndices.map Prod.fst).Nodup) :
    stE.tx.tables = st.tx.tables ∧ stE.tx.userVersion = st.tx.userVersion ∧
    (∀ m ii, alookup targetIndices m = some ii →
        ∃ v, alookup stE.tx.indices m = some v ∧ normalize_sql v.sql = normalize_sql ii.sql) ∧
    (∀ m, alookup targetIndices m = none → alookup stE.tx.indices m = none) := by
  unfold migrateIndicesM at h
  rw [exceptBind_ok] at h
  obtain ⟨st4, h1, h2⟩ := h
  obtain ⟨hT1, hV1, hS1, hDrop, hKeep⟩ :=
    idxDropFold_ok_char failAt targetIndices st.tx.indices st st4 h1 hndc
  have hnd4 : (st4.tx.indices.map Prod.fst).Nodup := hS1.nodup hndc
  obtain ⟨hT2, hV2, hPres, hMain⟩ :=
    idxReconcileFold_ok_char failAt st.tx.indices targetIndices st4 stE h2 hndt hnd4
  refine ⟨hT2.trans hT1, hV2.trans hV1, ?_, ?_⟩
  · intro m ii hm
    have hmm := hMain m ii hm
    rcases hsnap : alookup st.tx.indices m with _ | ci
    · exact ⟨ii, hmm.2.2 hsnap, rfl⟩
    · by_cases hnn : normNe ci.sql ii.sql = true
      · exact ⟨ii, hmm.1 ci hsnap hnn, rfl⟩
      · have hnn2 : normNe ci.sql ii.sql = false := by
          cases hb : normNe ci.sql ii.sql
          · rfl
          · exact absurd hb hnn
        refine ⟨ci, ?_, (normNe_false_iff _ _).mp hnn2⟩
        rw [hmm.2.1 ci hsnap hnn2]
        rw [hKeep m (Or.inl (by rw [hm]; rfl))]
        exact hsnap
  · intro m hm
    have hnt : m ∉ targetIndices.map Prod.fst := (alookup_eq_none_iff _ _).mp hm
    rw [hPres m hnt]
    by_cases hmem : m ∈ st.tx.indices.map Prod.fst
    · exact hDrop m hm hmem
    · rw [hKeep m (Or.inr hmem)]
      exact (alookup_eq_none_iff _ _).mpr hmem

theorem rebuildModified_ok_char {allow : Bool} {failAt : Option Nat} {target : DB} :
    ∀ (names : List String) (st stB : St),
      rebuildModified allow failAt target names st = .ok stB →
      (tableNames st.tx).Nodup →
      names.Nodup →
      (∀ m ∈ names, ∀ k, m ≠ tempNameOf k) →
      (tableNames stB.tx).Nodup ∧
      stB.tx.userVersion = st.tx.userVersion ∧
      ((stB.tx.indices.map Prod.fst).Sublist (st.tx.indices.map Prod.fst)) ∧
      (∀ m, m ∉ names → (∀ k, m ≠ tempNameOf k) →
          alookup stB.tx.tables m = alookup st.tx.tables m) ∧
      (∀ m, m ∈ names → ∀ ti, alookup target.tables m = some ti →
          ∃ rows, alookup stB.tx.tables m
            = some ⟨renameSqlInDdl (tempSqlOf m ti.sql) (tempNameOf m) m, ti.cols, rows⟩) ∧
      (∀ m, m ∈ names → alookup target.tables m = none →
          alookup stB.tx.tables m = alookup st.tx.tables m) ∧
      (∀ m, (alookup stB.tx.tables m).isSome = true →
          (alookup st.tx.tables m).isSome = true ∨ m ∈ names) := by
  intro names
  induction names with
  | nil =>
    intro st stB h hnd _ _
    have hs : stB = st := by
      unfold rebuildModified at h
      rw [List.foldlM_nil] at h
      exact (Except.ok.inj h).symm
    subst hs
    exact ⟨hnd, rfl, List.Sublist.refl _, fun m _ _ => rfl,
           fun m hm => absurd hm (List.not_mem_nil m),
           fun m hm => absurd hm (List.not_mem_nil m), fun m hs2 => Or.inl hs2⟩
  | cons n r ih =>
    intro st stB h hnd hndn htempn
    have hndr := (List.nodup_cons.mp hndn).2
    have hnr : n ∉ r := (List.nodup_cons.mp hndn).1
    have htempr : ∀ m ∈ r, ∀ k, m ≠ tempNameOf k :=
      fun m hm => htempn m (List.mem_cons_of_mem n hm)
    have htempself : ∀ k, n ≠ tempNameOf k := htempn n (List.mem_cons_self n r)
    unfold rebuildModified at h
    rw [List.foldlM_cons, exceptBind_ok] at h
    obtain ⟨st1, hstep, hrest⟩ := h
    have hrest2 : rebuildModified allow failAt target r st1 = .ok stB := by
      unfold rebuildModified
      exact hrest
    rw [exceptBind_ok] at hstep
    obtain ⟨st0, hpol, hmt⟩ := hstep
    have hst0 : st0 = st := by
      by_cases ha : (!allow) = true
      · rw [if_pos ha] at hpol
        by_cases hcols : (!((currentColsIn st.tx n).filter
            (fun c => !((currentColsIn target n).contains c))).isEmpty) = true
        · rw [if_pos hcols] at hpol
          exact absurd hpol (by simp)
        · rw [if_neg hcols] at hpol
          exact (Except.ok.inj hpol).symm
      · rw [if_neg ha] at hpol
        exact (Except.ok.inj hpol).symm
    rw [hst0] at hmt
    rcases htn : alookup target.tables n with _ | ti
    · rw [htn] at hmt
      have hs1 : st1 = st := (Except.ok.inj hmt).symm
      rw [hs1] at hrest2
      obtain ⟨ndB, vB, sB, pB, cB, nB, iB⟩ := ih st stB hrest2 hnd hndr htempr
      refine ⟨ndB, vB, sB, ?_, ?_, ?_, ?_⟩
      · intro m hm hk
        exact pB m (fun hr => hm (List.mem_cons_of_mem n hr)) hk
      · intro m hm ti2 ht2
        by_cases hmr : m ∈ r
        · exact cB m hmr ti2 ht2
        · have hmn : m = n := by
            rcases List.mem_cons.mp hm with h1 | h1
            · exact h1
            · exact absurd h1 hmr
          rw [hmn, htn] at ht2
          exact absurd ht2 (by simp)
      · intro m hm ht2
        by_cases hmr : m ∈ r
        · exact nB m hmr ht2
        · have hmn : m = n := by
            rcases List.mem_cons.mp hm with h1 | h1
            · exact h1
            · exact absurd h1 hmr
          rw [hmn]
          exact pB n hnr htempself
      · intro m hs2
        rcases iB m hs2 with h1 | h1
        · exact Or.inl h1
        · exact Or.inr (List.mem_cons_of_mem n h1)
    · rw [htn] at hmt
      obtain ⟨curT, hcur, htempPre, hentry, hothers, htempPost, hnd1, hidx1, hv1⟩ :=
        migrateTable_ok_char hnd hmt
      obtain ⟨ndB, vB, sB, pB, cB, nB, iB⟩ := ih st1 stB hrest2 hnd1 hndr htempr
      have hidxnames : st1.tx.indices.map Prod.fst
          = (st.tx.indices.filter (fun e => e.2.tbl ≠ n)).map Prod.fst := by
        rw [hidx1, List.map_map]
        apply List.map_congr_left
        intro a _
        show Prod.fst (if a.2.tbl = tempNameOf n then (a.1, { a.2 with tbl := n }) else a) = a.1
        split <;> rfl
      have hsub1 : (st1.tx.indices.map Prod.fst).Sublist (st.tx.indices.map Prod.fst) := by
        rw [hidxnames]
        exact List.Sublist.map Prod.fst (List.filter_sublist st.tx.indices)
      refine ⟨ndB, vB.trans hv1, sB.trans hsub1, ?_, ?_, ?_, ?_⟩
      · intro m hm hk
        have hmn : m ≠ n := fun hh => hm (hh ▸ List.mem_cons_self n r)
        rw [pB m (fun hr => hm (List.mem_cons_of_mem n hr)) hk]
        exact hothers m hmn (hk n)
      · intro m hm ti2 ht2
        by_cases hmr : m ∈ r
        · exact cB m hmr ti2 ht2
        · have hmn : m = n := by
            rcases List.mem_cons.mp hm with h1 | h1
            · exact h1
            · exact absurd h1 hmr
          subst hmn
          rw [htn] at ht2
          have hti : ti2 = ti := (Option.some.inj ht2).symm
          subst hti
          refine ⟨if (commonColsOf curT.cols ti2.cols).isEmpty then []
                  else curT.rows.map (restrictRow (commonColsOf curT.cols ti2.cols)), ?_⟩
          rw [pB m hmr htempself]
          exact hentry
      · intro m hm ht2
        by_cases hmr : m ∈ r
        · have hmn : m ≠ n := fun hh => (hh ▸ hnr) hmr
          rw [nB m hmr ht2]
          exact hothers m hmn (htempr m hmr n)
        · have hmn : m = n := by
            rcases List.mem_cons.mp hm with h1 | h1
            · exact h1
            · exact absurd h1 hmr
          rw [hmn, htn] at ht2
          exact absurd ht2 (by simp)
      · intro m hs2
        rcases iB m hs2 with h1 | h1
        · by_cases hmn : m = n
          · exact Or.inr (hmn ▸ List.mem_cons_self n r)
          · by_cases hmt2 : m = tempNameOf n
            · rw [hmt2, htempPost] at h1
              exact absurd h1 (by simp)
            · rw [hothers m hmn hmt2] at h1
              exact Or.inl h1
        · exact Or.inr (List.mem_cons_of_mem n h1)

/-! ## Membership in the raw diff -/

theorem mem_new_tables_iff (cur target : DB) (m : String) :
    m ∈ (analyzeChangesRaw cur target).new_tables ↔
      m ∈ tableNames target ∧ alookup cur.tables m = none := by
  show m ∈ (tableNames target).filter (fun n => (alookup cur.tables n).isNone) ↔ _
  rw [List.mem_filter]
  constructor
  · rintro ⟨h1, h2⟩
    exact ⟨h1, Option.isNone_iff_eq_none.mp h2⟩
  · rintro ⟨h1, h2⟩
    refine ⟨h1, ?_⟩
    rw [h2]
    rfl

theorem mem_removed_tables_iff (cur target : DB) (m : String) :
    m ∈ (analyzeChangesRaw cur target).removed_tables ↔
      m ∈ tableNames cur ∧ alookup target.tables m = none := by
  show m ∈ (tableNames cur).filter (fun n => (alookup target.tables n).isNone) ↔ _
  rw [List.mem_filter]
  constructor
  · rintro ⟨h1, h2⟩
    exact ⟨h1, Option.isNone_iff_eq_none.mp h2⟩
  · rintro ⟨h1, h2⟩
    refine ⟨h1, ?_⟩
    rw [h2]
    rfl

theorem mem_modified_tables_iff (cur target : DB) (m : String) :
    m ∈ (analyzeChangesRaw cur target).modified_tables ↔
      m ∈ tableNames cur ∧ ∃ a b, alookup cur.tables m = some a ∧
        alookup target.tables m = some b ∧ normNe a.sql b.sql = true := by
  show m ∈ (tableNames cur).filter (fun n =>
      match alookup cur.tables n, alookup target.tables n with
      | some a, some b => normNe a.sql b.sql
      | _, _ => false) ↔ _
  rw [List.mem_filter]
  constructor
  · rintro ⟨h1, h2⟩
    refine ⟨h1, ?_⟩
    rcases hc : alookup cur.tables m with _ | a
    · rw [hc] at h2
      exact absurd (show false = true from h2) (by simp)
    · rcases ht : alookup target.tables m with _ | b
      · rw [hc, ht] at h2
        exact absurd (show false = true from h2) (by simp)
      · rw [hc, ht] at h2
        exact ⟨a, b, rfl, rfl, h2⟩
  · rintro ⟨h1, a, b, hc, ht, hnn⟩
    refine ⟨h1, ?_⟩
    show (match alookup cur.tables m, alookup target.tables m with
      | some a, some b => normNe a.sql b.sql
      | _, _ => false) = true
    rw [hc, ht]
    exact hnn

theorem mem_new_indices_iff (cur target : DB) (m : String) :
    m ∈ (analyzeChangesRaw cur target).new_indices ↔
      m ∈ indexNames target ∧ alookup cur.indices m = none := by
  show m ∈ (indexNames target).filter (fun n => (alookup cur.indices n).isNone) ↔ _
  rw [List.mem_filter]
  constructor
  · rintro ⟨h1, h2⟩
    exact ⟨h1, Option.isNone_iff_eq_none.mp h2⟩
  · rintro ⟨h1, h2⟩
    refine ⟨h1, ?_⟩
    rw [h2]
    rfl

theorem mem_removed_indices_iff (cur target : DB) (m : String) :
    m ∈ (analyzeChangesRaw cur target).removed_indices ↔
      m ∈ indexNames cur ∧ alookup target.indices m = none := by
  show m ∈ (indexNames cur).filter (fun n => (alookup target.indices n).isNone) ↔ _
  rw [List.mem_filter]
  constructor
  · rintro ⟨h1, h2⟩
    exact ⟨h1, Option.isNone_iff_eq_none.mp h2⟩
  · rintro ⟨h1, h2⟩
    refine ⟨h1, ?_⟩
    rw [h2]
    rfl

theorem mem_modified_indices_iff (cur target : DB) (m : String) :
    m ∈ (analyzeChangesRaw cur target).modified_indices ↔
      m ∈ indexNames cur ∧ ∃ a b, alookup cur.indices m = some a ∧
        alookup target.indices m = some b ∧ normNe a.sql b.sql = true := by
  show m ∈ (indexNames cur).filter (fun n =>
      match alookup cur.indices n, alookup target.indices n with
      | some a, some b => normNe a.sql b.sql
      | _, _ => false) ↔ _
  rw [List.mem_filter]
  constructor
  · rintro ⟨h1, h2⟩
    refine ⟨h1, ?_⟩
    rcases hc : alookup cur.indices m with _ | a
    · rw [hc] at h2
      exact absurd (show false = true from h2) (by simp)
    · rcases ht : alookup target.indices m with _ | b
      · rw [hc, ht] at h2
        exact absurd (show false = true from h2) (by simp)
      · rw [hc, ht] at h2
        exact ⟨a, b, rfl, rfl, h2⟩
  · rintro ⟨h1, a, b, hc, ht, hnn⟩
    refine ⟨h1, ?_⟩
    show (match alookup cur.indices m, alookup target.indices m with
      | some a, some b => normNe a.sql b.sql
      | _, _ => false) = true
    rw [hc, ht]
    exact hnn

theorem pragma_changes_eq (cur target : DB) :
    (analyzeChangesRaw cur target).pragma_changes
      = !(cur.userVersion == target.userVersion) := rfl

/-! ## A successful apply converges the schema -/

theorem applyChanges_ok_converges {allow : Bool} {failAt : Option Nat} {cur target : DB}
    {st0 st2 : St}
    (hwc : WfCur cur) (hwt : WfTarget target) (hcoh : colsCoherent cur target)
    (htmp : ∀ n ∈ tableNames cur ++ tableNames target,
        containsSubstrS n "_migration_new" = false)
    (hst0 : st0.tx = cur)
    (h : applyChanges allow failAt target (analyzeChangesRaw cur target) st0 = .ok st2) :
    schemaConverged st2.tx target := by
  obtain ⟨hndct, hndci⟩ := hwc
  obtain ⟨hndtt, hndti, hwtab⟩ := hwt
  unfold applyChanges at h
  rw [exceptBind_ok] at h
  obtain ⟨stA, hA, h⟩ := h
  rw [exceptBind_ok] at h
  obtain ⟨stB, hB, h⟩ := h
  rw [exceptBind_ok] at h
  obtain ⟨stC, hC, h⟩ := h
  by_cases hrefuse : (!(((stC.tx.indices.map (fun e => e.1)).filter
      (fun n => (alookup target.indices n).isNone)).isEmpty) && !allow) = true
  · rw [if_pos hrefuse] at h
    exact absurd h (by simp)
  rw [if_neg hrefuse] at h
  rw [exceptBind_ok] at h
  obtain ⟨stE, hE, hP⟩ := h
  obtain ⟨iA, vA, pA, cA, nA, ndA, sA⟩ :=
    createNewTables_ok_char failAt target (analyzeChangesRaw cur target).new_tables st0 stA hA
  rw [hst0] at iA vA pA nA ndA sA
  have hndmod : (analyzeChangesRaw cur target).modified_tables.Nodup := by
    show ((tableNames cur).filter _).Nodup
    exact hndct.filter _
  have htempmod : ∀ m ∈ (analyzeChangesRaw cur target).modified_tables,
      ∀ k, m ≠ tempNameOf k := by
    intro m hm
    have hmc : m ∈ tableNames cur := ((mem_modified_tables_iff cur target m).mp hm).1
    exact not_temp_of_no_marker (htmp m (List.mem_append.mpr (Or.inl hmc)))
  have hndA : (tableNames stA.tx).Nodup := ndA hndct
  obtain ⟨ndB, vB, sB, pB, cB, nB, iB⟩ :=
    rebuildModified_ok_char (analyzeChangesRaw cur target).modified_tables stA stB hB
      hndA hndmod htempmod
  obtain ⟨vC, tC, iC, dC, pC⟩ := dropRemovedTables_ok_char hC ndB
  have hndiC : (stC.tx.indices.map Prod.fst).Nodup := by
    refine iC.nodup (sB.nodup ?_)
    rw [iA, ← indexNames_eq]
    exact hndci
  have hnditgt : (target.indices.map Prod.fst).Nodup := by
    rw [← indexNames_eq]
    exact hndti
  obtain ⟨tE, vE, mE, nE⟩ := migrateIndicesM_ok_char hE hndiC hnditgt
  have hprag : st2.tx.tables = stE.tx.tables ∧ st2.tx.indices = stE.tx.indices ∧
      ((analyzeChangesRaw cur target).pragma_changes = true ∧ target.userVersion ≠ 0 →
        st2.tx.userVersion = target.userVersion) ∧
      ((analyzeChangesRaw cur target).pragma_changes = false ∨ target.userVersion = 0 →
        st2.tx.userVersion = stE.tx.userVersion) := by
    by_cases hpc : (analyzeChangesRaw cur target).pragma_changes = true
    · rw [if_pos hpc] at hP
      by_cases htv : (!(target.userVersion == 0)) = true
      · rw [if_pos htv] at hP
        obtain ⟨hf, _, _, _⟩ := execStmt_ok hP
        rw [setUserVersionFn_eq] at hf
        have hdb : st2.tx = { stE.tx with userVersion := target.userVersion } :=
          (Option.some.inj hf).symm
        refine ⟨by rw [hdb], by rw [hdb], fun _ => by rw [hdb], fun hcase => ?_⟩
        rcases hcase with h1 | h1
        · rw [hpc] at h1
          exact absurd h1 (by simp)
        · rw [h1] at htv
          exact absurd htv (by simp)
      · rw [if_neg htv] at hP
        have hse : st2 = stE := (Except.ok.inj hP).symm
        subst hse
        refine ⟨rfl, rfl, fun hcase => ?_, fun _ => rfl⟩
        have h0 : (target.userVersion == 0) = true := by
          cases hb : (target.userVersion == 0)
          · exact absurd (show (!(target.userVersion == 0)) = true by rw [hb]; rfl) htv
          · rfl
        exact absurd (beq_iff_eq.mp h0) hcase.2
    · rw [if_neg hpc] at hP
      have hse : st2 = stE := (Except.ok.inj hP).symm
      subst hse
      refine ⟨rfl, rfl, fun hcase => absurd hcase.1 hpc, fun _ => rfl⟩
  have hTfin : st2.tx.tables = stC.tx.tables := by rw [hprag.1, tE]
  have hIfin : st2.tx.indices = stE.tx.indices := hprag.2.1
  have htab : ∀ m,
      (∀ ti, alookup target.tables m = some ti →
        ∃ a, alookup stC.tx.tables m = some a ∧
          normalize_sql a.sql = normalize_sql ti.sql ∧ a.cols = ti.cols) ∧
      (alookup target.tables m = none → alookup stC.tx.tables m = none) := by
    intro m
    constructor
    · intro ti hti
      have hmtgt : m ∈ tableNames target := by
        rw [tableNames_eq]
        exact (alookup_isSome_iff_mem target.tables m).mp (by rw [hti]; rfl)
      have hnotemp : ∀ k, m ≠ tempNameOf k :=
        not_temp_of_no_marker (htmp m (List.mem_append.mpr (Or.inr hmtgt)))
      have hnorem : m ∉ (analyzeChangesRaw cur target).removed_tables := by
        intro hm
        have h2 := ((mem_removed_tables_iff cur target m).mp hm).2
        rw [hti] at h2
        exact absurd h2 (by simp)
      rcases hcm : alookup cur.tables m with _ | ci
      · have hmnew : m ∈ (analyzeChangesRaw cur target).new_tables :=
          (mem_new_tables_iff cur target m).mpr ⟨hmtgt, hcm⟩
        have hmnomod : m ∉ (analyzeChangesRaw cur target).modified_tables := by
          intro hm
          obtain ⟨_, a, b, hc2, _, _⟩ := (mem_modified_tables_iff cur target m).mp hm
          rw [hcm] at hc2
          exact absurd hc2 (by simp)
        have hCval : alookup stC.tx.tables m = some ⟨ti.sql, ti.cols, []⟩ := by
          rw [pC m hnorem, pB m hmnomod hnotemp]
          exact cA m hmnew ti hti
        exact ⟨⟨ti.sql, ti.cols, []⟩, hCval, rfl, rfl⟩
      · have hmcur : m ∈ tableNames cur := by
          rw [tableNames_eq]
          exact (alookup_isSome_iff_mem cur.tables m).mp (by rw [hcm]; rfl)
        have hmnonew : m ∉ (analyzeChangesRaw cur target).new_tables := by
          intro hm
          have h2 := ((mem_new_tables_iff cur target m).mp hm).2
          rw [hcm] at h2
          exact absurd h2 (by simp)
        by_cases hnn : normNe ci.sql ti.sql = true
        · have hmmod : m ∈ (analyzeChangesRaw cur target).modified_tables :=
            (mem_modified_tables_iff cur target m).mpr ⟨hmcur, ci, ti, hcm, hti, hnn⟩
          obtain ⟨rows, hBval⟩ := cB m hmmod ti hti
          have hCval : alookup stC.tx.tables m
              = some ⟨renameSqlInDdl (tempSqlOf m ti.sql) (tempNameOf m) m, ti.cols, rows⟩ := by
            rw [pC m hnorem]
            exact hBval
          have hwm := hwtab (m, ti) (alookup_some_mem hti)
          exact ⟨_, hCval, rebuilt_sql_normalizes hwm.1 hwm.2, rfl⟩
        · have hnn2 : normNe ci.sql ti.sql = false := by
            cases hb : normNe ci.sql ti.sql
            · rfl
            · exact absurd hb hnn
          have hmnomod : m ∉ (analyzeChangesRaw cur target).modified_tables := by
            intro hm
            obtain ⟨_, a, b, hc2, ht2, hnns⟩ := (mem_modified_tables_iff cur target m).mp hm
            rw [hcm] at hc2
            rw [hti] at ht2
            have ha : a = ci := (Option.some.inj hc2).symm
            have hb : b = ti := (Option.some.inj ht2).symm
            rw [ha, hb] at hnns
            rw [hnns] at hnn2
            exact absurd hnn2 (by simp)
          have hCval : alookup stC.tx.tables m = some ci := by
            rw [pC m hnorem, pB m hmnomod hnotemp, pA m hmnonew]
            exact hcm
          exact ⟨ci, hCval, (normNe_false_iff _ _).mp hnn2,
                 hcoh m ci ti hcm hti ((normNe_false_iff _ _).mp hnn2)⟩
    · intro hti
      have hmnonew : m ∉ (analyzeChangesRaw cur target).new_tables := by
        intro hm
        have h1 := ((mem_new_tables_iff cur target m).mp hm).1
        rw [tableNames_eq] at h1
        have h2 := (alookup_isSome_iff_mem target.tables m).mpr h1
        rw [hti] at h2
        exact absurd h2 (by simp)
      have hmnomod : m ∉ (analyzeChangesRaw cur target).modified_tables := by
        intro hm
        obtain ⟨_, a, b, _, ht2, _⟩ := (mem_modified_tables_iff cur target m).mp hm
        rw [hti] at ht2
        exact absurd ht2 (by simp)
      rcases hcm : alookup cur.tables m with _ | ci
      · by_cases hfs : (alookup stC.tx.tables m).isSome = true
        · exfalso
          have hmB : (alookup stB.tx.tables m).isSome = true := by
            rw [alookup_isSome_iff_mem] at hfs ⊢
            rw [← tableNames_eq] at hfs ⊢
            exact tC.subset hfs
          rcases iB m hmB with h1 | h1
          · rcases sA m h1 with h2 | h2
            · rw [hcm] at h2
              exact absurd h2 (by simp)
            · exact hmnonew h2
          · exact hmnomod h1
        · cases hl : alookup stC.tx.tables m with
          | none => rfl
          | some v =>
            exfalso
            apply hfs
            rw [hl]
            rfl
      · have hmcur : m ∈ tableNames cur := by
          rw [tableNames_eq]
          exact (alookup_isSome_iff_mem cur.tables m).mp (by rw [hcm]; rfl)
        have hmrem : m ∈ (analyzeChangesRaw cur target).removed_tables :=
          (mem_removed_tables_iff cur target m).mpr ⟨hmcur, hti⟩
        exact dC m hmrem
  refine ⟨⟨?_, ?_⟩, ⟨?_, ?_⟩, ?_⟩
  · intro m
    rw [hTfin]
    rcases hti : alookup target.tables m with _ | ti
    · rw [(htab m).2 hti]
    · obtain ⟨a, ha, _, _⟩ := (htab m).1 ti hti
      rw [ha]
      rfl
  · intro m a b ha hb
    rw [hTfin] at ha
    obtain ⟨a2, ha2, hnorm, hcols⟩ := (htab m).1 b hb
    rw [ha] at ha2
    have haa : a2 = a := (Option.some.inj ha2).symm
    rw [haa] at hnorm hcols
    exact ⟨hnorm, hcols⟩
  · intro m
    rw [hIfin]
    rcases hti : alookup target.indices m with _ | ii
    · rw [nE m hti]
    · obtain ⟨v, hv, _⟩ := mE m ii hti
      rw [hv]
      rfl
  · intro m a b ha hb
    rw [hIfin] at ha
    obtain ⟨v, hv, hnorm⟩ := mE m b hb
    rw [ha] at hv
    have hvv : v = a := (Option.some.inj hv).symm
    rw [hvv] at hnorm
    exact hnorm
  · intro htv0
    by_cases hpc : (analyzeChangesRaw cur target).pragma_changes = true
    · exact hprag.2.2.1 ⟨hpc, htv0⟩
    · have hpc2 : (analyzeChangesRaw cur target).pragma_changes = false := by
        cases hb : (analyzeChangesRaw cur target).pragma_changes
        · rfl
        · exact absurd hb hpc
      have hvereq : cur.userVersion = target.userVersion := by
        rw [pragma_changes_eq] at hpc2
        have h2 : (cur.userVersion == target.userVersion) = true := by
          cases hb : (cur.userVersion == target.userVersion)
          · rw [hb] at hpc2
            exact absurd hpc2 (by simp)
          · rfl
        exact beq_iff_eq.mp h2
      rw [hprag.2.2.2 (Or.inl hpc2), vE, vC, vB, vA]
      exact hvereq

theorem analyzeChanges_ok_raw {allow : Bool} {cur target : DB} {ch : ChangesNeeded}
    (h : analyzeChanges allow cur target = .ok ch) : ch = analyzeChangesRaw cur target := by
  unfold analyzeChanges at h
  by_cases h1 : ((!(analyzeChangesRaw cur target).removed_tables.isEmpty
      || !(analyzeChangesRaw cur target).modified_tables.isEmpty) && !allow) = true
  · rw [if_pos h1] at h
    rcases hf : (analyzeChangesRaw cur target).modified_tables.find?
        (fun n => !(removedColumnsOf cur target n).isEmpty) with _ | n
    · rw [hf] at h
      by_cases h2 : (!(analyzeChangesRaw cur target).removed_tables.isEmpty) = true
      · rw [if_pos h2] at h
        exact absurd h (by simp)
      · rw [if_neg h2] at h
        exact (Except.ok.inj h).symm
    · rw [hf] at h
      exact absurd h (by simp)
  · rw [if_neg h1] at h
    exact (Except.ok.inj h).symm

theorem hasAnyChanges_false_parts {ch : ChangesNeeded} (h : ch.hasAnyChanges = false) :
    ch.new_tables = [] ∧ ch.removed_tables = [] ∧ ch.modified_tables = [] ∧
    ch.new_indices = [] ∧ ch.removed_indices = [] ∧ ch.modified_indices = [] ∧
    ch.pragma_changes = false := by
  unfold ChangesNeeded.hasAnyChanges at h
  simp only [Bool.or_eq_false_iff, Bool.not_eq_false'] at h
  obtain ⟨⟨⟨⟨⟨⟨h1, h2⟩, h3⟩, h4⟩, h5⟩, h6⟩, h7⟩ := h
  exact ⟨List.isEmpty_iff.mp h1, List.isEmpty_iff.mp h2, List.isEmpty_iff.mp h3,
         List.isEmpty_iff.mp h4, List.isEmpty_iff.mp h5, List.isEmpty_iff.mp h6, h7⟩

theorem diff_empty_converged {cur target : DB}
    (hcoh : colsCoherent cur target)
    (h : (analyzeChangesRaw cur target).hasAnyChanges = false) :
    schemaConverged cur target := by
  obtain ⟨h1, h2, h3, h4, h5, h6, h7⟩ := hasAnyChanges_false_parts h
  have hnotnew : ∀ m, m ∉ (analyzeChangesRaw cur target).new_tables := by
    intro m hm
    rw [h1] at hm
    exact List.not_mem_nil m hm
  have hnotrem : ∀ m, m ∉ (analyzeChangesRaw cur target).removed_tables := by
    intro m hm
    rw [h2] at hm
    exact List.not_mem_nil m hm
  have hnotmod : ∀ m, m ∉ (analyzeChangesRaw cur target).modified_tables := by
    intro m hm
    rw [h3] at hm
    exact List.not_mem_nil m hm
  have hnotnewi : ∀ m, m ∉ (analyzeChangesRaw cur target).new_indices := by
    intro m hm
    rw [h4] at hm
    exact List.not_mem_nil m hm
  have hnotremi : ∀ m, m ∉ (analyzeChangesRaw cur target).removed_indices := by
    intro m hm
    rw [h5] at hm
    exact List.not_mem_nil m hm
  have hnotmodi : ∀ m, m ∉ (analyzeChangesRaw cur target).modified_indices := by
    intro m hm
    rw [h6] at hm
    exact List.not_mem_nil m hm
  refine ⟨⟨?_, ?_⟩, ⟨?_, ?_⟩, ?_⟩
  · intro m
    rcases ht : alookup target.tables m with _ | ti
    · rcases hc : alookup cur.tables m with _ | ci
      · rfl
      · exfalso
        refine hnotrem m ((mem_removed_tables_iff cur target m).mpr ⟨?_, ht⟩)
        rw [tableNames_eq]
        exact (alookup_isSome_iff_mem cur.tables m).mp (by rw [hc]; rfl)
    · rcases hc : alookup cur.tables m with _ | ci
      · exfalso
        refine hnotnew m ((mem_new_tables_iff cur target m).mpr ⟨?_, hc⟩)
        rw [tableNames_eq]
        exact (alookup_isSome_iff_mem target.tables m).mp (by rw [ht]; rfl)
      · rfl
  · intro m a b ha hb
    have hnn : normNe a.sql b.sql = false := by
      cases hbb : normNe a.sql b.sql
      · rfl
      · exfalso
        refine hnotmod m ((mem_modified_tables_iff cur target m).mpr ⟨?_, a, b, ha, hb, hbb⟩)
        rw [tableNames_eq]
        exact (alookup_isSome_iff_mem cur.tables m).mp (by rw [ha]; rfl)
    have hnorm := (normNe_false_iff _ _).mp hnn
    exact ⟨hnorm, hcoh m a b ha hb hnorm⟩
  · intro m
    rcases ht : alookup target.indices m with _ | ii
    · rcases hc : alookup cur.indices m with _ | ci
      · rfl
      · exfalso
        refine hnotremi m ((mem_removed_indices_iff cur target m).mpr ⟨?_, ht⟩)
        rw [indexNames_eq]
        exact (alookup_isSome_iff_mem cur.indices m).mp (by rw [hc]; rfl)
    · rcases hc : alookup cur.indices m with _ | ci
      · exfalso
        refine hnotnewi m ((mem_new_indices_iff cur target m).mpr ⟨?_, hc⟩)
        rw [indexNames_eq]
        exact (alookup_isSome_iff_mem target.indices m).mp (by rw [ht]; rfl)
      · rfl
  · intro m a b ha hb
    have hnn : normNe a.sql b.sql = false := by
      cases hbb : normNe a.sql b.sql
      · rfl
      · exfalso
        refine hnotmodi m ((mem_modified_indices_iff cur target m).mpr ⟨?_, a, b, ha, hb, hbb⟩)
        rw [indexNames_eq]
        exact (alookup_isSome_iff_mem cur.indices m).mp (by rw [ha]; rfl)
    exact (normNe_false_iff _ _).mp hnn
  · intro _
    rw [pragma_changes_eq] at h7
    have hb : (cur.userVersion == target.userVersion) = true := by
      cases hbb : (cur.userVersion == target.userVersion)
      · rw [hbb] at h7
        exact absurd h7 (by simp)
      · rfl
    exact beq_iff_eq.mp hb

theorem converged_plan_empty {db1 target : DB}
    (hconv : schemaConverged db1 target) :
    (analyzeChangesRaw db1 target).new_tables = [] ∧
    (analyzeChangesRaw db1 target).removed_tables = [] ∧
    (analyzeChangesRaw db1 target).modified_tables = [] ∧
    (analyzeChangesRaw db1 target).new_indices = [] ∧
    (analyzeChangesRaw db1 target).removed_indices = [] ∧
    (analyzeChangesRaw db1 target).modified_indices = [] := by
  obtain ⟨⟨hts, htv⟩, ⟨his, hiv⟩, hver⟩ := hconv
  refine ⟨?_, ?_, ?_, ?_, ?_, ?_⟩
  · show (tableNames target).filter (fun n => (alookup db1.tables n).isNone) = []
    refine List.filter_eq_nil.mpr ?_
    intro m hm
    have h1 : (alookup target.tables m).isSome = true := by
      rw [alookup_isSome_iff_mem, ← tableNames_eq]
      exact hm
    have h2 := hts m
    rw [h1] at h2
    intro hcontra
    rw [Option.isNone_iff_eq_none] at hcontra
    rw [hcontra] at h2
    exact absurd h2 (by simp)
  · show (tableNames db1).filter (fun n => (alookup target.tables n).isNone) = []
    refine List.filter_eq_nil.mpr ?_
    intro m hm
    have h1 : (alookup db1.tables m).isSome = true := by
      rw [alookup_isSome_iff_mem, ← tableNames_eq]
      exact hm
    have h2 := hts m
    rw [h1] at h2
    intro hcontra
    rw [Option.isNone_iff_eq_none] at hcontra
    rw [hcontra] at h2
    exact absurd h2.symm (by simp)
  · show (tableNames db1).filter (fun n =>
        match alookup db1.tables n, alookup target.tables n with
        | some a, some b => normNe a.sql b.sql
        | _, _ => false) = []
    refine List.filter_eq_nil.mpr ?_
    intro m hm
    have h1 : (alookup db1.tables m).isSome = true := by
      rw [alookup_isSome_iff_mem, ← tableNames_eq]
      exact hm
    rcases ha : alookup db1.tables m with _ | a
    · rw [ha] at h1
      exact absurd h1 (by simp)
    · have h2 := hts m
      rw [ha] at h2
      rcases hb : alookup target.tables m with _ | b
      · rw [hb] at h2
        exact absurd h2 (by simp)
      · intro hcontra
        have hnn : normNe a.sql b.sql = true := hcontra
        have hnorm := (htv m a b ha hb).1
        rw [← normNe_false_iff] at hnorm
        rw [hnorm] at hnn
        exact absurd hnn (by simp)
  · show (indexNames target).filter (fun n => (alookup db1.indices n).isNone) = []
    refine List.filter_eq_nil.mpr ?_
    intro m hm
    have h1 : (alookup target.indices m).isSome = true := by
      rw [alookup_isSome_iff_mem, ← indexNames_eq]
      exact hm
    have h2 := his m
    rw [h1] at h2
    intro hcontra
    rw [Option.isNone_iff_eq_none] at hcontra
    rw [hcontra] at h2
    exact absurd h2 (by simp)
  · show (indexNames db1).filter (fun n => (alookup target.indices n).isNone) = []
    refine List.filter_eq_nil.mpr ?_
    intro m hm
    have h1 : (alookup db1.indices m).isSome = true := by
      rw [alookup_isSome_iff_mem, ← indexNames_eq]
      exact hm
    have h2 := his m
    rw [h1] at h2
    intro hcontra
    rw [Option.isNone_iff_eq_none] at hcontra
    rw [hcontra] at h2
    exact absurd h2.symm (by simp)
  · show (indexNames db1).filter (fun n =>
        match alookup db1.indices n, alookup target.indices n with
        | some a, some b => normNe a.sql b.sql
        | _, _ => false) = []
    refine List.filter_eq_nil.mpr ?_
    intro m hm
    have h1 : (alookup db1.indices m).isSome = true := by
      rw [alookup_isSome_iff_mem, ← indexNames_eq]
      exact hm
    rcases ha : alookup db1.indices m with _ | a
    · rw [ha] at h1
      exact absurd h1 (by simp)
    · have h2 := his m
      rw [ha] at h2
      rcases hb : alookup target.indices m with _ | b
      · rw [hb] at h2
        exact absurd h2 (by simp)
      · intro hcontra
        have hnn : normNe a.sql b.sql = true := hcontra
        have hnorm := hiv m a b ha hb
        rw [← normNe_false_iff] at hnorm
        rw [hnorm] at hnn
        exact absurd hnn (by simp)

theorem ok_bind {ε α β : Type} (a : α) (f : α → Except ε β) :
    (Except.ok a : Except ε α) >>= f = f a := rfl

theorem migrate_on_converged {allow2 : Bool} {failAt2 : Option Nat} {db1 target : DB}
    (hconv : schemaConverged db1 target)
    (hndti : (indexNames target).Nodup) :
    (migrate allow2 failAt2 db1 target).res = .ok false ∧
    (migrate allow2 failAt2 db1 target).db = db1 := by
  obtain ⟨he1, he2, he3, he4, he5, he6⟩ := converged_plan_empty hconv
  have han : analyzeChanges allow2 db1 target = .ok (analyzeChangesRaw db1 target) := by
    simp only [analyzeChanges]
    rw [he2, he3]
    simp
  unfold migrate
  by_cases hpc : (analyzeChangesRaw db1 target).pragma_changes = true
  · have hany : (analyzeChangesRaw db1 target).hasAnyChanges = true := by
      unfold ChangesNeeded.hasAnyChanges
      rw [hpc]
      simp
    have htv0 : target.userVersion = 0 := by
      by_contra htv
      have heq := hconv.2.2 htv
      rw [pragma_changes_eq, heq] at hpc
      simp at hpc
    have hfold1 : ∀ (st : St), db1.indices.foldlM (fun st e =>
        if (alookup target.indices e.1).isNone then
          execStmt failAt2 ("Drop obsolete index " ++ e.1) (dropIndexFn e.1) st
        else .ok st) st = .ok st := by
      intro st
      refine foldlM_ok_id _ _ st ?_
      intro e he s
      have h1 : (alookup db1.indices e.1).isSome = true := by
        rw [alookup_isSome_iff_mem]
        exact List.mem_map.mpr ⟨e, he, rfl⟩
      have h2 := hconv.2.1.1 e.1
      rw [h1] at h2
      have h3 : (alookup target.indices e.1).isNone = false := by
        rcases hb : alookup target.indices e.1 with _ | v
        · rw [hb] at h2
          exact absurd h2.symm (by simp)
        · rfl
      rw [if_neg (by rw [h3]; simp)]
    have hfold2 : ∀ (st : St), target.indices.foldlM (fun st e =>
        match alookup db1.indices e.1 with
        | some ci =>
          if normNe ci.sql e.2.sql then
            execStmt failAt2 ("Drop changed index " ++ e.1) (dropIndexFn e.1) st >>= fun st5 =>
            execStmt failAt2 ("Recreate index " ++ e.1) (createIndexFn e.1 e.2) st5
          else .ok st
        | none => execStmt failAt2 ("Create new index " ++ e.1) (createIndexFn e.1 e.2) st) st
        = .ok st := by
      intro st
      refine foldlM_ok_id _ _ st ?_
      intro e he s
      have h1 : (alookup target.indices e.1).isSome = true := by
        rw [alookup_isSome_iff_mem]
        exact List.mem_map.mpr ⟨e, he, rfl⟩
      have h2 := hconv.2.1.1 e.1
      rw [h1] at h2
      rcases hb : alookup db1.indices e.1 with _ | ci
      · rw [hb] at h2
        exact absurd h2 (by simp)
      · have htgt : alookup target.indices e.1 = some e.2 := by
          refine alookup_of_mem_nodup ?_ (by rw [← indexNames_eq]; exact hndti)
          exact he
        have hnorm := hconv.2.1.2 e.1 ci e.2 hb htgt
        have hnn : normNe ci.sql e.2.sql = false := by
          rw [normNe_false_iff]
          exact hnorm
        show (if normNe ci.sql e.2.sql then _ else Except.ok s) = Except.ok s
        rw [if_neg (by rw [hnn]; simp)]
    have happly : applyChanges allow2 failAt2 target (analyzeChangesRaw db1 target)
        { tx := db1, count := 0, attempt := 0, events := [] }
        = .ok { tx := db1, count := 0, attempt := 0, events := [] } := by
      unfold applyChanges
      have hA : createNewTables failAt2 target (analyzeChangesRaw db1 target).new_tables
          { tx := db1, count := 0, attempt := 0, events := [] }
          = .ok { tx := db1, count := 0, attempt := 0, events := [] } := by
        rw [he1]
        rfl
      have hB : rebuildModified allow2 failAt2 target (analyzeChangesRaw db1 target).modified_tables
          { tx := db1, count := 0, attempt := 0, events := [] }
          = .ok { tx := db1, count := 0, attempt := 0, events := [] } := by
        rw [he3]
        rfl
      have hC : dropRemovedTables allow2 failAt2 (analyzeChangesRaw db1 target).removed_tables
          { tx := db1, count := 0, attempt := 0, events := [] }
          = .ok { tx := db1, count := 0, attempt := 0, events := [] } := by
        rw [he2]
        rfl
      rw [hA, ok_bind, hB, ok_bind, hC, ok_bind]
      have hfilt : (((({ tx := db1, count := 0, attempt := 0, events := [] } : St).tx.indices.map
          (fun e => e.1)).filter (fun n => (alookup target.indices n).isNone))) = [] := by
        refine List.filter_eq_nil.mpr ?_
        intro m hm
        have h1 : (alookup db1.indices m).isSome = true := by
          rw [alookup_isSome_iff_mem]
          exact hm
        have h2 := hconv.2.1.1 m
        rw [h1] at h2
        intro hcontra
        rw [Option.isNone_iff_eq_none] at hcontra
        rw [hcontra] at h2
        exact absurd h2.symm (by simp)
      rw [hfilt]
      rw [if_neg (by simp)]
      unfold migrateIndicesM
      rw [hfold1, ok_bind, hfold2, ok_bind]
      rw [if_pos hpc]
      rw [if_neg (by rw [htv0]; simp)]
    rw [migrateWith_eq_applyOk han hany happly]
    exact ⟨rfl, rfl⟩
  · have hany : (analyzeChangesRaw db1 target).hasAnyChanges = false := by
      unfold ChangesNeeded.hasAnyChanges
      rw [he1, he2, he3, he4, he5, he6]
      cases hb : (analyzeChangesRaw db1 target).pragma_changes
      · rfl
      · exact absurd hb hpc
    rw [migrateWith_eq_noChanges han hany]
    exact ⟨rfl, rfl⟩

theorem migrateOk_converges {allow : Bool} {failAt : Option Nat} {cur target : DB} {b : Bool}
    (hwc : WfCur cur) (hwt : WfTarget target) (hcoh : colsCoherent cur target)
    (htmp : ∀ n ∈ tableNames cur ++ tableNames target,
        containsSubstrS n "_migration_new" = false)
    (hok : (migrate allow failAt cur target).res = .ok b) :
    schemaConverged (migrate allow failAt cur target).db target := by
  unfold migrate at hok ⊢
  rcases han : analyzeChanges allow cur target with e | ch
  · rw [migrateWith_eq_analyzeErr han] at hok
    exact absurd hok (by simp)
  · have hch := analyzeChanges_ok_raw han
    by_cases hany : ch.hasAnyChanges = true
    · rcases hap : applyChanges allow failAt target ch
          { tx := cur, count := 0, attempt := 0, events := [] } with ⟨e2, st⟩ | st
      · rw [migrateWith_eq_applyErr han hany hap] at hok
        exact absurd hok (by simp)
      · rw [migrateWith_eq_applyOk han hany hap]
        rw [hch] at hap
        exact applyChanges_ok_converges hwc hwt hcoh htmp rfl hap
    · have hany2 : ch.hasAnyChanges = false := by
        cases hb : ch.hasAnyChanges
        · rfl
        · exact absurd hb hany
      rw [migrateWith_eq_noChanges han hany2]
      refine diff_empty_converged hcoh ?_
      rw [← hch]
      exact hany2

/-! # Claims C1, C4, C5 -/

/-- C1 (amended): `migrate` is transactional. On any error the returned
database is byte-identical to the starting one and the event log is a run of
executed statements closed by a rollback. On `Ok`, for a live catalog with
unique names, a well-formed pristine target (unique word-character table
names whose stored DDL starts with `CREATE TABLE <name> (` without a later
recurrence of that phrase), coherent column metadata, and no name carrying
the reserved `_migration_new` marker, the schema converges to the target —
table and index sets match by name with pairwise equal normalized DDL and
equal column lists — except that a zero target `user_version` is never
written, so the version matches only when the target version is non-zero
(the counterexample shows `Ok` with a surviving version mismatch). -/
theorem c1_all_or_nothing (allow : Bool) (failAt : Option Nat) (cur target : DB)
    (hwc : WfCur cur) (hwt : WfTarget target) (hcoh : colsCoherent cur target)
    (htmp : ∀ n ∈ tableNames cur ++ tableNames target,
        containsSubstrS n "_migration_new" = false) :
    (∀ e, (migrate allow failAt cur target).res = .error e →
        (migrate allow failAt cur target).db = cur ∧
        ∃ es, ExecOnly es ∧
          (migrate allow failAt cur target).events = es ++ [Ev.rollback]) ∧
    (∀ b, (migrate allow failAt cur target).res = .ok b →
        schemaConverged (migrate allow failAt cur target).db target) := by
  constructor
  · intro e herr
    unfold migrate at herr ⊢
    rcases han : analyzeChanges allow cur target with e2 | ch
    · rw [migrateWith_eq_analyzeErr han] at herr ⊢
      exact ⟨rfl, [], fun x hx => absurd hx (List.not_mem_nil x), rfl⟩
    · by_cases hany : ch.hasAnyChanges = true
      · rcases hap : applyChanges allow failAt target ch
            { tx := cur, count := 0, attempt := 0, events := [] } with ⟨e2, st⟩ | st
        · rw [migrateWith_eq_applyErr han hany hap] at herr ⊢
          refine ⟨rfl, ?_⟩
          have hev := applyChanges_evolves allow failAt target ch
            { tx := cur, count := 0, attempt := 0, events := [] }
          rw [hap] at hev
          obtain ⟨es, hevents, hexec, _, _⟩ := hev
          refine ⟨es, hexec, ?_⟩
          show st.events ++ [Ev.rollback] = es ++ [Ev.rollback]
          rw [hevents]
          rfl
        · rw [migrateWith_eq_applyOk han hany hap] at herr
          exact absurd herr (by simp)
      · have hany2 : ch.hasAnyChanges = false := by
          cases hb : ch.hasAnyChanges
          · rfl
          · exact absurd hb hany
        rw [migrateWith_eq_noChanges han hany2] at herr
        exact absurd herr (by simp)
  · intro b hok
    exact migrateOk_converges hwc hwt hcoh htmp hok

/-- C1 witness: migrating the empty database to a one-table target succeeds
and the resulting schema converges to the target. -/
theorem c1_all_or_nothing_witness :
    (migrate true none dbEmpty dbOneTable).res = .ok true ∧
    schemaConverged (migrate true none dbEmpty dbOneTable).db dbOneTable :=
  ⟨by decide,
   (c1_all_or_nothing true none dbEmpty dbOneTable
      ⟨by decide, by decide⟩
      ⟨by decide, by decide, fun p hp => by
        have hp2 : p = ("users", ⟨"CREATE TABLE users (a)", ["a"], []⟩) := by
          simpa [dbOneTable] using hp
        rw [hp2]
        exact ⟨⟨by decide, by decide⟩, ⟨"a)", by decide, by decide⟩⟩⟩
      (fun n a b h1 => Option.noConfusion h1)
      (by decide)).2 true (by decide)⟩

set_option maxRecDepth 8192 in
/-- C4 counterexample: on a spec-conformant target whose default-value
string literal contains the phrase `CREATE TABLE t` again, the first
`migrate` succeeds, but `migrate_table`'s global replace also rewrites the
literal and the rename keeps the corruption in the stored DDL, so the
schema never converges: the second `migrate` returns `changed = true`
instead of `false`, and the follow-up plan still reports `t` as modified —
refuting the claim's universal idempotence. -/
theorem c4_cex :
    (migrate true none dbTLit dbTLitTarget).res = .ok true ∧
    (migrate true none (migrate true none dbTLit dbTLitTarget).db dbTLitTarget).res
      = .ok true ∧
    (planChanges (migrate true none dbTLit dbTLitTarget).db dbTLitTarget).modified_tables
      = ["t"] := by
  decide

/-- C4 (amended): idempotence holds for a well-formed catalog pair: unique
live and target names, every target table DDL in the canonical form
`CREATE TABLE <name> (` with a word-character name and no later recurrence
of the phrase `CREATE TABLE <name>`, coherent column metadata, and no name
carrying the reserved `_migration_new` marker. Under these assumptions, if
`migrate(D, targetDDL, allowDeletions = true)` succeeds, a second `migrate`
on the resulting database against the same target — with any
`allowDeletions` and any injected fault — returns `changed = false` and
leaves the database unchanged (the second call either sees an empty diff,
or, when the only pending entry is an unwritable zero target version,
applies a change plan that executes no statement). Outside these
assumptions the claim fails, as the counterexample shows. -/
theorem c4_idempotent (failAt1 : Option Nat) (allow2 : Bool) (failAt2 : Option Nat)
    (cur target : DB)
    (hwc : WfCur cur) (hwt : WfTarget target) (hcoh : colsCoherent cur target)
    (htmp : ∀ n ∈ tableNames cur ++ tableNames target,
        containsSubstrS n "_migration_new" = false)
    (b : Bool) (h1 : (migrate true failAt1 cur target).res = .ok b) :
    (migrate allow2 failAt2 (migrate true failAt1 cur target).db target).res = .ok false ∧
    (migrate allow2 failAt2 (migrate true failAt1 cur target).db target).db
      = (migrate true failAt1 cur target).db := by
  have hconv := migrateOk_converges hwc hwt hcoh htmp h1
  exact migrate_on_converged hconv hwt.2.1

/-- C4 witness: the live database carries `user_version = 1`, the target is a
single table with target version 0 (exercising the unwritable-pragma path);
the second call returns `changed = false` and leaves the database unchanged. -/
theorem c4_idempotent_witness :
    (migrate true none dbVersionOne dbOneTable).res = .ok true ∧
    (migrate false none (migrate true none dbVersionOne dbOneTable).db dbOneTable).res
      = .ok false ∧
    (migrate false none (migrate true none dbVersionOne dbOneTable).db dbOneTable).db
      = (migrate true none dbVersionOne dbOneTable).db :=
  ⟨by decide,
   c4_idempotent none false none dbVersionOne dbOneTable
     ⟨by decide, by decide⟩
     ⟨by decide, by decide, fun p hp => by
       have hp2 : p = ("users", ⟨"CREATE TABLE users (a)", ["a"], []⟩) := by
         simpa [dbOneTable] using hp
       rw [hp2]
       exact ⟨⟨by decide, by decide⟩, ⟨"a)", by decide, by decide⟩⟩⟩
     (fun n a b h1 => Option.noConfusion h1)
     (by decide)
     true (by decide)⟩

/-- C5 (amended): for a well-formed catalog pair (unique live and target
names, every target table DDL in the canonical `CREATE TABLE <name> (` form
with a word-character name and no later recurrence of that phrase, coherent
column metadata, no name carrying the `_migration_new` marker), after a
successful `migrate` the read-only plan on the resulting database reports
no table changes and no index changes of any kind; the only entry that can
remain is the `user_version` pragma, pending exactly when the target
version is 0 and the live version differs (the code never writes a zero
version — the counterexample exhibits this residue). When the target
version is non-zero the plan reports no changes at all. Outside these
assumptions convergence can fail (see the C4 analysis of a recurring
`CREATE TABLE <name>` phrase). -/
theorem c5_plan_after_migrate (allow : Bool) (failAt : Option Nat) (cur target : DB)
    (hwc : WfCur cur) (hwt : WfTarget target) (hcoh : colsCoherent cur target)
    (htmp : ∀ n ∈ tableNames cur ++ tableNames target,
        containsSubstrS n "_migration_new" = false)
    (b : Bool) (h1 : (migrate allow failAt cur target).res = .ok b) :
    ((planChanges (migrate allow failAt cur target).db target).new_tables = [] ∧
     (planChanges (migrate allow failAt cur target).db target).removed_tables = [] ∧
     (planChanges (migrate allow failAt cur target).db target).modified_tables = [] ∧
     (planChanges (migrate allow failAt cur target).db target).new_indices = [] ∧
     (planChanges (migrate allow failAt cur target).db target).removed_indices = [] ∧
     (planChanges (migrate allow failAt cur target).db target).modified_indices = []) ∧
    (target.userVersion ≠ 0 →
      (planChanges (migrate allow failAt cur target).db target).hasAnyChanges = false) := by
  have hconv := migrateOk_converges hwc hwt hcoh htmp h1
  have hempty := converged_plan_empty hconv
  obtain ⟨e1, e2, e3, e4, e5, e6⟩ := hempty
  refine ⟨⟨e1, e2, e3, e4, e5, e6⟩, ?_⟩
  intro htv
  have hver := hconv.2.2 htv
  show (analyzeChangesRaw (migrate allow failAt cur target).db target).hasAnyChanges = false
  unfold ChangesNeeded.hasAnyChanges
  rw [e1, e2, e3, e4, e5, e6, pragma_changes_eq, hver]
  simp

/-- C5 witness: migrating the empty database to an empty target with
`user_version = 1` succeeds (it writes the pragma), and the plan afterwards
reports no changes. -/
theorem c5_plan_after_migrate_witness :
    (migrate true none dbEmpty dbVersionOne).res = .ok true ∧
    (planChanges (migrate true none dbEmpty dbVersionOne).db dbVersionOne).hasAnyChanges
      = false :=
  ⟨by decide,
   (c5_plan_after_migrate true none dbEmpty dbVersionOne
      ⟨by decide, by decide⟩
      ⟨by decide, by decide, fun p hp => absurd hp (List.not_mem_nil p)⟩
      (fun n a b h1 => Option.noConfusion h1)
      (by decide)
      true (by decide)).2 (by decide)⟩

end SyllabusMig
